import Mathlib

/-!
# kore: the uncompressed PNG writer (`k_png.h`) and its checksums (`k_crc32.h`)

A shallow embedding of `pngWrite`, `__pngAdler32`, `crc32Update`, `crc32` and
`__crcMakeTable`, together with the arena functions `arenaInit`, `arenaAlloc`,
`arenaAlign` of `k_memory.h` and the string hashes `hash`, `hashString` of
`k_string.h`.  Bytes and 32-bit words are natural numbers; the signed 64-bit
counters of `pngWrite` (`count`, `deflateRemain`, `deflateFilled`, `lineSize`)
and its `int` cursors (`x`, `y`) are integers, and every cast to `u32`, `u16`
or `u8` that the C text performs is an explicit reduction modulo a power of two.

The arena that stages the output is modelled as the list of its allocations in
order, each remembering the call site of `arenaAlloc` that produced it; the
staged bytes are the concatenation of the allocations (`arenaAlloc` hands out
consecutive ranges while the arena has room, and `pngWrite` sizes the arena for
the whole file up front).
-/

set_option linter.unusedVariables false

namespace Kore

/-! ## Machine integer casts -/

/-- Conversion of a natural number to `u8`. -/
def u8 (n : Nat) : Nat := n % 256

/-- Conversion of a natural number to `u16`. -/
def u16 (n : Nat) : Nat := n % 65536

/-- Conversion of a natural number to `u32`. -/
def u32 (n : Nat) : Nat := n % 4294967296

/-- Conversion of a signed 64-bit value to `u32` (two's complement wrap). -/
def toU32 (v : Int) : Int := v % 4294967296

/-- Conversion of a signed 64-bit value to `u16` (two's complement wrap). -/
def toU16 (v : Int) : Int := v % 65536

/-- The four bytes `v >> 24, v >> 16, v >> 8, v`, each converted to `u8`. -/
def be32 (v : Nat) : List Nat := [u8 (v >>> 24), u8 (v >>> 16), u8 (v >>> 8), u8 v]

/-! ## `k_crc32.h` -/

/-- One round of the inner `for (k = 0; k < 8; k++)` loop of `__crcMakeTable`. -/
def crcTableRound (c : Nat) : Nat :=
  if c &&& 1 ≠ 0 then 0xedb88320 ^^^ (c >>> 1) else c >>> 1

/-- The value stored in `kCrcTable[n]`: eight rounds starting from `(u32)n`. -/
def crcTableEntry (n : Nat) : Nat :=
  crcTableRound (crcTableRound (crcTableRound (crcTableRound
    (crcTableRound (crcTableRound (crcTableRound (crcTableRound (u32 n))))))))

/-- The table built by `__crcMakeTable`, entries `0..255`. -/
def __crcMakeTable : List Nat := (List.range 256).map crcTableEntry

/-- The global `kCrcTable` once computed. -/
def kCrcTable : List Nat := __crcMakeTable

/-- One iteration of the loop of `crc32Update`:
`c = kCrcTable[(c ^ d[n]) & 0xff] ^ (c >> 8)`. -/
def crcByte (c d : Nat) : Nat :=
  kCrcTable.getD ((c ^^^ d) &&& 0xff) 0 ^^^ (c >>> 8)

/-- Running CRC over `data`, starting from `crc`. -/
def crc32Update (crc : Nat) (data : List Nat) : Nat :=
  data.foldl crcByte crc

/-- CRC of `data`: `crc32Update(0xffffffff, data, len) ^ 0xffffffff`. -/
def crc32 (data : List Nat) : Nat :=
  crc32Update 0xffffffff data ^^^ 0xffffffff

/-! ## `k_png.h` -/

/-- The macro `K_DEFLATE_MAX_BLOCK_SIZE`. -/
def K_DEFLATE_MAX_BLOCK_SIZE : Int := 65536

/-- The macro `K_BLOCK_HEADER_SIZE`. -/
def K_BLOCK_HEADER_SIZE : Nat := 5

/-- One iteration of the loop of `__pngAdler32` on the pair `(s1, s2)`. -/
def adlerByte (s : Nat × Nat) (d : Nat) : Nat × Nat :=
  let s1 := u16 ((s.1 + d) % 65521)
  let s2 := u16 ((s.2 + s1) % 65521)
  (s1, s2)

/-- The function `__pngAdler32(state, data, len)`. -/
def __pngAdler32 (state : Nat) (data : List Nat) : Nat :=
  let s := data.foldl adlerByte (u16 state, u16 (state >>> 16))
  (u32 s.2 <<< 16) ||| s.1

/-- The bytes of one `u32` pixel as seen through the `u8*` cast (little endian). -/
def pixelBytes (v : Nat) : List Nat :=
  [u8 v, u8 (v >>> 8), u8 (v >>> 16), u8 (v >>> 24)]

/-- The image buffer `img` viewed as bytes: `src = (u8 *)img`. -/
def imageBytes (img : List Nat) : List Nat :=
  (img.map pixelBytes).flatten

/-- The memory touched by the swizzle loops: the caller's buffer behind `src`,
the offset of the pointer `src` into it, and the bytes stored so far through
`dst` into the freshly allocated `newImg`. -/
structure SwizzleState where
  srcBuf : List Nat
  src : Nat
  dst : List Nat
  deriving DecidableEq, Repr

/-- The body of the inner swizzle loop: four stores through `dst` of bytes read
through `src`, then both pointers advance by four.  A read past the end of the
caller's buffer, which C leaves undefined, yields `0` here; it does not happen
when the buffer holds `width * height` pixels. -/
def swizzlePixel (s : SwizzleState) : SwizzleState :=
  { srcBuf := s.srcBuf
    src := s.src + 4
    dst := s.dst ++ [s.srcBuf.getD (s.src + 2) 0, s.srcBuf.getD (s.src + 1) 0,
      s.srcBuf.getD (s.src + 0) 0, s.srcBuf.getD (s.src + 3) 0] }

/-- The loop `for (xx = 0; xx < width; ++xx)`. -/
def swizzleRow : Nat → SwizzleState → SwizzleState
  | 0, s => s
  | k + 1, s => swizzleRow k (swizzlePixel s)

/-- The loop `for (yy = 0; yy < height; ++yy)`. -/
def swizzleRows (width : Nat) : Nat → SwizzleState → SwizzleState
  | 0, s => s
  | k + 1, s => swizzleRows width k (swizzleRow width s)

/-- The pixel normaliser at the start of `pngWrite`: the contents of `newImg`
after the two nested loops have run over `src`. -/
def swizzle (src : List Nat) (width height : Nat) : List Nat :=
  (swizzleRows width height ⟨src, 0, []⟩).dst

/-- Call sites of `arenaAlloc` inside `pngWrite`. -/
inductive AllocSite
  | fileHeader
  | blockHeader
  | filterByte
  | pixelData
  | footer
  deriving DecidableEq, Repr

/-- One allocation of the arena together with the bytes copied into it. -/
structure Alloc where
  site : AllocSite
  bytes : List Nat
  deriving DecidableEq, Repr

/-- The bytes staged in the arena, from `start` to the cursor. -/
def staged (arena : List Alloc) : List Nat :=
  (arena.map Alloc.bytes).flatten

/-- Result of running code that contains `K_ASSERT` and a loop. -/
inductive Outcome (α : Type)
  | ok (a : α)
  | assertFailed
  | outOfFuel
  deriving DecidableEq, Repr

/-- The array `header[]` of `pngWrite`. -/
def headerBytes (width height : Nat) (dataSize : Int) : List Nat :=
  [0x89, 0x50, 0x4e, 0x47, 0x0d, 0x0a, 0x1a, 0x0a,
   0x00, 0x00, 0x00, 0x0d,
   0x49, 0x48, 0x44, 0x52,
   u8 (width >>> 24), u8 (width >>> 16), u8 (width >>> 8), u8 width,
   u8 (height >>> 24), u8 (height >>> 16), u8 (height >>> 8), u8 height,
   0x08, 0x06, 0x00, 0x00, 0x00,
   0x00, 0x00, 0x00, 0x00,
   ((dataSize >>> 24) % 256).toNat, ((dataSize >>> 16) % 256).toNat,
   ((dataSize >>> 8) % 256).toNat, (dataSize % 256).toNat,
   0x49, 0x44, 0x41, 0x54,
   0x08, 0x1d]

/-- The first 43 bytes of the arena after `memoryCopy(header, p, ...)` and the
four stores `p[29] .. p[32]` of the IHDR checksum. -/
def stagedHeader (width height : Nat) (dataSize : Int) : List Nat :=
  let p := headerBytes width height dataSize
  let crc := crc32 ((p.drop 12).take 17)
  (((p.set 29 (u8 (crc >>> 24))).set 30 (u8 (crc >>> 16))).set 31 (u8 (crc >>> 8))).set 32 (u8 crc)

/-- The local variables of `pngWrite` that the emission loop reads and writes. -/
structure EmitState where
  arena : List Alloc
  crc : Nat
  adler : Nat
  x : Int
  y : Int
  count : Int
  deflateRemain : Int
  deflateFilled : Int
  imgBytes : List Nat
  deriving DecidableEq, Repr

/-- The array `blockHeader[]` built at the start of a DEFLATE block. -/
def blockHeaderBytes (deflateRemain : Int) : List Nat :=
  let size : Nat :=
    if deflateRemain < K_DEFLATE_MAX_BLOCK_SIZE then (toU16 deflateRemain).toNat
    else K_DEFLATE_MAX_BLOCK_SIZE.toNat
  [if deflateRemain ≤ K_DEFLATE_MAX_BLOCK_SIZE then 1 else 0,
   u8 size,
   u8 (size >>> 8),
   u8 (size ^^^ 0xff),
   u8 ((size >>> 8) ^^^ 0xff)]

/-- The block `if (deflateFilled == 0) { ... }` at the head of the loop body. -/
def startBlock (s : EmitState) : EmitState :=
  if s.deflateFilled = 0 then
    { s with
      arena := s.arena ++ [⟨AllocSite.blockHeader, blockHeaderBytes s.deflateRemain⟩]
      crc := crc32Update s.crc (blockHeaderBytes s.deflateRemain) }
  else s

/-- The value of `n` just before `K_ASSERT(deflateFilled < K_DEFLATE_MAX_BLOCK_SIZE)`. -/
def chunkBeforeClamp (lineSize : Int) (s : EmitState) : Int :=
  let n : Int := 0xffffffff
  let n := if toU32 s.count < n then toU32 s.count else n
  if toU32 (lineSize - s.x) < n then toU32 (lineSize - s.x) else n

/-- The value of `n` just before `K_ASSERT(n != 0)`. -/
def chunkSize (lineSize : Int) (s : EmitState) : Int :=
  let n := chunkBeforeClamp lineSize s
  if toU32 (K_DEFLATE_MAX_BLOCK_SIZE - s.deflateFilled) < n then
    toU32 (K_DEFLATE_MAX_BLOCK_SIZE - s.deflateFilled)
  else n

/-- The block `if (x == 0) { ... }`: the filter byte of a new row.  Returns the
new state and the new value of `n`. -/
def filterStep (s : EmitState) (n : Int) : EmitState × Int :=
  if s.x = 0 then
    ({ s with
       arena := s.arena ++ [⟨AllocSite.filterByte, [0]⟩]
       crc := crc32Update s.crc [0]
       adler := __pngAdler32 s.adler [0]
       deflateRemain := s.deflateRemain - 1
       deflateFilled := s.deflateFilled + 1
       x := s.x + 1 },
     if s.count ≠ n then toU32 (n - 1) else n)
  else (s, n)

/-- The statements from `p = arenaAlloc(&m, n)` to `x += n`. -/
def writeStep (s : EmitState) (n : Int) : EmitState :=
  let data := s.imgBytes.take n.toNat
  let filled := s.deflateFilled + n
  { s with
    arena := s.arena ++ [⟨AllocSite.pixelData, data⟩]
    crc := crc32Update s.crc data
    adler := __pngAdler32 s.adler data
    imgBytes := s.imgBytes.drop n.toNat
    count := s.count - n
    deflateRemain := s.deflateRemain - n
    deflateFilled := if filled = K_DEFLATE_MAX_BLOCK_SIZE then 0 else filled
    x := s.x + n }

/-- The array `footer[]` with its bytes 4..7 not yet patched. -/
def footerTemplate (adler : Nat) : List Nat :=
  [u8 (adler >>> 24), u8 (adler >>> 16), u8 (adler >>> 8), u8 adler,
   0, 0, 0, 0,
   0x00, 0x00, 0x00, 0x00,
   0x49, 0x45, 0x4e, 0x44,
   0xae, 0x42, 0x60, 0x82]

/-- The value of `crc` after `crc = crc32Update(crc, footer, 20)`. -/
def footerCrc (crc adler : Nat) : Nat :=
  crc32Update crc (footerTemplate adler)

/-- The array `footer[]` as copied into the arena. -/
def footerBytes (crc adler : Nat) : List Nat :=
  let c := footerCrc crc adler
  ((((footerTemplate adler).set 4 (u8 (c >>> 24))).set 5 (u8 (c >>> 16))).set 6
    (u8 (c >>> 8))).set 7 (u8 c)

/-- The block `if (x == lineSize) { ... }`; the flag tells whether `break` was
reached. -/
def wrapStep (lineSize height : Int) (s : EmitState) : EmitState × Bool :=
  if s.x = lineSize then
    let s := { s with x := 0, y := s.y + 1 }
    if s.y = height then
      ({ s with
         arena := s.arena ++ [⟨AllocSite.footer, footerBytes s.crc s.adler⟩]
         crc := footerCrc s.crc s.adler }, true)
    else (s, false)
  else (s, false)

/-- One pass through the body of `while (count > 0)`. -/
def emitBody (lineSize height : Int) (s : EmitState) : Outcome (EmitState × Bool) :=
  let s := startBlock s
  if ¬ (s.deflateFilled < K_DEFLATE_MAX_BLOCK_SIZE) then Outcome.assertFailed
  else
    let n := chunkSize lineSize s
    if n = 0 then Outcome.assertFailed
    else
      let r := filterStep s n
      Outcome.ok (wrapStep lineSize height (writeStep r.1 r.2))

/-- The loop `while (count > 0) { ... }`, bounded by `fuel` iterations. -/
def emitLoop (lineSize height : Int) : Nat → EmitState → Outcome EmitState
  | 0, s => if s.count > 0 then Outcome.outOfFuel else Outcome.ok s
  | fuel + 1, s =>
    if s.count > 0 then
      match emitBody lineSize height s with
      | Outcome.ok (s1, true) => Outcome.ok s1
      | Outcome.ok (s1, false) => emitLoop lineSize height fuel s1
      | Outcome.assertFailed => Outcome.assertFailed
      | Outcome.outOfFuel => Outcome.outOfFuel
    else Outcome.ok s

/-- The value `lineSize` of `pngWrite`. -/
def lineSizeOf (width : Nat) : Int := (width : Int) * 4 + 1

/-- The value `imgSize` of `pngWrite`. -/
def imgSizeOf (width height : Nat) : Int := lineSizeOf width * (height : Int)

/-- The value `dataSize` of `pngWrite`. -/
def dataSizeOf (width height : Nat) : Int :=
  let imgSize := imgSizeOf width height
  let overheadSize := imgSize / K_DEFLATE_MAX_BLOCK_SIZE
  let overheadSize :=
    if overheadSize * K_DEFLATE_MAX_BLOCK_SIZE < imgSize then overheadSize + 1 else overheadSize
  let overheadSize := overheadSize * 5 + 6
  imgSize + overheadSize

/-- The value `fileSize` of `pngWrite`. -/
def fileSizeOf (width height : Nat) : Int := 43 + (dataSizeOf width height + 4)

/-- The state of `pngWrite` when the emission loop is entered. -/
def initialState (img : List Nat) (width height : Nat) : EmitState :=
  let p := stagedHeader width height (dataSizeOf width height)
  { arena := [⟨AllocSite.fileHeader, p⟩]
    crc := crc32 ((p.drop 37).take 6)
    adler := 1
    x := 0
    y := 0
    count := (width : Int) * (height : Int) * 4
    deflateRemain := imgSizeOf width height
    deflateFilled := 0
    imgBytes := swizzle (imageBytes img) width height }

/-- The arena of `pngWrite` at `// Transfer file`.  The loop consumes at least
one payload byte per pass, so `imgSize` passes are enough fuel. -/
def pngWriteArena (img : List Nat) (width height : Nat) : Outcome (List Alloc) :=
  match emitLoop (lineSizeOf width) (height : Int) (imgSizeOf width height).toNat
      (initialState img width height) with
  | Outcome.ok s => Outcome.ok s.arena
  | Outcome.assertFailed => Outcome.assertFailed
  | Outcome.outOfFuel => Outcome.outOfFuel

/-- The bytes that `pngWrite(fileName, img, width, height)` copies into the
blob, that is, the contents of the file on its success path.  `width` and
`height` are the non-negative values of the `int` parameters; the products
`width * height * sizeof(u32)` and `lineSize * height` are taken without
overflow and the `int` cursors `x` and `y` do not wrap, as in C whenever
`width * height < 2^31`, `4 * width + 1 < 2^31` and `height < 2^31`. -/
def pngWrite (img : List Nat) (width height : Nat) : Outcome (List Nat) :=
  match pngWriteArena img width height with
  | Outcome.ok arena => Outcome.ok (staged arena)
  | Outcome.assertFailed => Outcome.assertFailed
  | Outcome.outOfFuel => Outcome.outOfFuel

/-! ## Reading the arena -/

/-- The payload rows that the PNG format asks for: per row one filter byte `0`
followed by the `4 * width` bytes of that row of `pixels`. -/
def payloadRows (width : Nat) : Nat → List Nat → List Nat
  | 0, _ => []
  | k + 1, pixels =>
    0 :: (pixels.take (4 * width) ++ payloadRows width k (pixels.drop (4 * width)))

/-- The payload that is still to be written when the loop is `x` bytes into a
row with `rows` rows (the current one included) left and `pixels` unread. -/
def restPayload (width rows x : Nat) (pixels : List Nat) : List Nat :=
  if x = 0 then payloadRows width rows pixels
  else pixels.take (4 * width + 1 - x) ++
    payloadRows width (rows - 1) (pixels.drop (4 * width + 1 - x))

/-- The arena read as a DEFLATE stream: a block header, or one payload byte. -/
inductive Tok
  | hdr (bytes : List Nat)
  | dat (b : Nat)
  deriving DecidableEq, Repr

/-- The tokens of one allocation. -/
def Alloc.toks (a : Alloc) : List Tok :=
  if a.site = AllocSite.blockHeader then [Tok.hdr a.bytes] else a.bytes.map Tok.dat

/-- The tokens of a run of allocations. -/
def toks (arena : List Alloc) : List Tok :=
  (arena.map Alloc.toks).flatten

/-- The payload bytes among a list of tokens. -/
def Tok.payload : List Tok → List Nat
  | [] => []
  | Tok.hdr _ :: ts => Tok.payload ts
  | Tok.dat b :: ts => b :: Tok.payload ts

/-- The block headers among a list of tokens. -/
def Tok.headers : List Tok → List (List Nat)
  | [] => []
  | Tok.hdr h :: ts => h :: Tok.headers ts
  | Tok.dat _ :: ts => Tok.headers ts

/-- The bytes of a list of tokens. -/
def Tok.bytes : List Tok → List Nat
  | [] => []
  | Tok.hdr h :: ts => h ++ Tok.bytes ts
  | Tok.dat b :: ts => b :: Tok.bytes ts

/-- The allocations of the arena made for payload (filter bytes and pixel
bytes), concatenated: the staged stream with the block headers removed. -/
def payloadOf (arena : List Alloc) : List Nat :=
  ((arena.filter fun a => a.site = AllocSite.filterByte ∨ a.site = AllocSite.pixelData).map
    Alloc.bytes).flatten

/-- The block headers of the arena, in order. -/
def blockHeadersOf (arena : List Alloc) : List (List Nat) :=
  (arena.filter fun a => a.site = AllocSite.blockHeader).map Alloc.bytes

/-- Whether `pngWrite` starts a block at payload offset `pos` of an image whose
payload has `total` bytes: at every multiple of 65536, except at the last
payload byte of an image whose rows have at most 65536 pixel bytes. -/
def headerAt (width total pos : Nat) : Prop :=
  pos % 65536 = 0 ∧ ¬ (4 * width ≤ 65536 ∧ pos + 1 = total)

instance (width total pos : Nat) : Decidable (headerAt width total pos) := by
  unfold headerAt; exact inferInstance

/-- The tokens that `pngWrite` stages for the payload bytes `bs` that sit at
offsets `pos, pos + 1, ...` of a payload of `total` bytes. -/
def frameToks (width total : Nat) : Nat → List Nat → List Tok
  | _, [] => []
  | pos, b :: bs =>
    (if headerAt width total pos then [Tok.hdr (blockHeaderBytes ((total : Int) - pos))]
      else []) ++ Tok.dat b :: frameToks width total (pos + 1) bs

/-! ## Bookkeeping of the emission loop -/

/-- The relation between the counters of `pngWrite` at the head of a pass of the
emission loop, `r` rows being left (the current one included) and `x` bytes of
the current row being written. -/
structure Counters (w h : Nat) (s : EmitState) (r x : Nat) : Prop where
  hr1 : 1 ≤ r
  hrh : r ≤ h
  hx : x ≤ 4 * w
  hw : 1 ≤ w
  hsz : 4 * (w * h) < 4294967296
  sx : s.x = x
  sy : s.y = (h : Int) - r
  scount : s.count = 4 * (w * r : Nat) - ((x - 1 : Nat) : Int)
  sremain : s.deflateRemain = 4 * (w * r : Nat) + r - x
  sfilled : s.deflateFilled = (((4 * (w * h) + h - (4 * (w * r) + r - x) : Nat) % 65536 : Nat) : Int)
  simg : (s.imgBytes.length : Int) = s.count
  hsplit : 0 < x → s.deflateFilled = 0 ∧ ¬ (r = 1 ∧ 4 * w ≤ 65536 ∧ x = 4 * w)

/-- The allocations made by one pass of the loop body before the wrap-up test,
`n` being the number of pixel bytes copied. -/
def passPieces (s : EmitState) (n : Nat) : List Alloc :=
  (if s.deflateFilled = 0 then [⟨AllocSite.blockHeader, blockHeaderBytes s.deflateRemain⟩]
    else []) ++
  (if s.x = 0 then [⟨AllocSite.filterByte, [0]⟩] else []) ++
  [⟨AllocSite.pixelData, s.imgBytes.take n⟩]

/-- The number of pixel bytes copied by one pass. -/
def passPixels (w : Nat) (s : EmitState) : Int :=
  let n0 := min s.count (min ((4 * w + 1 : Int) - s.x) (65536 - s.deflateFilled))
  if s.x = 0 ∧ s.count ≠ n0 then n0 - 1 else n0

/-- The number of payload bytes written by one pass. -/
def passBytes (w : Nat) (s : EmitState) : Int :=
  (if s.x = 0 then 1 else 0) + passPixels w s

/-- The number of payload bytes of a `w` by `h` image: `imgSize`. -/
def payloadSize (w h : Nat) : Nat := 4 * (w * h) + h

/-- The number of payload bytes already written when `r` rows are left and the
loop is `x` bytes into the current row. -/
def emitted (w h r x : Nat) : Nat := payloadSize w h - (4 * (w * r) + r - x)

/-- What the emission loop leaves behind when it is entered in state `s` with
`rest` still to be written from payload offset `pos` on: the allocations `body`
it adds before the footer, and its final state `fin`. -/
structure LoopResult (w h : Nat) (s : EmitState) (pos : Nat) (rest : List Nat)
    (fin : EmitState) (body : List Alloc) : Prop where
  arena : fin.arena = s.arena ++ body ++
    [⟨AllocSite.footer,
      footerBytes (crc32Update s.crc (staged body)) (__pngAdler32 s.adler rest)⟩]
  toks : toks body = frameToks w (payloadSize w h) pos rest
  sites : ∀ a ∈ body, a.site ≠ AllocSite.fileHeader ∧ a.site ≠ AllocSite.footer
  crc : fin.crc = footerCrc (crc32Update s.crc (staged body)) (__pngAdler32 s.adler rest)
  adler : fin.adler = __pngAdler32 s.adler rest
  x : fin.x = 0
  y : fin.y = h
  count : fin.count = 0
  remain : fin.deflateRemain = 0

/-- The four bytes of `newImg` for the pixel whose bytes start at offset `off` of
`buf`: bytes 2, 1, 0, 3 of the pixel. -/
def swizzledPixel (buf : List Nat) (off : Nat) : List Nat :=
  [buf.getD (off + 2) 0, buf.getD (off + 1) 0, buf.getD (off + 0) 0, buf.getD (off + 3) 0]

/-- The bytes stored by `n` consecutive passes of the swizzle body starting at
offset `off`. -/
def swizzled (buf : List Nat) : Nat → Nat → List Nat
  | _, 0 => []
  | off, n + 1 => swizzledPixel buf off ++ swizzled buf (off + 4) n

/-- The normalised pixel bytes `newImg` of an image. -/
def normalised (img : List Nat) (w h : Nat) : List Nat :=
  swizzle (imageBytes img) w h

/-- The decompressed stream of an image: per row the filter byte `0` followed by
the row's normalised pixel bytes. -/
def payload (img : List Nat) (w h : Nat) : List Nat :=
  payloadRows w h (normalised img w h)

/-- The running CRC that `pngWrite` holds when the loop is entered:
`crc32(&p[37], 6)`. -/
def idatCrcStart (w h : Nat) : Nat :=
  crc32 (((stagedHeader w h (dataSizeOf w h)).drop 37).take 6)

/-- The shape of the arena that `pngWrite` hands to the blob: the file header,
the allocations `body` of the loop, and the footer. -/
structure ArenaShape (img : List Nat) (w h : Nat) (arena body : List Alloc) : Prop where
  arena : arena = ⟨AllocSite.fileHeader, stagedHeader w h (dataSizeOf w h)⟩ :: body ++
    [⟨AllocSite.footer,
      footerBytes (crc32Update (idatCrcStart w h) (staged body))
        (__pngAdler32 1 (payload img w h))⟩]
  toks : toks body = frameToks w (payloadSize w h) 0 (payload img w h)
  sites : ∀ a ∈ body, a.site ≠ AllocSite.fileHeader ∧ a.site ≠ AllocSite.footer

/-! ## A reference PNG decoder

The decoder against which the round trip is stated: signature check, chunk
parsing with CRC-32 verification, zlib header check, inflate of stored blocks
honouring each block's LEN and NLEN, Adler-32 verification, and removal of the
filter byte of rows filtered with method 0.  Its checksums are written out bit by
bit and sum by sum, independently of `k_crc32.h` and `k_png.h`. -/

/-- The big-endian value of the first four bytes of a list. -/
def readBe32 : List Nat → Option Nat
  | a :: b :: c :: d :: _ => some (((a * 256 + b) * 256 + c) * 256 + d)
  | _ => none

/-- One bit of the reflected CRC-32: shift right, and XOR the polynomial in when
the bit shifted out was set. -/
def refCrcBit (c : Nat) : Nat :=
  if c % 2 = 1 then (c / 2) ^^^ 0xEDB88320 else c / 2

/-- One byte of the reflected CRC-32. -/
def refCrcByte (c b : Nat) : Nat :=
  refCrcBit (refCrcBit (refCrcBit (refCrcBit (refCrcBit (refCrcBit (refCrcBit (refCrcBit
    (c ^^^ b))))))))

/-- The reference CRC-32 of a byte sequence. -/
def refCrc32 (data : List Nat) : Nat :=
  data.foldl refCrcByte 0xFFFFFFFF ^^^ 0xFFFFFFFF

/-- The reference Adler-32 of a byte sequence. -/
def refAdler32 (data : List Nat) : Nat :=
  let s := data.foldl
    (fun (s : Nat × Nat) d => ((s.1 + d) % 65521, (s.2 + (s.1 + d) % 65521) % 65521)) (1, 0)
  s.2 * 65536 + s.1

/-- A chunk of a PNG file whose CRC has been verified. -/
structure PngChunk where
  type : List Nat
  data : List Nat
  deriving DecidableEq, Repr

/-- Splits a byte sequence into chunks, verifying the CRC of each one over its
type and data. -/
def parseChunks : Nat → List Nat → Option (List PngChunk)
  | 0, bs => if bs = [] then some [] else none
  | fuel + 1, bs =>
    if bs = [] then some []
    else
      match readBe32 bs with
      | none => none
      | some len =>
        if (bs.drop 4).length < len + 8 then none
        else
          match readBe32 (bs.drop (8 + len)) with
          | none => none
          | some crc =>
            if refCrc32 ((bs.drop 4).take (4 + len)) ≠ crc then none
            else
              match parseChunks fuel (bs.drop (12 + len)) with
              | none => none
              | some cs => some (⟨(bs.drop 4).take 4, (bs.drop 8).take len⟩ :: cs)

/-- Inflates a sequence of stored DEFLATE blocks; returns the data and the bytes
that follow the final block. -/
def inflateStored : Nat → List Nat → Option (List Nat × List Nat)
  | fuel + 1, hdr :: l0 :: l1 :: n0 :: n1 :: rest =>
    if (hdr / 2) % 4 ≠ 0 then none
    else if n0 + 256 * n1 ≠ (l0 + 256 * l1) ^^^ 0xFFFF then none
    else if rest.length < l0 + 256 * l1 then none
    else if hdr % 2 = 1 then some (rest.take (l0 + 256 * l1), rest.drop (l0 + 256 * l1))
    else
      match inflateStored fuel (rest.drop (l0 + 256 * l1)) with
      | none => none
      | some (d, tail) => some (rest.take (l0 + 256 * l1) ++ d, tail)
  | _, _ => none

/-- Decodes a zlib stream made of stored blocks, verifying header and Adler-32. -/
def zlibDecode : List Nat → Option (List Nat)
  | cmf :: flg :: rest =>
    if cmf % 16 ≠ 8 ∨ 7 < cmf / 16 then none
    else if (cmf * 256 + flg) % 31 ≠ 0 then none
    else if (flg / 32) % 2 ≠ 0 then none
    else
      match inflateStored rest.length rest with
      | none => none
      | some (data, tail) =>
        if tail.length ≠ 4 then none
        else if readBe32 tail = some (refAdler32 data) then some data else none
  | _ => none

/-- Removes the filter byte of each of `rows` rows of `4 * w` bytes; only filter
method 0 is accepted. -/
def unfilterRows (w : Nat) : Nat → List Nat → Option (List Nat)
  | 0, bs => if bs = [] then some [] else none
  | _ + 1, [] => none
  | k + 1, f :: bs =>
    if f ≠ 0 ∨ bs.length < 4 * w then none
    else
      match unfilterRows w k (bs.drop (4 * w)) with
      | none => none
      | some r => some (bs.take (4 * w) ++ r)

/-- A decoded 8-bit RGBA image. -/
structure DecodedImage where
  width : Nat
  height : Nat
  rgba : List Nat
  deriving DecidableEq, Repr

/-- The reference decoder for 8-bit RGBA PNG files with stored blocks. -/
def pngDecode (bs : List Nat) : Option DecodedImage :=
  if bs.take 8 ≠ [0x89, 0x50, 0x4e, 0x47, 0x0d, 0x0a, 0x1a, 0x0a] then none
  else
    match parseChunks bs.length (bs.drop 8) with
    | some (ihdr :: rest) =>
      if ihdr.type ≠ [0x49, 0x48, 0x44, 0x52] ∨ ihdr.data.length ≠ 13 ∨
          ihdr.data.drop 8 ≠ [8, 6, 0, 0, 0] then none
      else
        match readBe32 ihdr.data, readBe32 (ihdr.data.drop 4) with
        | some w, some h =>
          let idat := rest.takeWhile fun c => c.type = [0x49, 0x44, 0x41, 0x54]
          if idat = [] ∨
              (rest.dropWhile fun c => c.type = [0x49, 0x44, 0x41, 0x54]) ≠
                [⟨[0x49, 0x45, 0x4e, 0x44], []⟩] then none
          else
            match zlibDecode (idat.map PngChunk.data).flatten with
            | none => none
            | some raw =>
              match unfilterRows w h raw with
              | none => none
              | some px => some ⟨w, h, px⟩
        | _, _ => none
    | _ => none

/-- The 73 bytes that `pngWrite` stages for the 1 by 1 image whose pixel is
`0x11223344` (bytes B, G, R, A = `44 33 22 11`). -/
def onePixelFile : List Nat :=
  [0x89, 0x50, 0x4e, 0x47, 0x0d, 0x0a, 0x1a, 0x0a,
   0x00, 0x00, 0x00, 0x0d, 0x49, 0x48, 0x44, 0x52,
   0x00, 0x00, 0x00, 0x01, 0x00, 0x00, 0x00, 0x01, 0x08, 0x06, 0x00, 0x00, 0x00,
   0x1f, 0x15, 0xc4, 0x89,
   0x00, 0x00, 0x00, 0x10, 0x49, 0x44, 0x41, 0x54,
   0x08, 0x1d,
   0x01, 0x05, 0x00, 0xfa, 0xff,
   0x00, 0x22, 0x33, 0x44, 0x11,
   0x01, 0xbf, 0x00, 0xab,
   0xb1, 0x33, 0x98, 0x6b,
   0x00, 0x00, 0x00, 0x00, 0x49, 0x45, 0x4e, 0x44, 0xae, 0x42, 0x60, 0x82]

/-- The same file with its IDAT checksum (offsets 57..60) replaced by the CRC-32
of the IDAT type and data. -/
def onePixelFileRepaired : List Nat :=
  onePixelFile.take 57 ++ be32 (crc32 ((onePixelFile.drop 37).take 20)) ++ onePixelFile.drop 61

/-- The statements of `pngWrite` from `// Transfer file` on: the value returned,
`blobOk` telling whether `blobMake` handed back mapped bytes. -/
def pngWriteReturn (img : List Nat) (width height : Nat) (blobOk : Bool) : Outcome Bool :=
  match pngWrite img width height with
  | Outcome.ok _ => Outcome.ok blobOk
  | Outcome.assertFailed => Outcome.assertFailed
  | Outcome.outOfFuel => Outcome.outOfFuel

/-- Eight rounds of `refCrcBit`. -/
def refCrcBits8 (x : Nat) : Nat :=
  refCrcBit (refCrcBit (refCrcBit (refCrcBit (refCrcBit (refCrcBit (refCrcBit (refCrcBit x)))))))

/-- The low half of the reference Adler-32: `(1 + sum of b[i]) mod 65521`. -/
def adlerLow (b : List Nat) : Nat :=
  (1 + b.sum) % 65521

/-- The high half of the reference Adler-32:
`(n + sum over i of (n - i) * b[i]) mod 65521`, `n` being the length of `b`. -/
def adlerHigh (b : List Nat) : Nat :=
  (b.length + ((List.range b.length).map fun i => (b.length - i) * b.getD i 0).sum) % 65521

/-- The weighted sum `sum over i of (n - i) * b[i]`, by recursion on `b`. -/
def adlerWeighted : List Nat → Nat
  | [] => 0
  | d :: ds => (ds.length + 1) * d + adlerWeighted ds

/-- The number of offsets among `pos, pos + 1, ..., pos + n - 1` at which
`pngWrite` starts a block. -/
def headerCount (w total : Nat) : Nat → Nat → Nat
  | _, 0 => 0
  | pos, n + 1 => (if headerAt w total pos then 1 else 0) + headerCount w total (pos + 1) n

/-- The file that `pngWrite` stages for the 2 by 2 image with the pixels
`0x11223344`, `0x55667788`, `0x99aabbcc`, `0xddeeff00`. -/
def fourPixelFile : List Nat :=
  [0x89, 0x50, 0x4e, 0x47, 0x0d, 0x0a, 0x1a, 0x0a,
   0x00, 0x00, 0x00, 0x0d, 0x49, 0x48, 0x44, 0x52,
   0x00, 0x00, 0x00, 0x02, 0x00, 0x00, 0x00, 0x02, 0x08, 0x06, 0x00, 0x00, 0x00,
   0x72, 0xb6, 0x0d, 0x24,
   0x00, 0x00, 0x00, 0x1d, 0x49, 0x44, 0x41, 0x54,
   0x08, 0x1d,
   0x01, 0x12, 0x00, 0xed, 0xff,
   0x00, 0x22, 0x33, 0x44, 0x11, 0x66, 0x77, 0x88, 0x55,
   0x00, 0xaa, 0xbb, 0xcc, 0x99, 0xee, 0xff, 0x00, 0xdd,
   0x38, 0x1e, 0x07, 0xf9,
   0xb3, 0xbc, 0xd7, 0x66,
   0x00, 0x00, 0x00, 0x00, 0x49, 0x45, 0x4e, 0x44, 0xae, 0x42, 0x60, 0x82]

/-! ## `k_memory.h` -/

/-- The macro `K_ARENA_INCREMENT`. -/
def K_ARENA_INCREMENT : Int := 4096

/-- The macro `K_ARENA_ALIGN`. -/
def K_ARENA_ALIGN : Int := 8

/-- The structure `Arena`; the pointers `start` and `end` are addresses. -/
structure Arena where
  start : Int
  end_ : Int
  cursor : Int
  restore : Int
  deriving DecidableEq, Repr

/-- The function `arenaInit(arena, initialSize)`, `buffer` being what `malloc`
returned (`none` for a null pointer). -/
def arenaInit (buffer : Option Int) (arena : Arena) (initialSize : Int) : Arena :=
  match buffer with
  | some b => { start := b, end_ := b + initialSize, cursor := 0, restore := -1 }
  | none => arena

/-- The function `arenaAlloc(arena, size)`: the pointer returned and the arena
afterwards.  `self` is the address of the `Arena` structure, from which the
growth branch measures `currentSize` and which it hands to `realloc`; `realloc`
tells the address that call returns for a size (`none` for a null pointer), and
`fuel` bounds the retries `p = arenaAlloc(arena, size)` of the growth branch. -/
def arenaAlloc (self : Int) (realloc : Int → Option Int) (fuel : Nat) (arena : Arena)
    (size : Int) : Outcome (Int × Arena) :=
  if arena.start + arena.cursor + size > arena.end_ then
    let currentSize := arena.end_ - self
    let requiredSize := currentSize + size
    let newSize := currentSize + (if requiredSize < K_ARENA_INCREMENT then K_ARENA_INCREMENT
      else requiredSize)
    match realloc newSize with
    | some newArena =>
      match fuel with
      | 0 => Outcome.outOfFuel
      | fuel + 1 =>
        arenaAlloc self realloc fuel
          { arena with start := newArena, end_ := newArena + newSize } size
    | none => Outcome.ok (0, arena)
  else
    Outcome.ok (arena.start + arena.cursor, { arena with cursor := arena.cursor + size })

/-- The function `arenaAlign(arena)`; `%` is the remainder of C, which truncates. -/
def arenaAlign (self : Int) (realloc : Int → Option Int) (fuel : Nat) (arena : Arena) :
    Outcome (Int × Arena) :=
  let mod := Int.tmod arena.cursor K_ARENA_ALIGN
  let p := arena.start + arena.cursor
  if mod ≠ 0 then
    match arenaAlloc self realloc fuel arena (K_ARENA_ALIGN - mod) with
    | Outcome.ok r => Outcome.ok (p, r.2)
    | Outcome.assertFailed => Outcome.assertFailed
    | Outcome.outOfFuel => Outcome.outOfFuel
  else Outcome.ok (p, arena)

/-- The function `arenaAlignedAlloc(arena, numBytes)`. -/
def arenaAlignedAlloc (self : Int) (realloc : Int → Option Int) (fuel : Nat) (arena : Arena)
    (numBytes : Int) : Outcome (Int × Arena) :=
  match arenaAlign self realloc fuel arena with
  | Outcome.ok r => arenaAlloc self realloc fuel r.2 numBytes
  | Outcome.assertFailed => Outcome.assertFailed
  | Outcome.outOfFuel => Outcome.outOfFuel

/-! ## `k_string.h` -/

/-- Conversion of a natural number to `u64`. -/
def u64 (n : Nat) : Nat := n % 18446744073709551616

/-- The value that `h ^= *str` XORs into the `u64` when the byte `b` is read
through `const i8*`: the signed char is promoted to `int` and converted to
`u64`, which extends its sign. -/
def i8ToU64 (b : Nat) : Nat :=
  if u8 b < 128 then u8 b else 18446744073709551360 + u8 b

/-- One pass of the loop of `hash`: `h ^= *buffer++; h *= 1099511628211`, the
byte being read through `const u8*`. -/
def hashStep (h b : Nat) : Nat := u64 ((h ^^^ u8 b) * 1099511628211)

/-- The function `hash(buffer, len)` on the `len` bytes at `buffer`. -/
def hash (buffer : List Nat) : Nat :=
  buffer.foldl hashStep 14695981039346656037

/-- One pass of the loop of `hashString`: `h ^= *str++; h *= 1099511628211`, the
byte being read through `const i8*`. -/
def hashStringStep (h b : Nat) : Nat := u64 ((h ^^^ i8ToU64 b) * 1099511628211)

/-- The loop `while (*str != 0)` of `hashString` over the bytes at `str`; the
list is the memory up to and including the terminating NUL. -/
def hashStringLoop (h : Nat) : List Nat → Nat
  | [] => h
  | b :: rest => if b = 0 then h else hashStringLoop (hashStringStep h b) rest

/-- The function `hashString(str)` on the bytes at `str`. -/
def hashString (str : List Nat) : Nat :=
  hashStringLoop 14695981039346656037 str

/-- The field `hash` of the header written by `stringMakeRange(start, end)` for
the bytes of the range: `hash(hdr->str, size)`. -/
def stringMakeRangeHash (bytes : List Nat) : Nat := hash bytes

/-- The field `hash` of the header written by `stringFormatArgs` when
`vsnprintf` produced the characters `chars`, which it stores followed by a NUL:
`hashString(hdr->str)`. -/
def stringFormatArgsHash (chars : List Nat) : Nat := hashString (chars ++ [0])

/-- The states of `pngWrite` at the head of the passes of `while (count > 0)`
that are entered, in order, for a loop bounded by `fuel` passes. -/
def loopHeads (lineSize height : Int) : Nat → EmitState → List EmitState
  | 0, _ => []
  | fuel + 1, s =>
    if s.count > 0 then
      s :: (match emitBody lineSize height s with
        | Outcome.ok (s1, false) => loopHeads lineSize height fuel s1
        | _ => [])
    else []

/-- The loop heads of `pngWrite(fileName, img, width, height)`. -/
def pngWriteHeads (img : List Nat) (width height : Nat) : List EmitState :=
  loopHeads (lineSizeOf width) (height : Int) (imgSizeOf width height).toNat
    (initialState img width height)

/-! ## Checksums over concatenations -/

theorem crc32Update_append (c : Nat) (a b : List Nat) :
    crc32Update (crc32Update c a) b = crc32Update c (a ++ b) := by
  simp [crc32Update, List.foldl_append]

theorem adlerByte_lt (s : Nat × Nat) (d : Nat) :
    (adlerByte s d).1 < 65521 ∧ (adlerByte s d).2 < 65521 := by
  simp only [adlerByte, u16]
  omega

theorem adler_pack_lo {a b : Nat} (ha : a < 65536) (hb : b < 65536) :
    u16 ((u32 a <<< 16) ||| b) = b := by
  have h : u32 a <<< 16 ||| b = a * 65536 + b := by
    have h16 : b < 2 ^ 16 := by omega
    have := Nat.mul_add_lt_is_or h16 (u32 a)
    rw [Nat.shiftLeft_eq, Nat.mul_comm, ← this]
    simp only [u32]; omega
  rw [h]; simp only [u16]; omega

theorem adler_pack_hi {a b : Nat} (ha : a < 65536) (hb : b < 65536) :
    u16 (((u32 a <<< 16) ||| b) >>> 16) = a := by
  have h : u32 a <<< 16 ||| b = a * 65536 + b := by
    have h16 : b < 2 ^ 16 := by omega
    have := Nat.mul_add_lt_is_or h16 (u32 a)
    rw [Nat.shiftLeft_eq, Nat.mul_comm, ← this]
    simp only [u32]; omega
  rw [h, Nat.shiftRight_eq_div_pow]; simp only [u16]; omega

theorem adlerFold_lt (data : List Nat) (s : Nat × Nat) (h1 : s.1 < 65536) (h2 : s.2 < 65536) :
    (data.foldl adlerByte s).1 < 65536 ∧ (data.foldl adlerByte s).2 < 65536 := by
  induction data generalizing s with
  | nil => exact ⟨h1, h2⟩
  | cons d ds ih =>
    have := adlerByte_lt s d
    exact ih _ (by omega) (by omega)

theorem pngAdler32_append (st : Nat) (a b : List Nat) :
    __pngAdler32 (__pngAdler32 st a) b = __pngAdler32 st (a ++ b) := by
  unfold __pngAdler32
  have h := adlerFold_lt a (u16 st, u16 (st >>> 16)) (by simp only [u16]; omega)
    (by simp only [u16]; omega)
  simp only [List.foldl_append]
  rw [adler_pack_lo h.2 h.1, adler_pack_hi h.2 h.1]

theorem staged_append (a b : List Alloc) : staged (a ++ b) = staged a ++ staged b := by
  simp [staged]

theorem toks_append (a b : List Alloc) : toks (a ++ b) = toks a ++ toks b := by
  simp [toks]

theorem payloadOf_append (a b : List Alloc) : payloadOf (a ++ b) = payloadOf a ++ payloadOf b := by
  simp [payloadOf]

theorem blockHeadersOf_append (a b : List Alloc) :
    blockHeadersOf (a ++ b) = blockHeadersOf a ++ blockHeadersOf b := by
  simp [blockHeadersOf]

/-! ## One pass of the emission loop -/

@[simp]
theorem startBlock_x (s : EmitState) : (startBlock s).x = s.x := by
  unfold startBlock; split <;> rfl

@[simp]
theorem startBlock_y (s : EmitState) : (startBlock s).y = s.y := by
  unfold startBlock; split <;> rfl

@[simp]
theorem startBlock_count (s : EmitState) : (startBlock s).count = s.count := by
  unfold startBlock; split <;> rfl

@[simp]
theorem startBlock_deflateRemain (s : EmitState) :
    (startBlock s).deflateRemain = s.deflateRemain := by
  unfold startBlock; split <;> rfl

@[simp]
theorem startBlock_deflateFilled (s : EmitState) :
    (startBlock s).deflateFilled = s.deflateFilled := by
  unfold startBlock; split <;> rfl

@[simp]
theorem startBlock_imgBytes (s : EmitState) : (startBlock s).imgBytes = s.imgBytes := by
  unfold startBlock; split <;> rfl

@[simp]
theorem startBlock_adler (s : EmitState) : (startBlock s).adler = s.adler := by
  unfold startBlock; split <;> rfl

theorem chunkSize_eq {w h r x : Nat} {s : EmitState} (hc : Counters w h s r x) :
    chunkSize (lineSizeOf w) (startBlock s) =
      min s.count (min ((4 * w + 1 : Int) - x) (65536 - s.deflateFilled)) := by
  have h1 := hc.scount
  have h2 := hc.sfilled
  have h3 := hc.sx
  have h4 : w * r ≤ w * h := Nat.mul_le_mul_left w hc.hrh
  have h5 := hc.hsz
  have h6 := hc.hx
  have h7 : w * 1 ≤ w * r := Nat.mul_le_mul_left w hc.hr1
  simp only [chunkSize, chunkBeforeClamp, toU32, lineSizeOf, K_DEFLATE_MAX_BLOCK_SIZE,
    startBlock_count, startBlock_x, startBlock_deflateFilled]
  split_ifs <;> omega

theorem emitBody_eq {w h r x : Nat} {s : EmitState} (hc : Counters w h s r x) :
    ∃ mid : EmitState,
      emitBody (lineSizeOf w) h s = Outcome.ok (wrapStep (lineSizeOf w) h mid) ∧
      mid.arena = s.arena ++ passPieces s (passPixels w s).toNat ∧
      mid.crc = crc32Update s.crc (staged (passPieces s (passPixels w s).toNat)) ∧
      mid.adler = __pngAdler32 s.adler (payloadOf (passPieces s (passPixels w s).toNat)) ∧
      mid.x = s.x + passBytes w s ∧
      mid.y = s.y ∧
      mid.count = s.count - passPixels w s ∧
      mid.deflateRemain = s.deflateRemain - passBytes w s ∧
      mid.deflateFilled = (if s.deflateFilled + passBytes w s = 65536 then 0
        else s.deflateFilled + passBytes w s) ∧
      mid.imgBytes = s.imgBytes.drop (passPixels w s).toNat := by
  have h1 := hc.scount
  have h2 := hc.sfilled
  have h3 := hc.sx
  have h4 : w * r ≤ w * h := Nat.mul_le_mul_left w hc.hrh
  have h5 := hc.hsz
  have h6 := hc.hx
  have h7 : w * 1 ≤ w * r := Nat.mul_le_mul_left w hc.hr1
  have h8 := hc.hw
  have hn := chunkSize_eq hc
  have hn0 : chunkSize (lineSizeOf w) (startBlock s) ≠ 0 := by
    rw [hn]; omega
  have hf : (startBlock s).deflateFilled < K_DEFLATE_MAX_BLOCK_SIZE := by
    simp only [startBlock_deflateFilled, K_DEFLATE_MAX_BLOCK_SIZE]; omega
  unfold emitBody
  simp only [hf, not_true_eq_false, if_false, hn0]
  rw [hn]
  have hpix : (filterStep (startBlock s)
      (min s.count (min ((4 * w + 1 : Int) - x) (65536 - s.deflateFilled)))).2 =
      passPixels w s := by
    simp only [filterStep, passPixels, startBlock_x, startBlock_count, toU32, h3]
    split_ifs <;> first | rfl | omega
  have hpix0 : 0 ≤ passPixels w s := by
    simp only [passPixels]; split_ifs <;> omega
  refine ⟨_, rfl, ?_, ?_, ?_, ?_, ?_, ?_, ?_, ?_, ?_⟩
  · simp only [writeStep, hpix]
    simp only [filterStep, startBlock, passPieces]
    split_ifs <;> simp
  · simp only [writeStep, hpix]
    simp only [filterStep, startBlock, passPieces]
    split_ifs <;> simp [staged, crc32Update_append, crc32Update]
  · simp only [writeStep, hpix]
    simp only [filterStep, startBlock, passPieces]
    split_ifs <;> simp [payloadOf, pngAdler32_append]
  · simp only [writeStep, hpix]
    simp only [filterStep, startBlock_x, passBytes]
    split_ifs <;> simp <;> omega
  · simp only [writeStep]
    simp only [filterStep, startBlock_y]
    split_ifs <;> simp
  · simp only [writeStep, hpix]
    simp only [filterStep, startBlock_count, startBlock_x]
    split_ifs <;> simp
  · simp only [writeStep, hpix]
    simp only [filterStep, startBlock_deflateRemain, startBlock_x, passBytes]
    split_ifs <;> simp <;> omega
  · simp only [writeStep, hpix, K_DEFLATE_MAX_BLOCK_SIZE]
    simp only [filterStep, startBlock_deflateFilled, startBlock_x, passBytes]
    by_cases hx0 : s.x = 0
    · simp only [hx0, if_true, startBlock_deflateFilled, add_assoc]
    · simp only [hx0, if_false, startBlock_deflateFilled, zero_add]
  · simp only [writeStep, hpix]
    simp only [filterStep, startBlock_imgBytes, startBlock_x]
    split_ifs <;> simp

theorem pass_cases (w : Nat) (s : EmitState) :
    (s.x = 0 → passBytes w s = 1 + passPixels w s) ∧
    (s.x ≠ 0 → passBytes w s = passPixels w s) ∧
    (s.x = 0 ∧ s.count ≠ min s.count (min ((4 * w + 1 : Int) - s.x) (65536 - s.deflateFilled)) →
      passPixels w s =
        min s.count (min ((4 * w + 1 : Int) - s.x) (65536 - s.deflateFilled)) - 1) ∧
    (¬ (s.x = 0 ∧ s.count ≠ min s.count (min ((4 * w + 1 : Int) - s.x) (65536 - s.deflateFilled))) →
      passPixels w s =
        min s.count (min ((4 * w + 1 : Int) - s.x) (65536 - s.deflateFilled))) := by
  refine ⟨?_, ?_, ?_, ?_⟩
  · intro h; simp [passBytes, h]
  · intro h; simp [passBytes, h]
  · intro h; simp only [passPixels]; rw [if_pos h]
  · intro h; simp only [passPixels]; rw [if_neg h]

theorem passBytes_bounds {w h r x : Nat} {s : EmitState} (hc : Counters w h s r x) :
    0 ≤ passPixels w s ∧ passPixels w s ≤ s.count ∧ 1 ≤ passBytes w s ∧
      (x : Int) + passBytes w s ≤ 4 * w + 1 := by
  have h1 := hc.scount
  have h2 := hc.sfilled
  have h3 := hc.sx
  have h4 : w * r ≤ w * h := Nat.mul_le_mul_left w hc.hrh
  have h5 := hc.hsz
  have h6 := hc.hx
  have h7 : w * 1 ≤ w * r := Nat.mul_le_mul_left w hc.hr1
  have h8 := hc.hw
  obtain ⟨c1, c2, c3, c4⟩ := pass_cases w s
  generalize passPixels w s = n at *
  generalize passBytes w s = k at *
  omega

/-- The three shapes of one pass: a row start that is cut short by the block
or the row, a row start that copies all remaining pixels, and a pass inside a
row. -/
theorem pass_shape {w h r x : Nat} {s : EmitState} (hc : Counters w h s r x) :
    (x = 0 ∧ passBytes w s = min ((4 * w + 1 : Int)) (65536 - s.deflateFilled) ∧
      passPixels w s = passBytes w s - 1 ∧ passBytes w s < s.count) ∨
    (x = 0 ∧ r = 1 ∧ passPixels w s = 4 * w ∧ passBytes w s = 4 * w + 1 ∧
      (4 * w : Int) ≤ 65536 - s.deflateFilled) ∨
    (0 < x ∧ s.deflateFilled = 0 ∧ passPixels w s = passBytes w s ∧
      passBytes w s = min ((4 * w + 1 : Int) - x) 65536 ∧
      ((4 * w + 1 : Int) - x ≤ s.count)) := by
  have h1 := hc.scount
  have h2 := hc.sfilled
  have h3 := hc.sx
  have h4 : w * r ≤ w * h := Nat.mul_le_mul_left w hc.hrh
  have h5 := hc.hsz
  have h6 := hc.hx
  have h7 : w * 1 ≤ w * r := Nat.mul_le_mul_left w hc.hr1
  have h8 := hc.hw
  have h11 := hc.hsplit
  have h13 := hc.hr1
  have h15 : r = 1 → w * r = w := by intro e; subst e; simp
  have h16 : 2 ≤ r → w * 2 ≤ w * r := fun e => Nat.mul_le_mul_left w e
  obtain ⟨c1, c2, c3, c4⟩ := pass_cases w s
  generalize passPixels w s = n at *
  generalize passBytes w s = k at *
  rcases Nat.eq_zero_or_pos x with hx0 | hx0
  · subst hx0
    have hsx : s.x = 0 := by omega
    have c1' := c1 hsx
    clear c1 c2 h11
    by_cases hcn : s.count ≠ min s.count (min ((4 * w + 1 : Int) - s.x) (65536 - s.deflateFilled))
    · have c3' := c3 ⟨hsx, hcn⟩
      clear c3 c4
      left; omega
    · have c4' := c4 (fun e => hcn e.2)
      clear c3 c4
      right; left; omega
  · have hsx : s.x ≠ 0 := by omega
    have c2' := c2 hsx
    have c4' := c4 (fun e => hsx e.1)
    have h11' := (h11 hx0).1
    clear c1 c2 c3 c4 h11
    right; right; omega

theorem counters_same_row {w h r x : Nat} {s mid : EmitState} (hc : Counters w h s r x)
    (hx : mid.x = s.x + passBytes w s) (hy : mid.y = s.y)
    (hcount : mid.count = s.count - passPixels w s)
    (hrem : mid.deflateRemain = s.deflateRemain - passBytes w s)
    (hfill : mid.deflateFilled = (if s.deflateFilled + passBytes w s = 65536 then 0
        else s.deflateFilled + passBytes w s))
    (himg : mid.imgBytes = s.imgBytes.drop (passPixels w s).toNat)
    (hrow : (x : Int) + passBytes w s < 4 * w + 1) :
    Counters w h mid r (x + (passBytes w s).toNat) := by
  have h1 := hc.scount
  have h2 := hc.sfilled
  have h3 := hc.sx
  have h4 : w * r ≤ w * h := Nat.mul_le_mul_left w hc.hrh
  have h5 := hc.hsz
  have h6 := hc.hx
  have h7 : w * 1 ≤ w * r := Nat.mul_le_mul_left w hc.hr1
  have h8 := hc.hw
  have h9 := hc.sremain
  have h10 := hc.simg
  have h12 := hc.sy
  have h13 := hc.hr1
  have h14 := hc.hrh
  have h15 : r = 1 → w * r = w := by intro e; subst e; simp
  have hb := passBytes_bounds hc
  have hlen : (mid.imgBytes.length : Int) = s.imgBytes.length - (passPixels w s).toNat := by
    rw [himg, List.length_drop]; omega
  have hsh := pass_shape hc
  have hfill2 : (s.deflateFilled + passBytes w s = 65536 → mid.deflateFilled = 0) ∧
      (s.deflateFilled + passBytes w s ≠ 65536 →
        mid.deflateFilled = s.deflateFilled + passBytes w s) := by
    rw [hfill]; constructor <;> intro e <;> simp [e]
  clear hfill himg
  generalize passPixels w s = n at *
  generalize passBytes w s = k at *
  rcases hsh with ⟨e1, e2, e3, e4⟩ | ⟨e1, e2, e3, e4, e5⟩ | ⟨e1, e2, e3, e4, e5⟩
  · refine ⟨hc.hr1, hc.hrh, ?_, hc.hw, hc.hsz, ?_, ?_, ?_, ?_, ?_, ?_, ?_⟩ <;> omega
  · omega
  · refine ⟨hc.hr1, hc.hrh, ?_, hc.hw, hc.hsz, ?_, ?_, ?_, ?_, ?_, ?_, ?_⟩ <;> omega

theorem counters_next_row {w h r x : Nat} {s mid : EmitState} (hc : Counters w h s r x)
    (hy : mid.y = s.y)
    (hcount : mid.count = s.count - passPixels w s)
    (hrem : mid.deflateRemain = s.deflateRemain - passBytes w s)
    (hfill : mid.deflateFilled = (if s.deflateFilled + passBytes w s = 65536 then 0
        else s.deflateFilled + passBytes w s))
    (himg : mid.imgBytes = s.imgBytes.drop (passPixels w s).toNat)
    (hrow : (x : Int) + passBytes w s = 4 * w + 1) (hr : 2 ≤ r) (s2 : EmitState)
    (e1 : s2.x = 0) (e2 : s2.y = mid.y + 1) (e3 : s2.count = mid.count)
    (e4 : s2.deflateRemain = mid.deflateRemain) (e5 : s2.deflateFilled = mid.deflateFilled)
    (e6 : s2.imgBytes = mid.imgBytes) :
    Counters w h s2 (r - 1) 0 := by
  have h1 := hc.scount
  have h2 := hc.sfilled
  have h3 := hc.sx
  have h4 : w * r ≤ w * h := Nat.mul_le_mul_left w hc.hrh
  have h5 := hc.hsz
  have h6 := hc.hx
  have h8 := hc.hw
  have h9 := hc.sremain
  have h10 := hc.simg
  have h12 := hc.sy
  have h14 := hc.hrh
  have h16 : w * (r - 1) + w = w * r := by
    obtain ⟨q, rfl⟩ : ∃ q, r = q + 1 := ⟨r - 1, by omega⟩
    simp [Nat.mul_succ]
  have hb := passBytes_bounds hc
  have hlen : (s2.imgBytes.length : Int) = s.imgBytes.length - (passPixels w s).toNat := by
    rw [e6, himg, List.length_drop]; omega
  have hsh := pass_shape hc
  have hfill2 : (s.deflateFilled + passBytes w s = 65536 → s2.deflateFilled = 0) ∧
      (s.deflateFilled + passBytes w s ≠ 65536 →
        s2.deflateFilled = s.deflateFilled + passBytes w s) := by
    rw [e5, hfill]; constructor <;> intro e <;> simp [e]
  rw [hy] at e2
  rw [hcount] at e3
  rw [hrem] at e4
  clear hfill himg e5 e6 hy hcount hrem
  generalize passPixels w s = n at *
  generalize passBytes w s = k at *
  rcases hsh with ⟨c1, c2, c3, c4⟩ | ⟨c1, c2, c3, c4, c5⟩ | ⟨c1, c2, c3, c4, c5⟩
  · refine ⟨?_, ?_, ?_, hc.hw, hc.hsz, ?_, ?_, ?_, ?_, ?_, ?_, ?_⟩ <;> omega
  · omega
  · refine ⟨?_, ?_, ?_, hc.hw, hc.hsz, ?_, ?_, ?_, ?_, ?_, ?_, ?_⟩ <;> omega

theorem wrapStep_same_row {lineSize height : Int} {mid : EmitState} (hx : mid.x ≠ lineSize) :
    wrapStep lineSize height mid = (mid, false) := by
  simp [wrapStep, hx]

theorem wrapStep_next_row {lineSize height : Int} {mid : EmitState} (hx : mid.x = lineSize)
    (hy : mid.y + 1 ≠ height) :
    ∃ s2 : EmitState, wrapStep lineSize height mid = (s2, false) ∧ s2.arena = mid.arena ∧
      s2.crc = mid.crc ∧ s2.adler = mid.adler ∧ s2.x = 0 ∧ s2.y = mid.y + 1 ∧
      s2.count = mid.count ∧ s2.deflateRemain = mid.deflateRemain ∧
      s2.deflateFilled = mid.deflateFilled ∧ s2.imgBytes = mid.imgBytes := by
  refine ⟨{ mid with x := 0, y := mid.y + 1 }, ?_, rfl, rfl, rfl, rfl, rfl, rfl, rfl, rfl, rfl⟩
  simp [wrapStep, hx, hy]

theorem wrapStep_last_row {lineSize height : Int} {mid : EmitState} (hx : mid.x = lineSize)
    (hy : mid.y + 1 = height) :
    ∃ s2 : EmitState, wrapStep lineSize height mid = (s2, true) ∧
      s2.arena = mid.arena ++ [⟨AllocSite.footer, footerBytes mid.crc mid.adler⟩] ∧
      s2.crc = footerCrc mid.crc mid.adler ∧ s2.adler = mid.adler ∧ s2.x = 0 ∧
      s2.y = height ∧ s2.count = mid.count ∧ s2.deflateRemain = mid.deflateRemain ∧
      s2.deflateFilled = mid.deflateFilled ∧ s2.imgBytes = mid.imgBytes := by
  refine ⟨{ mid with
      x := 0
      y := mid.y + 1
      arena := mid.arena ++ [⟨AllocSite.footer, footerBytes mid.crc mid.adler⟩]
      crc := footerCrc mid.crc mid.adler }, ?_, rfl, rfl, rfl, rfl, hy, rfl, rfl, rfl, rfl⟩
  simp [wrapStep, hx, hy]

theorem frameToks_append (w total : Nat) (a b : List Nat) (pos : Nat) :
    frameToks w total pos (a ++ b) =
      frameToks w total pos a ++ frameToks w total (pos + a.length) b := by
  induction a generalizing pos with
  | nil => simp [frameToks]
  | cons c cs ih =>
    show frameToks w total pos (c :: (cs ++ b)) = _
    have e : pos + 1 + cs.length = pos + (cs.length + 1) := by omega
    simp only [frameToks, ih, List.length_cons, List.append_assoc, List.cons_append, e]

theorem frameToks_plain (w total : Nat) (bs : List Nat) (pos : Nat)
    (hno : ∀ j, j < bs.length → ¬ headerAt w total (pos + j)) :
    frameToks w total pos bs = bs.map Tok.dat := by
  induction bs generalizing pos with
  | nil => simp [frameToks]
  | cons c cs ih =>
    have h0 : ¬ headerAt w total pos := by simpa using hno 0 (by simp)
    simp only [frameToks, h0, if_false, List.nil_append, List.map_cons]
    rw [ih]
    intro j hj
    have := hno (j + 1) (by simpa using hj)
    rwa [show pos + (j + 1) = pos + 1 + j by omega] at this

theorem frameToks_run (w total : Nat) (bs : List Nat) (pos : Nat) (hne : bs ≠ [])
    (hno : ∀ j, 1 ≤ j → j < bs.length → ¬ headerAt w total (pos + j)) :
    frameToks w total pos bs =
      (if headerAt w total pos then [Tok.hdr (blockHeaderBytes ((total : Int) - pos))] else []) ++
        bs.map Tok.dat := by
  cases bs with
  | nil => exact absurd rfl hne
  | cons c cs =>
    simp only [frameToks, List.map_cons]
    rw [frameToks_plain]
    intro j hj
    have := hno (j + 1) (by omega) (by simpa using hj)
    rwa [show pos + (j + 1) = pos + 1 + j by omega] at this

theorem payloadOf_passPieces (s : EmitState) (n : Nat) :
    payloadOf (passPieces s n) = (if s.x = 0 then [0] else []) ++ s.imgBytes.take n := by
  simp only [passPieces, payloadOf]
  split_ifs <;> simp

theorem toks_passPieces (s : EmitState) (n : Nat) :
    toks (passPieces s n) =
      (if s.deflateFilled = 0 then [Tok.hdr (blockHeaderBytes s.deflateRemain)] else []) ++
        (payloadOf (passPieces s n)).map Tok.dat := by
  rw [payloadOf_passPieces]
  simp only [passPieces, toks]
  split_ifs <;> simp [Alloc.toks]

theorem passPieces_sites (s : EmitState) (n : Nat) :
    ∀ a ∈ passPieces s n, a.site ≠ AllocSite.fileHeader ∧ a.site ≠ AllocSite.footer := by
  intro a ha
  simp only [passPieces, List.mem_append, List.mem_singleton] at ha
  rcases ha with (ha | ha) | ha
  · split_ifs at ha
    · rw [List.mem_singleton.mp ha]; simp
    · simp at ha
  · split_ifs at ha
    · rw [List.mem_singleton.mp ha]; simp
    · simp at ha
  · rw [ha]; simp

theorem headerAt_head {w h r x : Nat} {s : EmitState} (hc : Counters w h s r x) :
    headerAt w (payloadSize w h) (emitted w h r x) ↔ s.deflateFilled = 0 := by
  have h2 := hc.sfilled
  have h4 : w * r ≤ w * h := Nat.mul_le_mul_left w hc.hrh
  have h6 := hc.hx
  have h7 : w * 1 ≤ w * r := Nat.mul_le_mul_left w hc.hr1
  have h8 := hc.hw
  have h11 := hc.hsplit
  have h13 := hc.hr1
  have h14 := hc.hrh
  have h15 : r = 1 → w * r = w := by intro e; subst e; simp
  have h16 : 2 ≤ r → w * 2 ≤ w * r := fun e => Nat.mul_le_mul_left w e
  simp only [headerAt, emitted, payloadSize]
  constructor
  · intro e; omega
  · intro e
    refine ⟨by omega, ?_⟩
    rintro ⟨e1, e2⟩
    have hx0 : 0 < x := by omega
    have := (h11 hx0).2
    omega

theorem headerAt_inside {w h r x : Nat} {s : EmitState} (hc : Counters w h s r x) (j : Nat)
    (hj1 : 1 ≤ j) (hj2 : (j : Int) < passBytes w s) :
    ¬ headerAt w (payloadSize w h) (emitted w h r x + j) := by
  have h2 := hc.sfilled
  have h4 : w * r ≤ w * h := Nat.mul_le_mul_left w hc.hrh
  have h6 := hc.hx
  have h7 : w * 1 ≤ w * r := Nat.mul_le_mul_left w hc.hr1
  have h8 := hc.hw
  have h13 := hc.hr1
  have h14 := hc.hrh
  have h15 : r = 1 → w * r = w := by intro e; subst e; simp
  have hsh := pass_shape hc
  simp only [headerAt, emitted, payloadSize]
  generalize passPixels w s = n at *
  generalize passBytes w s = k at *
  rcases hsh with ⟨c1, c2, c3, c4⟩ | ⟨c1, c2, c3, c4, c5⟩ | ⟨c1, c2, c3, c4, c5⟩
  · rintro ⟨e1, -⟩; omega
  · rintro ⟨e1, e2⟩
    apply e2
    have := h15 c2
    omega
  · rintro ⟨e1, -⟩; omega

theorem restPayload_pass {w h r x : Nat} {s : EmitState} (hc : Counters w h s r x) :
    restPayload w r x s.imgBytes =
      payloadOf (passPieces s (passPixels w s).toNat) ++
        (if (x : Int) + passBytes w s = 4 * w + 1 then
          payloadRows w (r - 1) (s.imgBytes.drop (passPixels w s).toNat)
        else restPayload w r (x + (passBytes w s).toNat)
          (s.imgBytes.drop (passPixels w s).toNat)) := by
  have h3 := hc.sx
  have h6 := hc.hx
  have h8 := hc.hw
  have h13 := hc.hr1
  have hb := passBytes_bounds hc
  obtain ⟨c1, c2, -, -⟩ := pass_cases w s
  rw [payloadOf_passPieces]
  obtain ⟨q, rfl⟩ : ∃ q, r = q + 1 := ⟨r - 1, by omega⟩
  generalize passPixels w s = n at *
  generalize passBytes w s = k at *
  rcases Nat.eq_zero_or_pos x with hx0 | hx0
  · subst hx0
    have hsx : s.x = 0 := by omega
    have hk := c1 hsx
    simp only [hsx, if_true, restPayload, payloadRows, Nat.add_sub_cancel]
    split_ifs with e1 e2
    · have : n.toNat = 4 * w := by omega
      rw [this]; simp
    · omega
    · have e3 : 0 + k.toNat = 1 + n.toNat := by omega
      have e4 : 4 * w = n.toNat + (4 * w + 1 - (0 + k.toNat)) := by omega
      rw [List.drop_drop]
      conv_lhs => rw [e4, List.take_add]
      simp only [List.append_assoc, List.cons_append, List.nil_append, List.singleton_append,
        zero_add]
  · have hsx : s.x ≠ 0 := by omega
    have hk := c2 hsx
    have hx1 : x ≠ 0 := by omega
    simp only [hsx, if_false, restPayload, hx1, List.nil_append, Nat.add_sub_cancel]
    split_ifs with e1 e2
    · have : 4 * w + 1 - x = n.toNat := by omega
      rw [this]
    · omega
    · have e4 : 4 * w + 1 - x = n.toNat + (4 * w + 1 - (x + k.toNat)) := by omega
      rw [List.drop_drop]
      conv_lhs => rw [e4, List.take_add]
      simp only [List.append_assoc]

theorem payloadOf_passPieces_length {w h r x : Nat} {s : EmitState} (hc : Counters w h s r x) :
    (payloadOf (passPieces s (passPixels w s).toNat)).length = (passBytes w s).toNat := by
  have h3 := hc.sx
  have h10 := hc.simg
  have hb := passBytes_bounds hc
  obtain ⟨c1, c2, -, -⟩ := pass_cases w s
  rw [payloadOf_passPieces]
  generalize passPixels w s = n at *
  generalize passBytes w s = k at *
  by_cases hsx : s.x = 0
  · have := c1 hsx
    simp only [hsx, if_true, List.length_append, List.length_singleton, List.length_take]
    omega
  · have := c2 hsx
    simp only [hsx, if_false, List.length_append, List.length_nil, List.length_take]
    omega

theorem emitted_remain {w h r x : Nat} {s : EmitState} (hc : Counters w h s r x) :
    ((payloadSize w h : Nat) : Int) - (emitted w h r x : Nat) = s.deflateRemain := by
  have h4 : w * r ≤ w * h := Nat.mul_le_mul_left w hc.hrh
  have h6 := hc.hx
  have h7 : w * 1 ≤ w * r := Nat.mul_le_mul_left w hc.hr1
  have h9 := hc.sremain
  have h14 := hc.hrh
  simp only [emitted, payloadSize]
  omega

theorem emitted_pass {w h r x : Nat} {s : EmitState} (hc : Counters w h s r x) :
    emitted w h r x + (passBytes w s).toNat =
      (if (x : Int) + passBytes w s = 4 * w + 1 then emitted w h (r - 1) 0
        else emitted w h r (x + (passBytes w s).toNat)) := by
  have h4 : w * r ≤ w * h := Nat.mul_le_mul_left w hc.hrh
  have h6 := hc.hx
  have h7 : w * 1 ≤ w * r := Nat.mul_le_mul_left w hc.hr1
  have h13 := hc.hr1
  have h14 := hc.hrh
  have h16 : w * (r - 1) + w = w * r := by
    obtain ⟨q, rfl⟩ : ∃ q, r = q + 1 := ⟨r - 1, by omega⟩
    simp [Nat.mul_succ]
  have hb := passBytes_bounds hc
  simp only [emitted, payloadSize]
  generalize passBytes w s = k at *
  split_ifs <;> omega

theorem frameToks_pass {w h r x : Nat} {s : EmitState} (hc : Counters w h s r x)
    (tail : List Nat) :
    frameToks w (payloadSize w h) (emitted w h r x)
        (payloadOf (passPieces s (passPixels w s).toNat) ++ tail) =
      toks (passPieces s (passPixels w s).toNat) ++
        frameToks w (payloadSize w h) (emitted w h r x + (passBytes w s).toNat) tail := by
  have hlen := payloadOf_passPieces_length hc
  have hb := passBytes_bounds hc
  rw [frameToks_append, hlen, toks_passPieces, frameToks_run]
  · congr 1
    rw [emitted_remain hc]
    have := headerAt_head hc
    by_cases hf : s.deflateFilled = 0
    · simp [hf, this.mpr hf]
    · have hn : ¬ headerAt w (payloadSize w h) (emitted w h r x) := fun e => hf (this.mp e)
      simp [hf, hn]
  · intro e
    rw [e] at hlen
    simp at hlen
    omega
  · intro j hj1 hj2
    rw [hlen] at hj2
    exact headerAt_inside hc j hj1 (by omega)

theorem emitLoop_from {w h : Nat} (fuel : Nat) :
    ∀ (s : EmitState) (r x : Nat), Counters w h s r x → s.deflateRemain ≤ fuel →
      ∃ (fin : EmitState) (body : List Alloc),
        emitLoop (lineSizeOf w) h fuel s = Outcome.ok fin ∧
        LoopResult w h s (emitted w h r x) (restPayload w r x s.imgBytes) fin body := by
  induction fuel with
  | zero =>
    intro s r x hc hfuel
    have h6 := hc.hx
    have h7 : w * 1 ≤ w * r := Nat.mul_le_mul_left w hc.hr1
    have h9 := hc.sremain
    have h13 := hc.hr1
    omega
  | succ fuel ih =>
    intro s r x hc hfuel
    have h1 := hc.scount
    have h3 := hc.sx
    have h6 := hc.hx
    have h7 : w * 1 ≤ w * r := Nat.mul_le_mul_left w hc.hr1
    have h8 := hc.hw
    have h9 := hc.sremain
    have h12 := hc.sy
    have h13 := hc.hr1
    have h14 := hc.hrh
    have hcount : s.count > 0 := by omega
    have hb := passBytes_bounds hc
    obtain ⟨mid, hbody, marena, mcrc, madler, mx, my, mcount, mrem, mfill, mimg⟩ := emitBody_eq hc
    have hrest := restPayload_pass hc
    have htoks := frameToks_pass hc
    have hem := emitted_pass hc
    have hsites := passPieces_sites s (passPixels w s).toNat
    simp only [emitLoop, hcount, if_true, hbody]
    by_cases hrow : (x : Int) + passBytes w s = 4 * w + 1
    · have hmx : mid.x = lineSizeOf w := by rw [mx, h3]; simp only [lineSizeOf]; omega
      rw [if_pos hrow] at hrest hem
      by_cases hlast : r = 1
      · -- the last row is complete: the footer is written and the loop is left
        have hmy : mid.y + 1 = (h : Int) := by rw [my, h12, hlast]; omega
        obtain ⟨s2, hw2, a2, c2, d2, x2, y2, n2, r2, -, -⟩ := wrapStep_last_row hmx hmy
        refine ⟨s2, passPieces s (passPixels w s).toNat, ?_, ?_⟩
        · rw [hw2]
        · have hr0 : restPayload w r x s.imgBytes =
              payloadOf (passPieces s (passPixels w s).toNat) := by
            rw [hrest, hlast]; simp [payloadRows]
          have hpix : passPixels w s = s.count := by
            have h15 : w * r = w := by rw [hlast]; simp
            obtain ⟨c1, c2, -, -⟩ := pass_cases w s
            by_cases hsx : s.x = 0
            · have := c1 hsx; omega
            · have := c2 hsx; omega
          refine ⟨?_, ?_, hsites, ?_, ?_, x2, y2, ?_, ?_⟩
          · rw [a2, marena, mcrc, madler, hr0]
          · have := htoks []
            simp only [List.append_nil, frameToks] at this
            rw [hr0, this]
          · rw [c2, mcrc, madler, hr0]
          · rw [d2, madler, hr0]
          · rw [n2, mcount]; omega
          · rw [r2, mrem, h9]
            have h15 : w * r = w := by rw [hlast]; simp
            omega
      · -- a row is complete and another one follows
        have hmy : mid.y + 1 ≠ (h : Int) := by rw [my, h12]; omega
        obtain ⟨s2, hw2, a2, c2, d2, x2, y2, n2, r2, f2, i2⟩ := wrapStep_next_row hmx hmy
        have hc2 : Counters w h s2 (r - 1) 0 :=
          counters_next_row hc my mcount mrem mfill mimg hrow (by omega) s2 x2 y2 n2 r2 f2 i2
        have hfuel2 : s2.deflateRemain ≤ fuel := by rw [r2, mrem]; omega
        obtain ⟨fin, body, hrun, hres⟩ := ih s2 (r - 1) 0 hc2 hfuel2
        refine ⟨fin, passPieces s (passPixels w s).toNat ++ body, ?_, ?_⟩
        · rw [hw2]; exact hrun
        · have hr0 : restPayload w r x s.imgBytes =
              payloadOf (passPieces s (passPixels w s).toNat) ++
                restPayload w (r - 1) 0 s2.imgBytes := by
            rw [hrest, i2, mimg]; simp [restPayload]
          have hcrc : crc32Update s2.crc (staged body) =
              crc32Update s.crc (staged (passPieces s (passPixels w s).toNat ++ body)) := by
            rw [c2, mcrc, crc32Update_append, staged_append]
          have hadl : __pngAdler32 s2.adler (restPayload w (r - 1) 0 s2.imgBytes) =
              __pngAdler32 s.adler (restPayload w r x s.imgBytes) := by
            rw [d2, madler, pngAdler32_append, hr0]
          refine ⟨?_, ?_, ?_, ?_, ?_, hres.x, hres.y, hres.count, hres.remain⟩
          · rw [hres.arena, a2, marena, hcrc, hadl]; simp
          · rw [toks_append, hres.toks, hr0, htoks, hem]
          · intro a ha
            rcases List.mem_append.mp ha with ha | ha
            · exact hsites a ha
            · exact hres.sites a ha
          · rw [hres.crc, hcrc, hadl]
          · rw [hres.adler, hadl]
    · -- the pass ends inside a row
      have hmx : mid.x ≠ lineSizeOf w := by rw [mx, h3]; simp only [lineSizeOf]; omega
      rw [if_neg hrow] at hrest hem
      have hc2 : Counters w h mid r (x + (passBytes w s).toNat) :=
        counters_same_row hc mx my mcount mrem mfill mimg (by omega)
      have hfuel2 : mid.deflateRemain ≤ fuel := by rw [mrem]; omega
      obtain ⟨fin, body, hrun, hres⟩ := ih mid r (x + (passBytes w s).toNat) hc2 hfuel2
      refine ⟨fin, passPieces s (passPixels w s).toNat ++ body, ?_, ?_⟩
      · rw [wrapStep_same_row hmx]; exact hrun
      · have hr0 : restPayload w r x s.imgBytes =
            payloadOf (passPieces s (passPixels w s).toNat) ++
              restPayload w r (x + (passBytes w s).toNat) mid.imgBytes := by
          rw [hrest, mimg]
        have hcrc : crc32Update mid.crc (staged body) =
            crc32Update s.crc (staged (passPieces s (passPixels w s).toNat ++ body)) := by
          rw [mcrc, crc32Update_append, staged_append]
        have hadl : __pngAdler32 mid.adler
              (restPayload w r (x + (passBytes w s).toNat) mid.imgBytes) =
            __pngAdler32 s.adler (restPayload w r x s.imgBytes) := by
          rw [madler, pngAdler32_append, hr0]
        refine ⟨?_, ?_, ?_, ?_, ?_, hres.x, hres.y, hres.count, hres.remain⟩
        · rw [hres.arena, marena, hcrc, hadl]; simp
        · rw [toks_append, hres.toks, hr0, htoks, hem]
        · intro a ha
          rcases List.mem_append.mp ha with ha | ha
          · exact hsites a ha
          · exact hres.sites a ha
        · rw [hres.crc, hcrc, hadl]
        · rw [hres.adler, hadl]

theorem swizzled_length (buf : List Nat) (off n : Nat) : (swizzled buf off n).length = 4 * n := by
  induction n generalizing off with
  | zero => rfl
  | succ n ih => simp [swizzled, swizzledPixel, ih]; omega

theorem swizzled_add (buf : List Nat) (off a b : Nat) :
    swizzled buf off (a + b) = swizzled buf off a ++ swizzled buf (off + 4 * a) b := by
  induction a generalizing off with
  | zero => simp [swizzled]
  | succ a ih =>
    rw [show a + 1 + b = (a + b) + 1 by omega]
    simp only [swizzled, ih, List.append_assoc]
    rw [show off + 4 + 4 * a = off + 4 * (a + 1) by omega]

theorem swizzleRow_eq (k : Nat) (s : SwizzleState) :
    swizzleRow k s = ⟨s.srcBuf, s.src + 4 * k, s.dst ++ swizzled s.srcBuf s.src k⟩ := by
  induction k generalizing s with
  | zero => simp [swizzleRow, swizzled]
  | succ k ih =>
    simp only [swizzleRow, ih, swizzlePixel, swizzled, swizzledPixel, List.append_assoc]
    rw [show s.src + 4 + 4 * k = s.src + 4 * (k + 1) by omega]

theorem swizzleRows_eq (w k : Nat) (s : SwizzleState) :
    swizzleRows w k s = ⟨s.srcBuf, s.src + 4 * (w * k), s.dst ++ swizzled s.srcBuf s.src (w * k)⟩ := by
  induction k generalizing s with
  | zero => simp [swizzleRows, swizzled]
  | succ k ih =>
    simp only [swizzleRows, ih, swizzleRow_eq, List.append_assoc]
    rw [Nat.mul_succ, Nat.add_comm (w * k) w, swizzled_add]
    congr 1
    omega

theorem swizzle_eq (src : List Nat) (w h : Nat) : swizzle src w h = swizzled src 0 (w * h) := by
  simp [swizzle, swizzleRows_eq]

theorem swizzle_length (src : List Nat) (w h : Nat) : (swizzle src w h).length = 4 * (w * h) := by
  rw [swizzle_eq, swizzled_length]

theorem swizzled_getElem? (buf : List Nat) (off n i : Nat) (hi : i < n) :
    (swizzled buf off n)[4 * i]? = some (buf.getD (off + 4 * i + 2) 0) ∧
    (swizzled buf off n)[4 * i + 1]? = some (buf.getD (off + 4 * i + 1) 0) ∧
    (swizzled buf off n)[4 * i + 2]? = some (buf.getD (off + 4 * i) 0) ∧
    (swizzled buf off n)[4 * i + 3]? = some (buf.getD (off + 4 * i + 3) 0) := by
  induction n generalizing off i with
  | zero => omega
  | succ n ih =>
    cases i with
    | zero => simp [swizzled, swizzledPixel]
    | succ i =>
      have := ih (off + 4) i (by omega)
      have e0 : 4 * (i + 1) = 4 * i + 4 := by omega
      have e1 : 4 * (i + 1) + 1 = (4 * i + 1) + 4 := by omega
      have e2 : 4 * (i + 1) + 2 = (4 * i + 2) + 4 := by omega
      have e3 : 4 * (i + 1) + 3 = (4 * i + 3) + 4 := by omega
      have o0 : off + (4 * i + 4) = off + 4 + 4 * i := by omega
      simp only [swizzled, swizzledPixel, e0, e1, e2, e3, List.cons_append, List.nil_append,
        List.getElem?_cons_succ, o0]
      exact this

theorem imgSizeOf_eq (w h : Nat) : imgSizeOf w h = ((payloadSize w h : Nat) : Int) := by
  simp only [imgSizeOf, lineSizeOf, payloadSize]
  push_cast
  ring

theorem initial_counters (img : List Nat) {w h : Nat} (hw : 1 ≤ w) (hh : 1 ≤ h)
    (hsz : 4 * (w * h) < 4294967296) : Counters w h (initialState img w h) h 0 := by
  have e := imgSizeOf_eq w h
  simp only [payloadSize] at e
  refine ⟨hh, le_refl _, by omega, hw, hsz, rfl, ?_, ?_, ?_, ?_, ?_, ?_⟩
  · simp [initialState]
  · simp only [initialState]; push_cast; ring
  · simp only [initialState, e]; push_cast; ring
  · simp [initialState]
  · simp only [initialState, swizzle_length]; push_cast; ring
  · intro hx; omega

theorem emitted_start (w h : Nat) : emitted w h h 0 = 0 := by
  simp [emitted, payloadSize]

theorem pngWriteArena_shape (img : List Nat) {w h : Nat} (hw : 1 ≤ w) (hh : 1 ≤ h)
    (hsz : 4 * (w * h) < 4294967296) :
    ∃ arena body, pngWriteArena img w h = Outcome.ok arena ∧ ArenaShape img w h arena body := by
  have hc := initial_counters img hw hh hsz
  have hfuel : (initialState img w h).deflateRemain ≤ ((imgSizeOf w h).toNat : Int) := by
    have e := imgSizeOf_eq w h
    simp only [initialState]
    omega
  obtain ⟨fin, body, hrun, hres⟩ := emitLoop_from _ _ h 0 hc hfuel
  refine ⟨fin.arena, body, ?_, ?_, ?_, hres.sites⟩
  · simp only [pngWriteArena, hrun]
  · rw [hres.arena]
    simp [initialState, restPayload, payload, normalised, idatCrcStart]
  · rw [hres.toks, emitted_start]
    simp [initialState, restPayload, payload, normalised]

theorem pngWrite_shape (img : List Nat) {w h : Nat} (hw : 1 ≤ w) (hh : 1 ≤ h)
    (hsz : 4 * (w * h) < 4294967296) :
    ∃ arena body, pngWrite img w h = Outcome.ok (staged arena) ∧
      pngWriteArena img w h = Outcome.ok arena ∧ ArenaShape img w h arena body := by
  obtain ⟨arena, body, h1, h2⟩ := pngWriteArena_shape img hw hh hsz
  exact ⟨arena, body, by simp only [pngWrite, h1], h1, h2⟩

/-! ## Reading the staged bytes -/

theorem stagedHeader_length (w h : Nat) (d : Int) : (stagedHeader w h d).length = 43 := by
  simp [stagedHeader, headerBytes]

theorem footerBytes_eq (c a : Nat) :
    footerBytes c a = be32 a ++ be32 (footerCrc c a) ++
      [0x00, 0x00, 0x00, 0x00, 0x49, 0x45, 0x4e, 0x44, 0xae, 0x42, 0x60, 0x82] := rfl

theorem footerBytes_length (c a : Nat) : (footerBytes c a).length = 20 := rfl

theorem blockHeaderBytes_length (d : Int) : (blockHeaderBytes d).length = 5 := rfl

theorem Tok.bytes_append (a b : List Tok) : Tok.bytes (a ++ b) = Tok.bytes a ++ Tok.bytes b := by
  induction a with
  | nil => rfl
  | cons t ts ih => cases t <;> simp [Tok.bytes, ih]

theorem Tok.payload_append (a b : List Tok) :
    Tok.payload (a ++ b) = Tok.payload a ++ Tok.payload b := by
  induction a with
  | nil => rfl
  | cons t ts ih => cases t <;> simp [Tok.payload, ih]

theorem Tok.headers_append (a b : List Tok) :
    Tok.headers (a ++ b) = Tok.headers a ++ Tok.headers b := by
  induction a with
  | nil => rfl
  | cons t ts ih => cases t <;> simp [Tok.headers, ih]

theorem Tok.bytes_dat (bs : List Nat) : Tok.bytes (bs.map Tok.dat) = bs := by
  induction bs with
  | nil => rfl
  | cons b bs ih => simp [Tok.bytes, ih]

theorem Tok.payload_dat (bs : List Nat) : Tok.payload (bs.map Tok.dat) = bs := by
  induction bs with
  | nil => rfl
  | cons b bs ih => simp [Tok.payload, ih]

theorem Tok.headers_dat (bs : List Nat) : Tok.headers (bs.map Tok.dat) = [] := by
  induction bs with
  | nil => rfl
  | cons b bs ih => simp [Tok.headers, ih]

theorem staged_eq_bytes (body : List Alloc) : staged body = Tok.bytes (toks body) := by
  induction body with
  | nil => rfl
  | cons a as ih =>
    have e : toks (a :: as) = a.toks ++ toks as := by simp [toks]
    have e2 : staged (a :: as) = a.bytes ++ staged as := by simp [staged]
    rw [e, e2, Tok.bytes_append, ih]
    congr 1
    unfold Alloc.toks
    split_ifs
    · simp [Tok.bytes]
    · rw [Tok.bytes_dat]

theorem blockHeadersOf_eq_headers (body : List Alloc) :
    blockHeadersOf body = Tok.headers (toks body) := by
  induction body with
  | nil => rfl
  | cons a as ih =>
    have e : toks (a :: as) = a.toks ++ toks as := by simp [toks]
    rw [e, Tok.headers_append, ← ih]
    unfold Alloc.toks blockHeadersOf
    by_cases hs : a.site = AllocSite.blockHeader
    · simp [hs, Tok.headers]
    · simp [hs, Tok.headers_dat]

theorem payloadOf_eq_payload (body : List Alloc)
    (hs : ∀ a ∈ body, a.site ≠ AllocSite.fileHeader ∧ a.site ≠ AllocSite.footer) :
    payloadOf body = Tok.payload (toks body) := by
  induction body with
  | nil => rfl
  | cons a as ih =>
    have e : toks (a :: as) = a.toks ++ toks as := by simp [toks]
    have ih2 := ih (fun b hb => hs b (List.mem_cons_of_mem a hb))
    have ha := hs a (List.mem_cons_self a as)
    rw [e, Tok.payload_append, ← ih2]
    unfold Alloc.toks
    have e3 : payloadOf (a :: as) = payloadOf [a] ++ payloadOf as := payloadOf_append [a] as
    rw [e3]
    congr 1
    cases hsite : a.site <;> simp_all [payloadOf, Tok.payload, Tok.payload_dat]

theorem frameToks_payload (w total : Nat) (bs : List Nat) (pos : Nat) :
    Tok.payload (frameToks w total pos bs) = bs := by
  induction bs generalizing pos with
  | nil => rfl
  | cons b bs ih =>
    simp only [frameToks]
    split_ifs <;> simp [Tok.payload, ih]

theorem frameToks_headers_length (w total : Nat) (bs : List Nat) (pos : Nat) :
    ∀ hd ∈ Tok.headers (frameToks w total pos bs), hd.length = 5 := by
  induction bs generalizing pos with
  | nil => intro hd hh; simp [frameToks, Tok.headers] at hh
  | cons b bs ih =>
    intro hd hh
    simp only [frameToks] at hh
    split_ifs at hh
    · simp only [List.singleton_append, Tok.headers, List.mem_cons] at hh
      rcases hh with hh | hh
      · rw [hh]; rfl
      · exact ih _ hd hh
    · simp only [List.nil_append, Tok.headers] at hh
      exact ih _ hd hh

theorem payloadRows_length (w : Nat) (k : Nat) (px : List Nat) (hpx : 4 * (w * k) ≤ px.length) :
    (payloadRows w k px).length = 4 * (w * k) + k := by
  induction k generalizing px with
  | zero => simp [payloadRows]
  | succ k ih =>
    have e : w * (k + 1) = w * k + w := Nat.mul_succ w k
    simp only [payloadRows, List.length_cons, List.length_append, List.length_take]
    rw [ih]
    · rw [e] at hpx ⊢
      omega
    · rw [List.length_drop]
      rw [e] at hpx
      omega

theorem payload_length (img : List Nat) (w h : Nat) :
    (payload img w h).length = payloadSize w h := by
  unfold payload payloadSize normalised
  rw [payloadRows_length]
  rw [swizzle_length]

theorem payloadRows_row (w : Nat) (k : Nat) (px : List Nat) (y : Nat) (hy : y < k)
    (hpx : 4 * (w * k) ≤ px.length) :
    ((payloadRows w k px).drop (y * (4 * w + 1))).take (4 * w + 1) =
      0 :: (px.drop (y * (4 * w))).take (4 * w) := by
  induction k generalizing px y with
  | zero => omega
  | succ k ih =>
    have e : w * (k + 1) = w * k + w := Nat.mul_succ w k
    rw [e] at hpx
    cases y with
    | zero =>
      simp only [payloadRows, Nat.zero_mul, List.drop_zero, List.take_succ_cons]
      rw [List.take_append_of_le_length (by rw [List.length_take]; omega)]
      rw [List.take_take]
      simp
    | succ y =>
      have e1 : (y + 1) * (4 * w + 1) = (4 * w + y * (4 * w + 1)) + 1 := by ring
      have e2 : (y + 1) * (4 * w) = 4 * w + y * (4 * w) := by ring
      have hl : (px.take (4 * w)).length = 4 * w := by rw [List.length_take]; omega
      rw [e1, e2]
      simp only [payloadRows, List.drop_succ_cons]
      rw [← List.drop_drop, ← List.drop_drop]
      have hd : (px.take (4 * w) ++ payloadRows w k (px.drop (4 * w))).drop (4 * w) =
          payloadRows w k (px.drop (4 * w)) := by
        rw [List.drop_append_of_le_length (by omega)]
        rw [List.drop_of_length_le (by omega)]
        simp
      rw [hd]
      exact ih (px.drop (4 * w)) y (by omega) (by rw [List.length_drop]; omega)

/-! ## The file header -/

theorem emitBody_arena_prefix {lineSize height : Int} {s s1 : EmitState} {b : Bool}
    (hb : emitBody lineSize height s = Outcome.ok (s1, b)) :
    ∃ rest, s1.arena = s.arena ++ rest := by
  unfold emitBody at hb
  dsimp only at hb
  split_ifs at hb
  simp only [Outcome.ok.injEq] at hb
  have h1 : ∃ r1, (startBlock s).arena = s.arena ++ r1 := by
    unfold startBlock; split_ifs
    · exact ⟨_, rfl⟩
    · exact ⟨[], by simp⟩
  have h2 : ∀ (t : EmitState) (n : Int), ∃ r2, (filterStep t n).1.arena = t.arena ++ r2 := by
    intro t n
    by_cases hx : t.x = 0
    · exact ⟨[⟨AllocSite.filterByte, [0]⟩], by simp [filterStep, hx]⟩
    · exact ⟨[], by simp [filterStep, hx]⟩
  have h3 : ∀ (t : EmitState) (n : Int), ∃ r3, (writeStep t n).arena = t.arena ++ r3 :=
    fun t n => ⟨_, rfl⟩
  have h4 : ∀ (t : EmitState), ∃ r4, (wrapStep lineSize height t).1.arena = t.arena ++ r4 := by
    intro t
    by_cases hx : t.x = lineSize
    · by_cases hy : t.y + 1 = height
      · exact ⟨[⟨AllocSite.footer, footerBytes t.crc t.adler⟩], by simp [wrapStep, hx, hy]⟩
      · exact ⟨[], by simp [wrapStep, hx, hy]⟩
    · exact ⟨[], by simp [wrapStep, hx]⟩
  obtain ⟨r1, e1⟩ := h1
  obtain ⟨r2, e2⟩ := h2 (startBlock s) (chunkSize lineSize (startBlock s))
  obtain ⟨r3, e3⟩ := h3 (filterStep (startBlock s) (chunkSize lineSize (startBlock s))).1
    (filterStep (startBlock s) (chunkSize lineSize (startBlock s))).2
  obtain ⟨r4, e4⟩ := h4 (writeStep (filterStep (startBlock s) (chunkSize lineSize (startBlock s))).1
    (filterStep (startBlock s) (chunkSize lineSize (startBlock s))).2)
  rw [hb] at e4
  exact ⟨r1 ++ r2 ++ r3 ++ r4, by rw [e4, e3, e2, e1]; simp⟩

theorem emitLoop_arena_prefix {lineSize height : Int} (fuel : Nat) :
    ∀ (s fin : EmitState), emitLoop lineSize height fuel s = Outcome.ok fin →
      ∃ rest, fin.arena = s.arena ++ rest := by
  induction fuel with
  | zero =>
    intro s fin hrun
    simp only [emitLoop] at hrun
    split_ifs at hrun
    simp only [Outcome.ok.injEq] at hrun
    exact ⟨[], by rw [← hrun]; simp⟩
  | succ fuel ih =>
    intro s fin hrun
    simp only [emitLoop] at hrun
    split_ifs at hrun
    · cases hbody : emitBody lineSize height s with
      | ok p =>
        obtain ⟨s1, b⟩ := p
        obtain ⟨r1, e1⟩ := emitBody_arena_prefix hbody
        rw [hbody] at hrun
        cases b with
        | true =>
          simp only [Outcome.ok.injEq] at hrun
          exact ⟨r1, by rw [← hrun, e1]⟩
        | false =>
          obtain ⟨r2, e2⟩ := ih s1 fin hrun
          exact ⟨r1 ++ r2, by rw [e2, e1]; simp⟩
      | assertFailed => rw [hbody] at hrun; cases hrun
      | outOfFuel => rw [hbody] at hrun; cases hrun
    · simp only [Outcome.ok.injEq] at hrun
      exact ⟨[], by rw [← hrun]; simp⟩

theorem pngWrite_header_prefix {img : List Nat} {w h : Nat} {out : List Nat}
    (hout : pngWrite img w h = Outcome.ok out) :
    ∃ rest, out = stagedHeader w h (dataSizeOf w h) ++ rest := by
  unfold pngWrite pngWriteArena at hout
  cases hrun : emitLoop (lineSizeOf w) (h : Int) (imgSizeOf w h).toNat (initialState img w h) with
  | ok fin =>
    rw [hrun] at hout
    simp only [Outcome.ok.injEq] at hout
    obtain ⟨rest, e⟩ := emitLoop_arena_prefix _ _ _ hrun
    refine ⟨staged rest, ?_⟩
    rw [← hout, e, staged_append]
    simp [initialState, staged]
  | assertFailed => rw [hrun] at hout; cases hout
  | outOfFuel => rw [hrun] at hout; cases hout

theorem stagedHeader_take33 (w h : Nat) (d : Int) :
    (stagedHeader w h d).take 33 =
      [0x89, 0x50, 0x4e, 0x47, 0x0d, 0x0a, 0x1a, 0x0a, 0x00, 0x00, 0x00, 0x0d] ++
        ([0x49, 0x48, 0x44, 0x52] ++ be32 w ++ be32 h ++ [0x08, 0x06, 0x00, 0x00, 0x00]) ++
        be32 (crc32 ([0x49, 0x48, 0x44, 0x52] ++ be32 w ++ be32 h ++
          [0x08, 0x06, 0x00, 0x00, 0x00])) := rfl

theorem readBe32_be32 (v : Nat) (hv : v < 4294967296) : readBe32 (be32 v) = some v := by
  simp only [be32, readBe32, u8, Nat.shiftRight_eq_div_pow, Option.some.injEq]
  omega

/-! ## Claims about the file layout -/

theorem staged_shape {img : List Nat} {w h : Nat} {arena body : List Alloc}
    (hs : ArenaShape img w h arena body) :
    staged arena = stagedHeader w h (dataSizeOf w h) ++ staged body ++
      footerBytes (crc32Update (idatCrcStart w h) (staged body))
        (__pngAdler32 1 (payload img w h)) := by
  rw [hs.arena]
  simp [staged]

/-- C2: for `1 ≤ w, h < 2^31` every output of `pngWrite` starts with the 8-byte
signature, the IHDR length `00 00 00 0D`, the 17 bytes type+data (`IHDR`, width
and height big-endian, `08 06 00 00 00`) at offsets 12..28, and the big-endian
`crc32` of exactly those 17 bytes; and `pngWrite` does produce an output whenever
`4*w*h < 2^31`. -/
theorem pngWrite_signature_ihdr (img : List Nat) (w h : Nat) (hw1 : 1 ≤ w)
    (hw : w < 2147483648) (hh1 : 1 ≤ h) (hh : h < 2147483648) :
    (∀ out, pngWrite img w h = Outcome.ok out →
      out.take 33 =
        [0x89, 0x50, 0x4e, 0x47, 0x0d, 0x0a, 0x1a, 0x0a, 0x00, 0x00, 0x00, 0x0d] ++
          ([0x49, 0x48, 0x44, 0x52] ++ be32 w ++ be32 h ++ [0x08, 0x06, 0x00, 0x00, 0x00]) ++
          be32 (crc32 ((out.drop 12).take 17)) ∧
      (out.drop 12).take 17 =
        [0x49, 0x48, 0x44, 0x52] ++ be32 w ++ be32 h ++ [0x08, 0x06, 0x00, 0x00, 0x00]) ∧
    readBe32 (be32 w) = some w ∧ readBe32 (be32 h) = some h ∧
    (4 * (w * h) < 2147483648 → ∃ out, pngWrite img w h = Outcome.ok out) := by
  refine ⟨?_, readBe32_be32 w (by omega), readBe32_be32 h (by omega), ?_⟩
  · intro out hout
    obtain ⟨rest, e⟩ := pngWrite_header_prefix hout
    have hl := stagedHeader_length w h (dataSizeOf w h)
    have h33 : out.take 33 = (stagedHeader w h (dataSizeOf w h)).take 33 := by
      rw [e, List.take_append_of_le_length (by omega)]
    have h17 : (out.drop 12).take 17 =
        ((stagedHeader w h (dataSizeOf w h)).drop 12).take 17 := by
      rw [e, List.drop_append_of_le_length (by omega),
        List.take_append_of_le_length (by rw [List.length_drop]; omega)]
    have h17' : ((stagedHeader w h (dataSizeOf w h)).drop 12).take 17 =
        [0x49, 0x48, 0x44, 0x52] ++ be32 w ++ be32 h ++ [0x08, 0x06, 0x00, 0x00, 0x00] := rfl
    rw [h33, h17, h17']
    exact ⟨stagedHeader_take33 w h _, rfl⟩
  · intro hsz
    obtain ⟨arena, body, hout, -, -⟩ := pngWrite_shape img hw1 hh1 (by omega)
    exact ⟨_, hout⟩

/-- C7: for `w, h ≥ 1` with `4*w*h < 2^31` the arena of `pngWrite` is the 43-byte
file header (ending in the zlib header `08 1D`), then allocations that are
5-byte block headers, filter bytes or pixel bytes, then the 20-byte footer that
starts with the Adler-32 trailer; with the block headers removed the middle part
is the payload: per row `0..h-1` one filter byte `0` followed by that row's `4*w`
normalised pixel bytes, `(4*w+1)*h` bytes in all. -/
theorem pngWrite_payload_rows (img : List Nat) (w h : Nat) (hw : 1 ≤ w) (hh : 1 ≤ h)
    (hsz : 4 * (w * h) < 2147483648) :
    ∃ (body : List Alloc) (footer : List Nat),
      pngWriteArena img w h = Outcome.ok
        (⟨AllocSite.fileHeader, stagedHeader w h (dataSizeOf w h)⟩ :: body ++
          [⟨AllocSite.footer, footer⟩]) ∧
      pngWrite img w h = Outcome.ok
        (stagedHeader w h (dataSizeOf w h) ++ staged body ++ footer) ∧
      (stagedHeader w h (dataSizeOf w h)).length = 43 ∧
      (stagedHeader w h (dataSizeOf w h)).drop 41 = [0x08, 0x1d] ∧
      footer.length = 20 ∧
      footer.take 4 = be32 (__pngAdler32 1 (payload img w h)) ∧
      (∀ a ∈ body, a.site = AllocSite.blockHeader ∨ a.site = AllocSite.filterByte ∨
        a.site = AllocSite.pixelData) ∧
      (∀ hd ∈ blockHeadersOf body, hd.length = 5) ∧
      payloadOf body = payload img w h ∧
      (payload img w h).length = (4 * w + 1) * h ∧
      (∀ y, y < h → ((payload img w h).drop (y * (4 * w + 1))).take (4 * w + 1) =
        0 :: ((normalised img w h).drop (y * (4 * w))).take (4 * w)) := by
  obtain ⟨arena, body, hout, harena, hs⟩ := pngWrite_shape img hw hh (by omega)
  refine ⟨body, footerBytes (crc32Update (idatCrcStart w h) (staged body))
      (__pngAdler32 1 (payload img w h)), ?_, ?_, stagedHeader_length _ _ _, rfl,
    footerBytes_length _ _, rfl, ?_, ?_, ?_, ?_, ?_⟩
  · rw [harena, hs.arena]
  · rw [hout, staged_shape hs]
  · intro a ha
    have := hs.sites a ha
    cases hsite : a.site <;> simp_all
  · rw [blockHeadersOf_eq_headers, hs.toks]
    exact frameToks_headers_length _ _ _ _
  · rw [payloadOf_eq_payload body hs.sites, hs.toks, frameToks_payload]
  · rw [payload_length, payloadSize]; ring
  · intro y hy
    exact payloadRows_row w h _ y hy (by rw [normalised, swizzle_length])

/-- C8: for `w, h ≥ 1` with `4*w*h < 2^31` the four bytes at output positions
`len-20 .. len-17` are the big-endian value of `__pngAdler32` started from state
`1` and run over exactly the decompressed stream (per row the filter byte `0` and
the row's `4*w` normalised pixel bytes): no header byte is part of its input. -/
theorem pngWrite_adler_trailer (img : List Nat) (w h : Nat) (hw : 1 ≤ w) (hh : 1 ≤ h)
    (hsz : 4 * (w * h) < 2147483648) :
    ∃ out, pngWrite img w h = Outcome.ok out ∧ 20 ≤ out.length ∧
      (out.drop (out.length - 20)).take 4 =
        be32 (__pngAdler32 1 (payloadRows w h (swizzle (imageBytes img) w h))) := by
  obtain ⟨arena, body, hout, -, hs⟩ := pngWrite_shape img hw hh (by omega)
  refine ⟨_, hout, ?_, ?_⟩
  · rw [staged_shape hs]
    simp only [List.length_append, footerBytes_length]
    omega
  · rw [staged_shape hs]
    have hl : (stagedHeader w h (dataSizeOf w h) ++ staged body ++
        footerBytes (crc32Update (idatCrcStart w h) (staged body))
          (__pngAdler32 1 (payload img w h))).length - 20 =
        (stagedHeader w h (dataSizeOf w h) ++ staged body).length := by
      simp only [List.length_append, footerBytes_length]
      omega
    rw [hl, List.drop_left]
    rfl

/-- C10: for `w, h ≥ 1` with `4*w*h < 2^31` the last 12 bytes of the output of
`pngWrite` are the IEND chunk `00 00 00 00 49 45 4E 44 AE 42 60 82`, and the
hard-coded `0xAE426082` is what `crc32` returns for the four bytes `IEND`. -/
theorem pngWrite_iend (img : List Nat) (w h : Nat) (hw : 1 ≤ w) (hh : 1 ≤ h)
    (hsz : 4 * (w * h) < 2147483648) :
    (∃ out, pngWrite img w h = Outcome.ok out ∧ 12 ≤ out.length ∧
      out.drop (out.length - 12) =
        [0x00, 0x00, 0x00, 0x00, 0x49, 0x45, 0x4e, 0x44, 0xae, 0x42, 0x60, 0x82]) ∧
    crc32 [0x49, 0x45, 0x4e, 0x44] = 0xAE426082 := by
  refine ⟨?_, by decide⟩
  obtain ⟨arena, body, hout, -, hs⟩ := pngWrite_shape img hw hh (by omega)
  refine ⟨_, hout, ?_, ?_⟩
  · rw [staged_shape hs]
    simp only [List.length_append, footerBytes_length]
    omega
  · rw [staged_shape hs, footerBytes_eq]
    have hl : ∀ (a b : List Nat), b.length = 12 → (a ++ b).length - 12 = a.length := by
      intro a b hb; rw [List.length_append, hb]; omega
    rw [← List.append_assoc, ← List.append_assoc,
      hl _ [0x00, 0x00, 0x00, 0x00, 0x49, 0x45, 0x4e, 0x44, 0xae, 0x42, 0x60, 0x82] rfl,
      List.drop_left]

/-! ## The pixel normaliser -/

theorem getD_eq_getElem? (l : List Nat) (k : Nat) (hk : k < l.length) :
    some (l.getD k 0) = l[k]? := by
  rw [List.getD_eq_getElem?_getD, List.getElem?_eq_getElem hk]
  rfl

/-- C9: the pixel normaliser of `pngWrite`, run over a buffer of `4*w*h` bytes,
fills `newImg` with as many bytes, output bytes `4i, 4i+1, 4i+2, 4i+3` being
input bytes `4i+2, 4i+1, 4i, 4i+3` for every pixel `i < w*h`, and it leaves the
buffer behind `src` as it found it. -/
theorem swizzle_channels (src : List Nat) (w h : Nat) (hlen : src.length = 4 * (w * h)) :
    (swizzle src w h).length = src.length ∧
    (∀ i, i < w * h →
      (swizzle src w h)[4 * i]? = src[4 * i + 2]? ∧
      (swizzle src w h)[4 * i + 1]? = src[4 * i + 1]? ∧
      (swizzle src w h)[4 * i + 2]? = src[4 * i]? ∧
      (swizzle src w h)[4 * i + 3]? = src[4 * i + 3]? ∧
      4 * i + 3 < (swizzle src w h).length) ∧
    (swizzleRows w h ⟨src, 0, []⟩).srcBuf = src := by
  refine ⟨by rw [swizzle_length, hlen], ?_, by rw [swizzleRows_eq]⟩
  intro i hi
  obtain ⟨h0, h1, h2, h3⟩ := swizzled_getElem? src 0 (w * h) i hi
  rw [swizzle_eq, h0, h1, h2, h3, swizzled_length]
  simp only [Nat.zero_add]
  exact ⟨getD_eq_getElem? _ _ (by omega), getD_eq_getElem? _ _ (by omega),
    getD_eq_getElem? _ _ (by omega), getD_eq_getElem? _ _ (by omega), by omega⟩

/-- Witness for C9: a 1 by 1 image with bytes B, G, R, A = 1, 2, 3, 4. -/
theorem swizzle_channels_witness :
    [1, 2, 3, 4].length = 4 * (1 * 1) ∧ swizzle [1, 2, 3, 4] 1 1 = [3, 2, 1, 4] ∧
    (swizzle [1, 2, 3, 4] 1 1).length = [1, 2, 3, 4].length :=
  ⟨rfl, rfl, (swizzle_channels [1, 2, 3, 4] 1 1 rfl).1⟩

/-! ## The one-pixel image -/

set_option maxRecDepth 1000000 in
theorem pngWrite_onePixel : pngWrite [0x11223344] 1 1 = Outcome.ok onePixelFile := by
  decide

set_option maxRecDepth 1000000 in
/-- C1 (the code breaks it): `pngWrite` stages `onePixelFile` for the 1 by 1
image with pixel `0x11223344`; the reference decoder rejects these bytes, while
it decodes the same bytes with a repaired IDAT checksum to the pixel
R, G, B, A = `22 33 44 11`. -/
theorem pngWrite_roundtrip_rejected :
    pngWrite [0x11223344] 1 1 = Outcome.ok onePixelFile ∧
    pngDecode onePixelFile = none ∧
    pngDecode onePixelFileRepaired = some ⟨1, 1, [0x22, 0x33, 0x44, 0x11]⟩ := by
  decide

set_option maxRecDepth 1000000 in
/-- C3 (the code breaks it): in the file staged for the 1 by 1 image with pixel
`0x11223344` the IDAT type and data are the 20 bytes at offsets 37..56, the four
bytes after the Adler-32 trailer are `B1 33 98 6B`, and the big-endian `crc32`
of type and data is `17 6E 6A 73`. -/
theorem pngWrite_idat_crc_wrong :
    pngWrite [0x11223344] 1 1 = Outcome.ok onePixelFile ∧
    (onePixelFile.drop 33).take 4 = be32 16 ∧
    (onePixelFile.drop 57).take 4 = [0xb1, 0x33, 0x98, 0x6b] ∧
    be32 (crc32 ((onePixelFile.drop 37).take (4 + 16))) = [0x17, 0x6e, 0x6a, 0x73] := by
  decide

/-- Witness for C2 at the 1 by 1 image with pixel `0x11223344`. -/
theorem pngWrite_signature_ihdr_witness :
    (1 ≤ 1 ∧ 1 < 2147483648) ∧
    onePixelFile.take 33 =
      [0x89, 0x50, 0x4e, 0x47, 0x0d, 0x0a, 0x1a, 0x0a, 0x00, 0x00, 0x00, 0x0d] ++
        ([0x49, 0x48, 0x44, 0x52] ++ be32 1 ++ be32 1 ++ [0x08, 0x06, 0x00, 0x00, 0x00]) ++
        be32 (crc32 ((onePixelFile.drop 12).take 17)) :=
  ⟨by decide,
    ((pngWrite_signature_ihdr [0x11223344] 1 1 (by decide) (by decide) (by decide)
      (by decide)).1 onePixelFile pngWrite_onePixel).1⟩

set_option maxRecDepth 1000000 in
/-- Witness for C7 at the 1 by 1 image with pixel `0x11223344`. -/
theorem pngWrite_payload_rows_witness :
    (1 ≤ 1 ∧ 4 * (1 * 1) < 2147483648) ∧
    ∃ body footer, payloadOf body = [0x00, 0x22, 0x33, 0x44, 0x11] ∧
      pngWrite [0x11223344] 1 1 = Outcome.ok
        (stagedHeader 1 1 (dataSizeOf 1 1) ++ staged body ++ footer) := by
  obtain ⟨body, footer, -, h2, -, -, -, -, -, -, h9, -, -⟩ :=
    pngWrite_payload_rows [0x11223344] 1 1 (by decide) (by decide) (by decide)
  have hp : payload [0x11223344] 1 1 = [0x00, 0x22, 0x33, 0x44, 0x11] := by decide
  exact ⟨by decide, body, footer, by rw [h9, hp], h2⟩

set_option maxRecDepth 1000000 in
/-- Witness for C8 at the 1 by 1 image with pixel `0x11223344`. -/
theorem pngWrite_adler_trailer_witness :
    (1 ≤ 1 ∧ 4 * (1 * 1) < 2147483648) ∧
    ∃ out, pngWrite [0x11223344] 1 1 = Outcome.ok out ∧
      (out.drop (out.length - 20)).take 4 = [0x01, 0xbf, 0x00, 0xab] := by
  obtain ⟨out, h1, -, h3⟩ :=
    pngWrite_adler_trailer [0x11223344] 1 1 (by decide) (by decide) (by decide)
  have ha : be32 (__pngAdler32 1 (payloadRows 1 1 (swizzle (imageBytes [0x11223344]) 1 1))) =
      [0x01, 0xbf, 0x00, 0xab] := by decide
  exact ⟨by decide, out, h1, by rw [h3, ha]⟩

/-- Witness for C10 at the 1 by 1 image with pixel `0x11223344`. -/
theorem pngWrite_iend_witness :
    (1 ≤ 1 ∧ 4 * (1 * 1) < 2147483648) ∧
    ∃ out, pngWrite [0x11223344] 1 1 = Outcome.ok out ∧
      out.drop (out.length - 12) =
        [0x00, 0x00, 0x00, 0x00, 0x49, 0x45, 0x4e, 0x44, 0xae, 0x42, 0x60, 0x82] := by
  obtain ⟨out, h1, -, h3⟩ :=
    (pngWrite_iend [0x11223344] 1 1 (by decide) (by decide) (by decide)).1
  exact ⟨by decide, out, h1, h3⟩

/-! ## Images whose payload does not fit one block -/

theorem stagedHeader_dataSize (w h : Nat) (d : Int) :
    ((stagedHeader w h d).drop 33).take 4 =
      [((d >>> 24) % 256).toNat, ((d >>> 16) % 256).toNat, ((d >>> 8) % 256).toNat,
        (d % 256).toNat] := rfl

/-- Framing of a 65537-byte payload whose rows have 65536 pixel bytes: a single
header, announcing a non-final block of length 0, before all payload bytes. -/
theorem frameToks_65537 (P : List Nat) (hl : P.length = 65537) :
    frameToks 16384 65537 0 P = Tok.hdr [0, 0, 0, 0xff, 0xff] :: P.map Tok.dat := by
  rw [frameToks_run]
  · have h0 : headerAt 16384 65537 0 := by decide
    have hb : blockHeaderBytes (((65537 : Nat) : Int) - ((0 : Nat) : Int)) =
        [0, 0, 0, 0xff, 0xff] := by decide
    rw [if_pos h0, hb]
    simp only [List.singleton_append]
  · intro e
    rw [e] at hl
    simp at hl
  · intro j hj1 hj2
    rw [hl] at hj2
    simp only [headerAt, Nat.zero_add]
    omega

/-- Framing of a 65538-byte payload whose rows have 32768 pixel bytes: a header
announcing a non-final block of length 0, 65536 payload bytes, a header
announcing a final block of length 2, and the last 2 payload bytes. -/
theorem frameToks_65538 (P : List Nat) (hl : P.length = 65538) :
    frameToks 8192 65538 0 P = Tok.hdr [0, 0, 0, 0xff, 0xff] ::
      ((P.take 65536).map Tok.dat ++
        Tok.hdr [1, 2, 0, 0xfd, 0xff] :: (P.drop 65536).map Tok.dat) := by
  have hl1 : (P.take 65536).length = 65536 := by
    rw [List.length_take, hl]; rfl
  have hl2 : (P.drop 65536).length = 2 := by
    rw [List.length_drop, hl]
  conv_lhs => rw [← List.take_append_drop 65536 P]
  rw [frameToks_append, hl1, frameToks_run, frameToks_run]
  · have h0 : headerAt 8192 65538 0 := by decide
    have h1 : headerAt 8192 65538 (0 + 65536) := by decide
    have hb0 : blockHeaderBytes (((65538 : Nat) : Int) - ((0 : Nat) : Int)) =
        [0, 0, 0, 0xff, 0xff] := by decide
    have hb1 : blockHeaderBytes (((65538 : Nat) : Int) - ((0 + 65536 : Nat) : Int)) =
        [1, 2, 0, 0xfd, 0xff] := by decide
    rw [if_pos h0, if_pos h1, hb0, hb1]
    simp only [List.singleton_append, List.cons_append, List.nil_append]
  · intro e
    rw [e] at hl2
    simp at hl2
  · intro j hj1 hj2
    rw [hl2] at hj2
    simp only [headerAt]
    omega
  · intro e
    rw [e] at hl1
    simp at hl1
  · intro j hj1 hj2
    rw [hl1] at hj2
    simp only [headerAt, Nat.zero_add]
    omega

theorem toks_16384x1 (img : List Nat) :
    ∃ arena body, pngWrite img 16384 1 = Outcome.ok (staged arena) ∧
      pngWriteArena img 16384 1 = Outcome.ok arena ∧ ArenaShape img 16384 1 arena body ∧
      toks body = Tok.hdr [0, 0, 0, 0xff, 0xff] :: (payload img 16384 1).map Tok.dat := by
  obtain ⟨arena, body, hout, harena, hs⟩ :=
    pngWrite_shape img (show 1 ≤ 16384 by decide) (show 1 ≤ 1 by decide) (by decide)
  refine ⟨arena, body, hout, harena, hs, ?_⟩
  have hl := payload_length img 16384 1
  have hS : payloadSize 16384 1 = 65537 := by decide
  rw [hS] at hl
  rw [hs.toks, hS]
  exact frameToks_65537 _ hl

theorem toks_8192x2 (img : List Nat) :
    ∃ arena body, pngWrite img 8192 2 = Outcome.ok (staged arena) ∧
      pngWriteArena img 8192 2 = Outcome.ok arena ∧ ArenaShape img 8192 2 arena body ∧
      toks body = Tok.hdr [0, 0, 0, 0xff, 0xff] ::
        (((payload img 8192 2).take 65536).map Tok.dat ++
          Tok.hdr [1, 2, 0, 0xfd, 0xff] :: ((payload img 8192 2).drop 65536).map Tok.dat) := by
  obtain ⟨arena, body, hout, harena, hs⟩ :=
    pngWrite_shape img (show 1 ≤ 8192 by decide) (show 1 ≤ 2 by decide) (by decide)
  refine ⟨arena, body, hout, harena, hs, ?_⟩
  have hl := payload_length img 8192 2
  have hS : payloadSize 8192 2 = 65538 := by decide
  rw [hS] at hl
  rw [hs.toks, hS]
  exact frameToks_65538 _ hl

theorem bytes_single_block (hd P : List Nat) :
    Tok.bytes (Tok.hdr hd :: P.map Tok.dat) = hd ++ P := by
  simp only [Tok.bytes, Tok.bytes_dat]

theorem headers_single_block (a f : Alloc) (body : List Alloc) (hd P : List Nat)
    (ha : a.site = AllocSite.fileHeader) (hf : f.site = AllocSite.footer)
    (ht : toks body = Tok.hdr hd :: P.map Tok.dat) :
    blockHeadersOf (a :: body ++ [f]) = [hd] := by
  have e : a :: body ++ [f] = [a] ++ body ++ [f] := rfl
  rw [e, blockHeadersOf_append, blockHeadersOf_append, blockHeadersOf_eq_headers body, ht]
  simp [blockHeadersOf, Tok.headers, Tok.headers_dat, ha, hf]

theorem length_16384x1 (img : List Nat) :
    ∃ out, pngWrite img 16384 1 = Outcome.ok out ∧
      out.length = 65605 ∧ (out.drop 33).take 4 = be32 65553 ∧
      readBe32 ((out.drop 33).take 4) = some 65553 ∧ 65605 - 57 = 65548 := by
  obtain ⟨arena, body, hout, -, hs, ht⟩ := toks_16384x1 img
  have hl := payload_length img 16384 1
  have hS : payloadSize 16384 1 = 65537 := by decide
  have hd : dataSizeOf 16384 1 = 65553 := by decide
  have hb : staged body = [0, 0, 0, 0xff, 0xff] ++ payload img 16384 1 := by
    rw [staged_eq_bytes, ht]
    exact bytes_single_block _ _
  have h4 : ((staged arena).drop 33).take 4 = be32 65553 := by
    rw [staged_shape hs, List.append_assoc,
      List.drop_append_of_le_length (by rw [stagedHeader_length]; decide),
      List.take_append_of_le_length (by rw [List.length_drop, stagedHeader_length]; decide),
      stagedHeader_dataSize, hd]
    decide
  refine ⟨_, hout, ?_, h4, ?_, rfl⟩
  · rw [staged_shape hs, hb]
    simp only [List.length_append, stagedHeader_length, footerBytes_length, hl, hS,
      List.length_cons, List.length_nil]
  · rw [h4]; decide

theorem blocks_8192x2 (img : List Nat) :
    ∃ arena body footer,
      pngWriteArena img 8192 2 = Outcome.ok arena ∧
      arena = ⟨AllocSite.fileHeader, stagedHeader 8192 2 (dataSizeOf 8192 2)⟩ :: body ++
          [⟨AllocSite.footer, footer⟩] ∧
      (payload img 8192 2).length = 65538 ∧
      ((payload img 8192 2).take 65536).length = 65536 ∧
      toks body = Tok.hdr [0, 0, 0, 0xff, 0xff] ::
        (((payload img 8192 2).take 65536).map Tok.dat ++
          Tok.hdr [1, 2, 0, 0xfd, 0xff] :: ((payload img 8192 2).drop 65536).map Tok.dat) := by
  obtain ⟨arena, body, -, harena, hs, ht⟩ := toks_8192x2 img
  have hl := payload_length img 8192 2
  have hS : payloadSize 8192 2 = 65538 := by decide
  rw [hS] at hl
  refine ⟨arena, body, _, harena, hs.arena, hl, ?_, ht⟩
  rw [List.length_take, hl]; rfl

theorem headers_16384x1 (img : List Nat) :
    ∃ arena, pngWriteArena img 16384 1 = Outcome.ok arena ∧
      blockHeadersOf arena = [[0, 0, 0, 0xff, 0xff]] ∧
      ∀ hd ∈ blockHeadersOf arena, hd.head? = some 0 := by
  obtain ⟨arena, body, -, harena, hs, ht⟩ := toks_16384x1 img
  have hb : blockHeadersOf arena = [[0, 0, 0, 0xff, 0xff]] := by
    rw [hs.arena]
    exact headers_single_block _ _ body _ _ rfl rfl ht
  refine ⟨arena, harena, hb, ?_⟩
  intro hd hh
  rw [hb] at hh
  rw [List.mem_singleton.mp hh]
  rfl

/-- C4 (the code breaks it): for the 16384 by 1 image of zero pixels the output of
`pngWrite` has 65605 bytes, so 65548 of them are IDAT data, while the IDAT length
field at offsets 33..36 holds 65553. -/
theorem pngWrite_idat_length_wrong :
    ∃ out, pngWrite (List.replicate 16384 0) 16384 1 = Outcome.ok out ∧
      out.length = 65605 ∧ (out.drop 33).take 4 = be32 65553 ∧
      readBe32 ((out.drop 33).take 4) = some 65553 ∧ 65605 - 57 = 65548 :=
  length_16384x1 (List.replicate 16384 0)

/-- C5 (the code breaks it): for the 8192 by 2 image of zero pixels, whose
payload has 65538 bytes, `pngWrite` stages the header `00 00 00 FF FF` (length
field 0), then 65536 payload bytes, then the header `01 02 00 FD FF`, then the
last 2 payload bytes. -/
theorem pngWrite_block_length_wrong :
    ∃ arena body footer,
      pngWriteArena (List.replicate 16384 0) 8192 2 = Outcome.ok arena ∧
      arena = ⟨AllocSite.fileHeader, stagedHeader 8192 2 (dataSizeOf 8192 2)⟩ :: body ++
          [⟨AllocSite.footer, footer⟩] ∧
      (payload (List.replicate 16384 0) 8192 2).length = 65538 ∧
      ((payload (List.replicate 16384 0) 8192 2).take 65536).length = 65536 ∧
      toks body = Tok.hdr [0, 0, 0, 0xff, 0xff] ::
        (((payload (List.replicate 16384 0) 8192 2).take 65536).map Tok.dat ++
          Tok.hdr [1, 2, 0, 0xfd, 0xff] ::
            ((payload (List.replicate 16384 0) 8192 2).drop 65536).map Tok.dat) :=
  blocks_8192x2 (List.replicate 16384 0)

/-- C6 (the code breaks it): for the 16384 by 1 image of zero pixels `pngWrite`
stages a single block header, `00 00 00 FF FF`, whose final-block flag is 0: no
block header of the output has flag 1. -/
theorem pngWrite_no_final_block :
    ∃ arena, pngWriteArena (List.replicate 16384 0) 16384 1 = Outcome.ok arena ∧
      blockHeadersOf arena = [[0, 0, 0, 0xff, 0xff]] ∧
      ∀ hd ∈ blockHeadersOf arena, hd.head? = some 0 :=
  headers_16384x1 (List.replicate 16384 0)

/-! ## The zlib header and the checksum engines -/

theorem frameToks_head (w total : Nat) (b : Nat) (bs : List Nat) (h0 : headerAt w total 0) :
    ∃ rest, Tok.bytes (frameToks w total 0 (b :: bs)) =
      blockHeaderBytes (total : Int) ++ rest := by
  refine ⟨Tok.bytes (Tok.dat b :: frameToks w total (0 + 1) bs), ?_⟩
  simp only [frameToks, if_pos h0, List.singleton_append, Tok.bytes]
  simp

/-- C11: in every output of `pngWrite` the bytes at offsets 41 and 42 are `08 1D`,
a valid zlib header (method nibble 8, FDICT bit clear, `0x081D` divisible by 31);
and for `w, h ≥ 1` with `4*w*h < 2^31` the five bytes that follow are the first
block header. -/
theorem pngWrite_zlib_header (img : List Nat) (w h : Nat) (out : List Nat)
    (hout : pngWrite img w h = Outcome.ok out) :
    (out.drop 41).take 2 = [0x08, 0x1d] ∧
    0x08 % 16 = 8 ∧ (0x1d / 32) % 2 = 0 ∧ (0x08 * 256 + 0x1d) % 31 = 0 ∧
    (1 ≤ w → 1 ≤ h → 4 * (w * h) < 2147483648 →
      (out.drop 43).take 5 = blockHeaderBytes (imgSizeOf w h)) := by
  obtain ⟨rest, e⟩ := pngWrite_header_prefix hout
  have hl := stagedHeader_length w h (dataSizeOf w h)
  refine ⟨?_, by decide, by decide, by decide, ?_⟩
  · rw [e, List.drop_append_of_le_length (by omega),
      List.take_append_of_le_length (by rw [List.length_drop]; omega)]
    rfl
  · intro hw hh hsz
    obtain ⟨arena, body, hout2, -, hs⟩ := pngWrite_shape img hw hh (by omega)
    rw [hout2] at hout
    simp only [Outcome.ok.injEq] at hout
    have hp := payload_length img w h
    have hwh : 1 ≤ w * h := Nat.mul_pos hw hh
    have h0 : headerAt w (payloadSize w h) 0 := by
      refine ⟨rfl, ?_⟩
      rintro ⟨-, e⟩
      unfold payloadSize at e
      omega
    have hpos : 0 < (payload img w h).length := by
      rw [hp]; unfold payloadSize; omega
    have hb : ∃ rest2, staged body = blockHeaderBytes (imgSizeOf w h) ++ rest2 := by
      rw [staged_eq_bytes, hs.toks, imgSizeOf_eq]
      generalize payload img w h = P at hpos
      cases P with
      | nil => simp at hpos
      | cons b bs => exact frameToks_head w _ b bs h0
    obtain ⟨rest2, e2⟩ := hb
    rw [← hout, staged_shape hs, e2, List.append_assoc, List.append_assoc,
      List.drop_left' hl, List.take_left' (blockHeaderBytes_length _)]

/-- Witness for C11 at the 1 by 1 image with pixel `0x11223344`. -/
theorem pngWrite_zlib_header_witness :
    pngWrite [0x11223344] 1 1 = Outcome.ok onePixelFile ∧
    (onePixelFile.drop 41).take 2 = [0x08, 0x1d] ∧
    (onePixelFile.drop 43).take 5 = [0x01, 0x05, 0x00, 0xfa, 0xff] := by
  have h := pngWrite_zlib_header [0x11223344] 1 1 onePixelFile pngWrite_onePixel
  exact ⟨pngWrite_onePixel, h.1, by decide⟩

/-- C14: `crc32Update` threads its state: running it over `a` and then, from the
state returned, over `b` gives the state of one run over `a ++ b`; a run over no
bytes returns the state it was given. -/
theorem crc32Update_threading (s : Nat) (a b : List Nat) :
    crc32Update (crc32Update s a) b = crc32Update s (a ++ b) ∧ crc32Update s [] = s :=
  ⟨by simp only [crc32Update, List.foldl_append], rfl⟩

set_option maxRecDepth 1000000 in
/-- C15: `crc32` of the empty sequence is 0 and `crc32` of the 43 ASCII bytes of
"The quick brown fox jumps over the lazy dog" is `0x414FA339`. -/
theorem crc32_test_vectors :
    crc32 [] = 0 ∧
    crc32 [0x54, 0x68, 0x65, 0x20, 0x71, 0x75, 0x69, 0x63, 0x6b, 0x20, 0x62, 0x72, 0x6f, 0x77,
      0x6e, 0x20, 0x66, 0x6f, 0x78, 0x20, 0x6a, 0x75, 0x6d, 0x70, 0x73, 0x20, 0x6f, 0x76, 0x65,
      0x72, 0x20, 0x74, 0x68, 0x65, 0x20, 0x6c, 0x61, 0x7a, 0x79, 0x20, 0x64, 0x6f, 0x67] =
        0x414FA339 ∧
    "The quick brown fox jumps over the lazy dog".data.map Char.toNat =
      [0x54, 0x68, 0x65, 0x20, 0x71, 0x75, 0x69, 0x63, 0x6b, 0x20, 0x62, 0x72, 0x6f, 0x77,
      0x6e, 0x20, 0x66, 0x6f, 0x78, 0x20, 0x6a, 0x75, 0x6d, 0x70, 0x73, 0x20, 0x6f, 0x76, 0x65,
      0x72, 0x20, 0x74, 0x68, 0x65, 0x20, 0x6c, 0x61, 0x7a, 0x79, 0x20, 0x64, 0x6f, 0x67] := by
  decide

/-! ## The CRC table against the bit-by-bit CRC -/

theorem crcTableRound_eq (c : Nat) : crcTableRound c = refCrcBit c := by
  unfold crcTableRound refCrcBit
  rw [Nat.and_one_is_mod, Nat.shiftRight_eq_div_pow, Nat.xor_comm]
  have h2 : c % 2 = 0 ∨ c % 2 = 1 := by omega
  rcases h2 with h | h <;> simp [h]

theorem refCrcBit_xor (a b : Nat) : refCrcBit (a ^^^ b) = refCrcBit a ^^^ refCrcBit b := by
  unfold refCrcBit
  have hx := @Nat.xor_mod_two_eq_one a b
  rw [Nat.xor_div_two]
  by_cases ha : a % 2 = 1 <;> by_cases hb : b % 2 = 1
  · have : ¬ ((a ^^^ b) % 2 = 1) := by rw [hx]; simp [ha, hb]
    rw [if_neg this, if_pos ha, if_pos hb]
    rw [Nat.xor_assoc, Nat.xor_comm (b / 2), ← Nat.xor_assoc 3988292384, Nat.xor_self,
      Nat.zero_xor]
  · have : (a ^^^ b) % 2 = 1 := by rw [hx]; simp [ha, hb]
    rw [if_pos this, if_pos ha, if_neg hb]
    rw [Nat.xor_assoc, Nat.xor_comm (b / 2), ← Nat.xor_assoc]
  · have : (a ^^^ b) % 2 = 1 := by rw [hx]; simp [ha, hb]
    rw [if_pos this, if_neg ha, if_pos hb, Nat.xor_assoc]
  · have : ¬ ((a ^^^ b) % 2 = 1) := by rw [hx]; simp [ha, hb]
    rw [if_neg this, if_neg ha, if_neg hb]

theorem refCrcBit_double (m : Nat) : refCrcBit (2 * m) = m := by
  unfold refCrcBit
  have h : ¬ ((2 * m) % 2 = 1) := by omega
  rw [if_neg h]
  omega

theorem refCrcBits8_xor (a b : Nat) : refCrcBits8 (a ^^^ b) = refCrcBits8 a ^^^ refCrcBits8 b := by
  simp only [refCrcBits8, refCrcBit_xor]

theorem refCrcBits8_high (q : Nat) : refCrcBits8 (256 * q) = q := by
  unfold refCrcBits8
  rw [show 256 * q = 2 * (2 * (2 * (2 * (2 * (2 * (2 * (2 * q))))))) by omega]
  simp only [refCrcBit_double]

theorem split_low_byte (x : Nat) : x = (256 * (x / 256)) ^^^ (x % 256) := by
  apply Nat.eq_of_testBit_eq
  intro i
  have e1 : (256 : Nat) = 2 ^ 8 := rfl
  rw [Nat.testBit_xor, e1, Nat.testBit_mul_pow_two, Nat.testBit_mod_two_pow]
  by_cases hi : i < 8
  · have : ¬ (i ≥ 8) := by omega
    simp [hi, this]
  · have h8 : i ≥ 8 := by omega
    simp only [hi, h8, decide_True, decide_False, Bool.true_and, Bool.false_and, Bool.xor_false]
    rw [← Nat.shiftRight_eq_div_pow, Nat.testBit_shiftRight]
    congr 1
    omega

theorem kCrcTable_getD (i : Nat) (hi : i < 256) : kCrcTable.getD i 0 = refCrcBits8 i := by
  unfold kCrcTable __crcMakeTable
  rw [List.getD_eq_getElem?_getD, List.getElem?_map, List.getElem?_range hi]
  simp only [Option.map_some', Option.getD_some, crcTableEntry, crcTableRound_eq, refCrcBits8, u32]
  rw [Nat.mod_eq_of_lt (by omega)]

theorem crcByte_eq (c d : Nat) (hd : d < 256) : crcByte c d = refCrcByte c d := by
  have hidx : (c ^^^ d) &&& 0xff = (c ^^^ d) % 256 := Nat.and_pow_two_sub_one_eq_mod _ 8
  have hhi : (c ^^^ d) / 256 = c / 256 := by
    have e : ∀ x : Nat, x / 256 = x >>> 8 := fun x => (Nat.shiftRight_eq_div_pow x 8).symm
    rw [e, e]
    apply Nat.eq_of_testBit_eq
    intro i
    rw [Nat.testBit_shiftRight, Nat.testBit_shiftRight, Nat.testBit_xor]
    have : d.testBit (8 + i) = false :=
      Nat.testBit_lt_two_pow (lt_of_lt_of_le hd (by
        have : (256 : Nat) = 2 ^ 8 := rfl
        rw [this]
        exact Nat.pow_le_pow_right (by decide) (by omega)))
    rw [this, Bool.xor_false]
  unfold crcByte
  rw [hidx, kCrcTable_getD _ (Nat.mod_lt _ (by decide)), Nat.shiftRight_eq_div_pow]
  show _ = refCrcBits8 (c ^^^ d)
  conv_rhs => rw [split_low_byte (c ^^^ d), refCrcBits8_xor, refCrcBits8_high, hhi]
  rw [Nat.xor_comm]

theorem crc32Update_eq_fold (c : Nat) (data : List Nat) (hd : ∀ b ∈ data, b < 256) :
    crc32Update c data = data.foldl refCrcByte c := by
  unfold crc32Update
  induction data generalizing c with
  | nil => rfl
  | cons b bs ih =>
    simp only [List.foldl_cons]
    rw [crcByte_eq c b (hd b (List.mem_cons_self b bs))]
    exact ih _ (fun x hx => hd x (List.mem_cons_of_mem b hx))

/-- C12: on every sequence of bytes the table-driven `crc32` (`crc32Update` from
`0xFFFFFFFF` through the table of `__crcMakeTable`, then XOR `0xFFFFFFFF`) equals
the bit-by-bit reflected CRC-32: per byte, XOR it into the state, then eight
times shift right and XOR `0xEDB88320` when the bit shifted out was 1. -/
theorem crc32_eq_bitwise (data : List Nat) (hd : ∀ b ∈ data, b < 256) :
    crc32 data = refCrc32 data ∧
    ∀ c, crc32Update c data = data.foldl refCrcByte c := by
  refine ⟨?_, fun c => crc32Update_eq_fold c data hd⟩
  unfold crc32 refCrc32
  rw [crc32Update_eq_fold _ _ hd]

set_option maxRecDepth 1000000 in
/-- Witness for C12 at the four bytes `IEND`. -/
theorem crc32_eq_bitwise_witness :
    (∀ b ∈ [0x49, 0x45, 0x4e, 0x44], b < 256) ∧
    crc32 [0x49, 0x45, 0x4e, 0x44] = refCrc32 [0x49, 0x45, 0x4e, 0x44] ∧
    refCrc32 [0x49, 0x45, 0x4e, 0x44] = 0xAE426082 :=
  ⟨by decide, (crc32_eq_bitwise [0x49, 0x45, 0x4e, 0x44] (by decide)).1, by decide⟩

/-! ## Adler-32 in closed form -/

theorem adlerWeighted_eq (b : List Nat) :
    ((List.range b.length).map fun i => (b.length - i) * b.getD i 0).sum = adlerWeighted b := by
  induction b with
  | nil => rfl
  | cons d ds ih =>
    rw [List.length_cons, List.range_succ_eq_map, List.map_cons, List.sum_cons, List.map_map,
      adlerWeighted, ← ih]
    congr 2
    apply List.map_congr_left
    intro i _
    simp only [Function.comp, Nat.succ_eq_add_one, Nat.add_sub_add_right, List.getD_cons_succ]

theorem adlerByte_eq (s : Nat × Nat) (d : Nat) :
    adlerByte s d = ((s.1 + d) % 65521, (s.2 + (s.1 + d) % 65521) % 65521) := by
  simp only [adlerByte, u16]
  congr 1 <;> omega

theorem adlerFold_eq (data : List Nat) (a b : Nat) (ha : a < 65521) (hb : b < 65521) :
    data.foldl adlerByte (a, b) =
      ((a + data.sum) % 65521, (b + data.length * a + adlerWeighted data) % 65521) := by
  induction data generalizing a b with
  | nil =>
    simp only [List.foldl_nil, List.sum_nil, List.length_nil, adlerWeighted, Nat.add_zero,
      Nat.zero_mul]
    rw [Nat.mod_eq_of_lt ha, Nat.mod_eq_of_lt hb]
  | cons d ds ih =>
    rw [List.foldl_cons, adlerByte_eq, ih _ _ (Nat.mod_lt _ (by decide)) (Nat.mod_lt _ (by decide))]
    simp only [List.sum_cons, List.length_cons, adlerWeighted]
    have h1 : Nat.ModEq 65521 ((a + d) % 65521) (a + d) := Nat.mod_modEq _ _
    have h2 : Nat.ModEq 65521 ((b + (a + d) % 65521) % 65521) (b + (a + d)) :=
      (Nat.mod_modEq _ _).trans (Nat.ModEq.add_left b h1)
    congr 1
    · have e : Nat.ModEq 65521 ((a + d) % 65521 + ds.sum) (a + (d + ds.sum)) := by
        have := Nat.ModEq.add_right ds.sum h1
        rwa [Nat.add_assoc a d] at this
      exact e
    · have e : Nat.ModEq 65521
          ((b + (a + d) % 65521) % 65521 + ds.length * ((a + d) % 65521) + adlerWeighted ds)
          (b + (a + d) + ds.length * (a + d) + adlerWeighted ds) :=
        Nat.ModEq.add_right _ (Nat.ModEq.add h2 (Nat.ModEq.mul_left _ h1))
      have e2 : b + (a + d) + ds.length * (a + d) + adlerWeighted ds =
          b + (ds.length + 1) * a + ((ds.length + 1) * d + adlerWeighted ds) := by ring
      rw [e2] at e
      exact e

theorem refAdler32_fold (data : List Nat) (s : Nat × Nat) :
    data.foldl
      (fun (s : Nat × Nat) d => ((s.1 + d) % 65521, (s.2 + (s.1 + d) % 65521) % 65521)) s =
      data.foldl adlerByte s := by
  induction data generalizing s with
  | nil => rfl
  | cons d ds ih => rw [List.foldl_cons, List.foldl_cons, ih, adlerByte_eq]

theorem pack_eq_add {a b : Nat} (hb : b < 65536) : (a <<< 16) ||| b = a * 65536 + b := by
  have h16 : b < 2 ^ 16 := by omega
  have := Nat.mul_add_lt_is_or h16 a
  rw [Nat.shiftLeft_eq, Nat.mul_comm, ← this]

/-- C13: for every byte sequence `b` of length `n`, `__pngAdler32(1, b)` is
`(s2 << 16) | s1` with `s1 = (1 + sum of b[i]) mod 65521` and
`s2 = (n + sum over i of (n - i) * b[i]) mod 65521`; this is the reference
Adler-32, and on the empty sequence it is the initial state 1. -/
theorem pngAdler32_closed_form (b : List Nat) :
    __pngAdler32 1 b = (adlerHigh b <<< 16) ||| adlerLow b ∧
    __pngAdler32 1 b = refAdler32 b ∧
    __pngAdler32 1 [] = 1 := by
  have hf := adlerFold_eq b 1 0 (by decide) (by decide)
  have h0 : ((u16 1, u16 (1 >>> 16)) : Nat × Nat) = (1, 0) := rfl
  have hlow : adlerLow b < 65521 := Nat.mod_lt _ (by decide)
  have hhigh : adlerHigh b < 65521 := Nat.mod_lt _ (by decide)
  have hmain : __pngAdler32 1 b = (adlerHigh b <<< 16) ||| adlerLow b := by
    unfold __pngAdler32
    simp only [h0, hf, adlerLow, adlerHigh, adlerWeighted_eq, Nat.zero_add, Nat.mul_one, u32]
    have hm : (b.length + adlerWeighted b) % 65521 % 4294967296 =
        (b.length + adlerWeighted b) % 65521 := by omega
    rw [hm]
  refine ⟨hmain, ?_, rfl⟩
  rw [hmain, pack_eq_add (by omega)]
  unfold refAdler32
  simp only [refAdler32_fold, hf, adlerLow, adlerHigh, adlerWeighted_eq, Nat.zero_add,
    Nat.mul_one]

/-! ## Calls that the encoder does not reject -/

theorem emitLoop_skip (lineSize height : Int) (fuel : Nat) (s : EmitState) (hc : ¬ s.count > 0) :
    emitLoop lineSize height fuel s = Outcome.ok s := by
  cases fuel <;> simp [emitLoop, hc]

theorem pngWrite_zero (img : List Nat) (w h : Nat) (hz : w = 0 ∨ h = 0) :
    pngWrite img w h = Outcome.ok (stagedHeader w h (dataSizeOf w h)) := by
  have hc : ¬ (initialState img w h).count > 0 := by
    simp only [initialState]
    rcases hz with e | e <;> subst e <;> simp
  simp only [pngWrite, pngWriteArena, emitLoop_skip _ _ _ _ hc]
  simp [initialState, staged]

/-- C16 as amended: for every call with `width = 0` or `height = 0` `pngWrite`
makes no check of the dimensions: it stages the 43-byte prefix (signature, IHDR,
IDAT length and type, zlib header) and nothing else, and it returns `YES`
exactly when `blobMake` succeeds. -/
theorem pngWrite_zero_not_rejected (img : List Nat) (w h : Nat) (hz : w = 0 ∨ h = 0) :
    pngWrite img w h = Outcome.ok (stagedHeader w h (dataSizeOf w h)) ∧
    (stagedHeader w h (dataSizeOf w h)).length = 43 ∧
    ∀ blobOk, pngWriteReturn img w h blobOk = Outcome.ok blobOk := by
  refine ⟨pngWrite_zero img w h hz, stagedHeader_length _ _ _, ?_⟩
  intro blobOk
  simp only [pngWriteReturn, pngWrite_zero img w h hz]

/-- Witness for C16 as amended, at `width = 0`, `height = 3`. -/
theorem pngWrite_zero_not_rejected_witness :
    ((0 : Nat) = 0 ∨ (3 : Nat) = 0) ∧
    pngWrite [] 0 3 = Outcome.ok (stagedHeader 0 3 (dataSizeOf 0 3)) ∧
    pngWriteReturn [] 0 3 true = Outcome.ok true :=
  ⟨Or.inl rfl, (pngWrite_zero_not_rejected [] 0 3 (Or.inl rfl)).1,
    (pngWrite_zero_not_rejected [] 0 3 (Or.inl rfl)).2.2 true⟩

set_option maxRecDepth 1000000 in
/-- C16 as stated fails: called with `width = 0` and `height = 0`, `pngWrite`
stages 43 bytes and returns `YES` when the file can be created. -/
theorem pngWrite_zero_accepted :
    pngWriteReturn [] 0 0 true = Outcome.ok true ∧
    pngWrite [] 0 0 = Outcome.ok
      [0x89, 0x50, 0x4e, 0x47, 0x0d, 0x0a, 0x1a, 0x0a,
       0x00, 0x00, 0x00, 0x0d, 0x49, 0x48, 0x44, 0x52,
       0x00, 0x00, 0x00, 0x00, 0x00, 0x00, 0x00, 0x00, 0x08, 0x06, 0x00, 0x00, 0x00,
       0x3b, 0x8b, 0x7c, 0x12,
       0x00, 0x00, 0x00, 0x06, 0x49, 0x44, 0x41, 0x54,
       0x08, 0x1d] := by
  decide

/-! ## The IDAT length field and the length of the file -/

theorem lengthField_eq (d : Int) (hd : 0 ≤ d) :
    [((d >>> 24) % 256).toNat, ((d >>> 16) % 256).toNat, ((d >>> 8) % 256).toNat,
      (d % 256).toNat] = be32 d.toNat := by
  obtain ⟨n, rfl⟩ := Int.eq_ofNat_of_zero_le hd
  have hs : ∀ k : Nat, ((n : Int) >>> k) = ((n >>> k : Nat) : Int) := fun k => rfl
  simp only [be32, u8, hs, Int.toNat_ofNat]
  rfl

theorem readBe32_be32_mod (v : Nat) : readBe32 (be32 v) = some (v % 4294967296) := by
  simp only [be32, readBe32, u8, Nat.shiftRight_eq_div_pow, Option.some.injEq]
  omega

theorem dataSizeOf_eq (w h : Nat) :
    dataSizeOf w h =
      ((payloadSize w h + 5 * ((payloadSize w h + 65535) / 65536) + 6 : Nat) : Int) := by
  have e := imgSizeOf_eq w h
  simp only [dataSizeOf, K_DEFLATE_MAX_BLOCK_SIZE, e]
  generalize payloadSize w h = S
  split_ifs <;> omega

theorem pngWrite_lengthField {img : List Nat} {w h : Nat} {out : List Nat}
    (hout : pngWrite img w h = Outcome.ok out) :
    (out.drop 33).take 4 = be32 (dataSizeOf w h).toNat ∧
    readBe32 ((out.drop 33).take 4) = some ((dataSizeOf w h).toNat % 4294967296) := by
  obtain ⟨rest, e⟩ := pngWrite_header_prefix hout
  have hl := stagedHeader_length w h (dataSizeOf w h)
  have hd : 0 ≤ dataSizeOf w h := by rw [dataSizeOf_eq]; omega
  have h4 : (out.drop 33).take 4 = be32 (dataSizeOf w h).toNat := by
    rw [e, List.drop_append_of_le_length (by omega),
      List.take_append_of_le_length (by rw [List.length_drop]; omega),
      stagedHeader_dataSize, lengthField_eq _ hd]
  exact ⟨h4, by rw [h4, readBe32_be32_mod]⟩

theorem pngWriteReturn_ok {img : List Nat} {w h : Nat} {out : List Nat}
    (hout : pngWrite img w h = Outcome.ok out) (blobOk : Bool) :
    pngWriteReturn img w h blobOk = Outcome.ok blobOk := by
  simp only [pngWriteReturn, hout]

/-- What `pngWrite` does for an image whose `dataSize` may exceed 32 bits: it
runs to the end, the length field holds the low 32 bits of `dataSize`, and the
value returned is the outcome of `blobMake`. -/
theorem pngWrite_truncates (img : List Nat) {w h : Nat} (hw : 1 ≤ w) (hh : 1 ≤ h)
    (hsz : 4 * (w * h) < 4294967296) :
    ∃ out, pngWrite img w h = Outcome.ok out ∧
      readBe32 ((out.drop 33).take 4) = some ((dataSizeOf w h).toNat % 4294967296) ∧
      ∀ blobOk, pngWriteReturn img w h blobOk = Outcome.ok blobOk := by
  obtain ⟨arena, body, hout, -, -⟩ := pngWrite_shape img hw hh hsz
  exact ⟨_, hout, (pngWrite_lengthField hout).2, pngWriteReturn_ok hout⟩

/-- C17 as amended: for `w, h ≥ 1` with `4*w*h < 2^32` and `4*w + 1 < 2^31` (so
that no `int` of `pngWrite` overflows) whose `dataSize` does not fit the 32-bit
IDAT length field, `pngWrite` signals no error: it stages the whole file with the
low 32 bits of `dataSize` in the length field and returns `YES` exactly when
`blobMake` succeeds. -/
theorem pngWrite_dataSize_unchecked (img : List Nat) (w h : Nat) (hw : 1 ≤ w) (hh : 1 ≤ h)
    (hsz : 4 * (w * h) < 4294967296) (hline : 4 * w + 1 < 2147483648)
    (hbig : 4294967296 ≤ dataSizeOf w h) :
    ∃ out, pngWrite img w h = Outcome.ok out ∧
      readBe32 ((out.drop 33).take 4) = some ((dataSizeOf w h).toNat % 4294967296) ∧
      (dataSizeOf w h).toNat % 4294967296 ≠ (dataSizeOf w h).toNat ∧
      ∀ blobOk, pngWriteReturn img w h blobOk = Outcome.ok blobOk := by
  obtain ⟨out, h1, h2, h3⟩ := pngWrite_truncates img hw hh hsz
  exact ⟨out, h1, h2, by omega, h3⟩

/-- Witness for C17 as amended, at the 1 by 1073741823 image of zero pixels. -/
theorem pngWrite_dataSize_unchecked_witness :
    (4 * (1 * 1073741823) < 4294967296 ∧ 4 * 1 + 1 < 2147483648 ∧
      (4294967296 : Int) ≤ dataSizeOf 1 1073741823) ∧
    ∃ out, pngWrite (List.replicate 1073741823 0) 1 1073741823 = Outcome.ok out ∧
      readBe32 ((out.drop 33).take 4) =
        some ((dataSizeOf 1 1073741823).toNat % 4294967296) := by
  obtain ⟨out, h1, h2, -, -⟩ :=
    pngWrite_dataSize_unchecked (List.replicate 1073741823 0) 1 1073741823 (by decide)
      (by decide) (by decide) (by decide) (by decide)
  exact ⟨by decide, out, h1, h2⟩

/-- C17 as stated fails: for the 1 by 1073741823 image of zero pixels `dataSize`
is 5369118721, which does not fit 32 bits; `pngWrite` stages the file with
1074151425, the low 32 bits, in the length field and returns `YES` when the file
can be created. -/
theorem pngWrite_dataSize_truncated :
    dataSizeOf 1 1073741823 = 5369118721 ∧ (4294967296 : Int) ≤ 5369118721 ∧
    ∃ out, pngWrite (List.replicate 1073741823 0) 1 1073741823 = Outcome.ok out ∧
      readBe32 ((out.drop 33).take 4) = some 1074151425 ∧
      pngWriteReturn (List.replicate 1073741823 0) 1 1073741823 true = Outcome.ok true := by
  have hd : dataSizeOf 1 1073741823 = 5369118721 := by decide
  obtain ⟨out, h1, h2, h3⟩ :=
    pngWrite_truncates (List.replicate 1073741823 0) (show 1 ≤ 1 by decide)
      (show 1 ≤ 1073741823 by decide) (by decide)
  refine ⟨hd, by decide, out, h1, ?_, h3 true⟩
  rw [h2, hd]
  decide

theorem frameToks_bytes_length (w total : Nat) (bs : List Nat) (pos : Nat) :
    (Tok.bytes (frameToks w total pos bs)).length =
      bs.length + 5 * headerCount w total pos bs.length := by
  induction bs generalizing pos with
  | nil => rfl
  | cons b bs ih =>
    simp only [frameToks, List.length_cons, headerCount]
    split_ifs
    · simp only [List.singleton_append, Tok.bytes, List.length_append, List.length_cons, ih,
        blockHeaderBytes_length]
      omega
    · simp only [List.nil_append, Tok.bytes, List.length_cons, ih]
      omega

theorem headerCount_eq (w total : Nat) (n pos : Nat) (hn : pos + n ≤ total) :
    headerCount w total pos n + (pos + 65535) / 65536 +
        (if 4 * w ≤ 65536 ∧ total % 65536 = 1 ∧ pos < total ∧ total ≤ pos + n then 1 else 0) =
      (pos + n + 65535) / 65536 := by
  induction n generalizing pos with
  | zero =>
    simp only [headerCount, Nat.add_zero]
    split_ifs <;> omega
  | succ n ih =>
    have h := ih (pos + 1) (by omega)
    simp only [headerCount, headerAt]
    split_ifs at h ⊢ <;> omega

/-- The length of the file staged by `pngWrite`: 43 bytes of header, the payload,
five bytes for each block header, and 20 bytes of footer. -/
theorem pngWrite_length (img : List Nat) {w h : Nat} (hw : 1 ≤ w) (hh : 1 ≤ h)
    (hsz : 4 * (w * h) < 4294967296) :
    ∃ out, pngWrite img w h = Outcome.ok out ∧
      out.length + 5 * (if 4 * w ≤ 65536 ∧ payloadSize w h % 65536 = 1 then 1 else 0) =
        43 + payloadSize w h + 5 * ((payloadSize w h + 65535) / 65536) + 20 := by
  obtain ⟨arena, body, hout, -, hs⟩ := pngWrite_shape img hw hh hsz
  refine ⟨_, hout, ?_⟩
  have hp := payload_length img w h
  have hc := headerCount_eq w (payloadSize w h) (payloadSize w h) 0 (by omega)
  have hwh : 1 ≤ w * h := Nat.mul_pos hw hh
  have hS : 1 ≤ payloadSize w h := by unfold payloadSize; omega
  have hb : (staged body).length =
      payloadSize w h + 5 * headerCount w (payloadSize w h) 0 (payloadSize w h) := by
    rw [staged_eq_bytes, hs.toks, frameToks_bytes_length, hp]
  rw [staged_shape hs]
  simp only [List.length_append, stagedHeader_length, footerBytes_length, hb]
  generalize payloadSize w h = S at *
  generalize headerCount w S 0 S = c at *
  split_ifs at hc ⊢ <;> omega

set_option maxRecDepth 1000000 in
theorem pngWrite_fourPixel :
    pngWrite [0x11223344, 0x55667788, 0x99aabbcc, 0xddeeff00] 2 2 = Outcome.ok fourPixelFile := by
  decide

/-- C18 as stated fails: the file staged for the 2 by 2 image with pixels
`0x11223344`, `0x55667788`, `0x99aabbcc`, `0xddeeff00` has 86 bytes, its length
field holds `dataSize = 29`, and `43 + dataSize + 4`, the value of `fileSize`,
is 76. -/
theorem pngWrite_length_not_fileSize :
    pngWrite [0x11223344, 0x55667788, 0x99aabbcc, 0xddeeff00] 2 2 = Outcome.ok fourPixelFile ∧
    fourPixelFile.length = 86 ∧
    readBe32 ((fourPixelFile.drop 33).take 4) = some 29 ∧
    dataSizeOf 2 2 = 29 ∧ fileSizeOf 2 2 = 43 + 29 + 4 ∧ (43 + 29 + 4 : Int) = 76 := by
  refine ⟨pngWrite_fourPixel, ?_, ?_, ?_, ?_, ?_⟩ <;> decide

/-- C18 as amended: for `w, h ≥ 1` with `4*w*h < 2^31`, unless the payload size is
1 modulo 65536 with rows of at most 65536 pixel bytes, the file staged by
`pngWrite` has `41 + dataSize + 16` bytes (signature, IHDR, IDAT length and type;
the IDAT data; IDAT checksum and IEND), `dataSize` being the value written in the
IDAT length field. -/
theorem pngWrite_length_dataSize (img : List Nat) (w h : Nat) (hw : 1 ≤ w) (hh : 1 ≤ h)
    (hsz : 4 * (w * h) < 2147483648)
    (hreg : ¬ (4 * w ≤ 65536 ∧ ((4 * w + 1) * h) % 65536 = 1)) :
    ∃ out, pngWrite img w h = Outcome.ok out ∧
      (out.length : Int) = 41 + dataSizeOf w h + 16 ∧
      readBe32 ((out.drop 33).take 4) = some (dataSizeOf w h).toNat := by
  obtain ⟨out, hout, hlen⟩ := pngWrite_length img hw hh (show 4 * (w * h) < 4294967296 by omega)
  have hS : (4 * w + 1) * h = payloadSize w h := by unfold payloadSize; ring
  rw [hS] at hreg
  have hd := dataSizeOf_eq w h
  have hf := (pngWrite_lengthField hout).2
  have hwh : w * h ≥ h := Nat.le_mul_of_pos_left h hw
  have hSb : payloadSize w h < 2684354560 := by unfold payloadSize; omega
  refine ⟨out, hout, ?_, ?_⟩
  · rw [hd]
    rw [if_neg hreg] at hlen
    omega
  · rw [hf, hd, Int.toNat_ofNat]
    congr 1
    apply Nat.mod_eq_of_lt
    generalize payloadSize w h = S at hSb
    omega

/-- Witness for C18 as amended, at the 2 by 2 image of four distinct pixels. -/
theorem pngWrite_length_dataSize_witness :
    (4 * (2 * 2) < 2147483648 ∧ ¬ (4 * 2 ≤ 65536 ∧ ((4 * 2 + 1) * 2) % 65536 = 1)) ∧
    ∃ out, pngWrite [0x11223344, 0x55667788, 0x99aabbcc, 0xddeeff00] 2 2 = Outcome.ok out ∧
      (out.length : Int) = 41 + 29 + 16 := by
  obtain ⟨out, h1, h2, -⟩ :=
    pngWrite_length_dataSize [0x11223344, 0x55667788, 0x99aabbcc, 0xddeeff00] 2 2 (by decide)
      (by decide) (by decide) (by decide)
  have hd : dataSizeOf 2 2 = 29 := by decide
  rw [hd] at h2
  exact ⟨by decide, out, h1, h2⟩

/-! ## The overhead of the stored blocks -/

/-- C19 (the code breaks it): for the 128 by 511 image of zero pixels the payload
has 262143 bytes; `pngWrite` computes `dataSize = 262169 = 262143 + 5*4 + 6`,
counting blocks of 65536 bytes, and writes it in the IDAT length field, while
`imageSize + 5*ceil(imageSize/65535) + 6` is 262174. -/
theorem pngWrite_dataSize_blocks_of_65536 :
    imgSizeOf 128 511 = 262143 ∧ dataSizeOf 128 511 = 262169 ∧
    262143 + 5 * ((262143 + 65534) / 65535) + 6 = 262174 ∧
    ∃ out, pngWrite (List.replicate 65408 0) 128 511 = Outcome.ok out ∧
      readBe32 ((out.drop 33).take 4) = some 262169 := by
  have hd : dataSizeOf 128 511 = 262169 := by decide
  obtain ⟨out, h1, h2, -⟩ :=
    pngWrite_truncates (List.replicate 65408 0) (show 1 ≤ 128 by decide)
      (show 1 ≤ 511 by decide) (by decide)
  refine ⟨by decide, hd, by decide, out, h1, ?_⟩
  rw [h2, hd]
  decide

set_option maxRecDepth 1000000 in
theorem xor_ff_byte : ∀ x, x < 256 → x ^^^ 255 = 255 - x := by
  decide

theorem u8_xor_ff (s : Nat) : u8 (s ^^^ 0xff) = 255 - s % 256 := by
  have e : (s ^^^ 255) % 256 = (s % 256) ^^^ 255 := by
    apply Nat.eq_of_testBit_eq
    intro i
    have e1 : (256 : Nat) = 2 ^ 8 := rfl
    rw [e1, Nat.testBit_mod_two_pow, Nat.testBit_xor, Nat.testBit_xor, Nat.testBit_mod_two_pow]
    by_cases hi : i < 8
    · simp [hi]
    · have h255 : Nat.testBit 255 i = false :=
        Nat.testBit_lt_two_pow (lt_of_lt_of_le (show 255 < 2 ^ 8 by decide)
          (Nat.pow_le_pow_right (by decide) (by omega)))
      simp [hi, h255]
  unfold u8
  rw [e]
  exact xor_ff_byte _ (Nat.mod_lt _ (by decide))

theorem blockHeaderBytes_small (s : Nat) (hs : s ≤ 65535) :
    blockHeaderBytes (s : Int) = [1, s % 256, s / 256, 255 - s % 256, 255 - s / 256] := by
  have h1 : (s : Int) < K_DEFLATE_MAX_BLOCK_SIZE := by
    simp only [K_DEFLATE_MAX_BLOCK_SIZE]; omega
  have h2 : (s : Int) ≤ K_DEFLATE_MAX_BLOCK_SIZE := le_of_lt h1
  have h3 : (toU16 (s : Int)).toNat = s := by
    simp only [toU16]; omega
  have h4 : s >>> 8 = s / 256 := Nat.shiftRight_eq_div_pow s 8
  have h5 : (s / 256) % 256 = s / 256 := Nat.mod_eq_of_lt (by omega)
  simp only [blockHeaderBytes, if_pos h1, if_pos h2, h3, h4, u8_xor_ff, h5]
  simp only [u8, h5]

theorem frameToks_small (w : Nat) (P : List Nat) (hP : 1 ≤ P.length) (hs : P.length ≤ 65535)
    (h2 : 2 ≤ P.length) :
    frameToks w P.length 0 P = Tok.hdr (blockHeaderBytes (P.length : Int)) :: P.map Tok.dat := by
  rw [frameToks_run]
  · have h0 : headerAt w P.length 0 := by
      refine ⟨rfl, ?_⟩
      rintro ⟨-, e⟩
      omega
    rw [if_pos h0]
    simp only [List.singleton_append, Nat.cast_zero, sub_zero]
  · intro e
    rw [e] at hP
    simp at hP
  · intro j hj1 hj2
    simp only [headerAt, Nat.zero_add]
    omega

/-- C20: for `w, h ≥ 1` with payload size `imageSize = (4*w+1)*h ≤ 65535`,
`pngWrite` emits exactly one stored block: after the 43-byte header, which ends
with the zlib header, come the block header
`[1, imageSize & 0xFF, imageSize >> 8, ~imageSize & 0xFF, ~(imageSize >> 8) & 0xFF]`,
the `imageSize` payload bytes, and the footer that starts with the Adler-32
trailer. -/
theorem pngWrite_single_block (img : List Nat) (w h : Nat) (hw : 1 ≤ w) (hh : 1 ≤ h)
    (hs : (4 * w + 1) * h ≤ 65535) :
    ∃ (arena : List Alloc) (footer : List Nat),
      pngWriteArena img w h = Outcome.ok arena ∧
      blockHeadersOf arena = [blockHeaderBytes (((4 * w + 1) * h : Nat) : Int)] ∧
      blockHeaderBytes (((4 * w + 1) * h : Nat) : Int) =
        [1, ((4 * w + 1) * h) % 256, ((4 * w + 1) * h) / 256,
          255 - ((4 * w + 1) * h) % 256, 255 - ((4 * w + 1) * h) / 256] ∧
      pngWrite img w h = Outcome.ok
        (stagedHeader w h (dataSizeOf w h) ++
          blockHeaderBytes (((4 * w + 1) * h : Nat) : Int) ++ payload img w h ++ footer) ∧
      (stagedHeader w h (dataSizeOf w h)).length = 43 ∧
      (stagedHeader w h (dataSizeOf w h)).drop 41 = [0x08, 0x1d] ∧
      (payload img w h).length = (4 * w + 1) * h ∧
      footer.length = 20 ∧
      footer.take 4 = be32 (__pngAdler32 1 (payload img w h)) := by
  have hS : (4 * w + 1) * h = payloadSize w h := by unfold payloadSize; ring
  have hwh : 1 ≤ w * h := Nat.mul_pos hw hh
  have hS2 : payloadSize w h = 4 * (w * h) + h := rfl
  rw [hS] at hs ⊢
  obtain ⟨arena, body, hout, harena, hshape⟩ := pngWrite_shape img hw hh (by omega)
  have hp := payload_length img w h
  have ht : toks body =
      Tok.hdr (blockHeaderBytes (payloadSize w h : Int)) :: (payload img w h).map Tok.dat := by
    rw [hshape.toks, ← hp]
    exact frameToks_small w _ (by omega) (by omega) (by omega)
  refine ⟨arena, footerBytes (crc32Update (idatCrcStart w h) (staged body))
      (__pngAdler32 1 (payload img w h)), harena, ?_, blockHeaderBytes_small _ hs, ?_,
    stagedHeader_length _ _ _, rfl, hp, footerBytes_length _ _, rfl⟩
  · rw [hshape.arena]
    exact headers_single_block _ _ body _ _ rfl rfl ht
  · rw [hout, staged_shape hshape, staged_eq_bytes body, ht, bytes_single_block]
    simp only [List.append_assoc]

set_option maxRecDepth 1000000 in
/-- Witness for C20 at the 1 by 1 image with pixel `0x11223344`. -/
theorem pngWrite_single_block_witness :
    ((4 * 1 + 1) * 1 ≤ 65535) ∧
    ∃ arena, pngWriteArena [0x11223344] 1 1 = Outcome.ok arena ∧
      blockHeadersOf arena = [[1, 5, 0, 250, 255]] := by
  obtain ⟨arena, footer, h1, h2, h3, -⟩ :=
    pngWrite_single_block [0x11223344] 1 1 (by decide) (by decide) (by decide)
  refine ⟨by decide, arena, h1, ?_⟩
  rw [h2, h3]

/-! ## The alignment of the arena -/

theorem arenaAlloc_fits (self : Int) (realloc : Int → Option Int) (fuel : Nat) (arena : Arena)
    (size : Int) (hfit : arena.start + arena.cursor + size ≤ arena.end_) :
    arenaAlloc self realloc fuel arena size =
      Outcome.ok (arena.start + arena.cursor, { arena with cursor := arena.cursor + size }) := by
  have h : ¬ (arena.start + arena.cursor + size > arena.end_) := by omega
  unfold arenaAlloc
  rw [if_neg h]

/-- With room left in the buffer and a non-negative cursor, `arenaAlign` leaves
the cursor at the next multiple of `K_ARENA_ALIGN = 8`. -/
theorem arenaAlign_multiple_of_8 (self : Int) (realloc : Int → Option Int) (fuel : Nat)
    (arena : Arena) (hc : 0 ≤ arena.cursor) (hfit : arena.start + arena.cursor + 7 ≤ arena.end_) :
    ∃ a, arenaAlign self realloc fuel arena = Outcome.ok (arena.start + arena.cursor, a) ∧
      a.cursor % 8 = 0 ∧ arena.cursor ≤ a.cursor ∧ a.cursor < arena.cursor + 8 ∧
      a.start = arena.start ∧ a.end_ = arena.end_ := by
  have hm : Int.tmod arena.cursor K_ARENA_ALIGN = arena.cursor % 8 := by
    simp only [K_ARENA_ALIGN]
    rw [Int.tmod_eq_emod hc (by decide)]
  by_cases h0 : arena.cursor % 8 = 0
  · refine ⟨arena, ?_, h0, le_refl _, by omega, rfl, rfl⟩
    simp only [arenaAlign, hm, h0, ne_eq, not_true_eq_false, if_false]
  · refine ⟨{ arena with cursor := arena.cursor + (K_ARENA_ALIGN - arena.cursor % 8) }, ?_, ?_,
      ?_, ?_, rfl, rfl⟩
    · simp only [arenaAlign, hm, ne_eq, h0, not_false_eq_true, if_true]
      rw [arenaAlloc_fits _ _ _ _ _ (by simp only [K_ARENA_ALIGN]; omega)]
    · simp only [K_ARENA_ALIGN]; omega
    · simp only [K_ARENA_ALIGN]; omega
    · simp only [K_ARENA_ALIGN]; omega

/-- C21 (the code breaks it): in an arena of 4096 bytes at address 4096 with one
byte allocated, `arenaAlign` moves the cursor from 1 to 8, which is not a
multiple of 16, and the next `arenaAlloc`, which needs no growth, returns the
address `4096 + 8`, that is offset 8. -/
theorem arenaAlign_not_16 (self : Int) (realloc : Int → Option Int) (fuel : Nat) :
    arenaInit (some 4096) ⟨0, 0, 0, 0⟩ 4096 = ⟨4096, 8192, 0, -1⟩ ∧
    arenaAlloc self realloc fuel ⟨4096, 8192, 0, -1⟩ 1 = Outcome.ok (4096, ⟨4096, 8192, 1, -1⟩) ∧
    arenaAlign self realloc fuel ⟨4096, 8192, 1, -1⟩ = Outcome.ok (4097, ⟨4096, 8192, 8, -1⟩) ∧
    ¬ ((8 : Int) % 16 = 0) ∧
    arenaAlloc self realloc fuel ⟨4096, 8192, 8, -1⟩ 16 =
      Outcome.ok (4096 + 8, ⟨4096, 8192, 24, -1⟩) ∧
    ¬ ((4096 + 8 : Int) % 16 = 0) := by
  refine ⟨rfl, ?_, ?_, by decide, ?_, by decide⟩
  · rw [arenaAlloc_fits _ _ _ _ _ (by decide)]
    rfl
  · have hm : Int.tmod 1 K_ARENA_ALIGN = 1 := by decide
    simp only [arenaAlign, hm]
    rw [arenaAlloc_fits _ _ _ _ _ (by decide)]
    rfl
  · rw [arenaAlloc_fits _ _ _ _ _ (by decide)]
    rfl

/-! ## The two string hashes -/

theorem i8ToU64_ascii (b : Nat) (hb : b < 128) : i8ToU64 b = u8 b := by
  have h : u8 b < 128 := by simp only [u8]; omega
  simp only [i8ToU64, if_pos h]

theorem hashStringLoop_ascii (s : List Nat) (h : Nat) (hs : ∀ b ∈ s, 1 ≤ b ∧ b < 128) :
    hashStringLoop h (s ++ [0]) = s.foldl hashStep h := by
  induction s generalizing h with
  | nil => simp [hashStringLoop]
  | cons b bs ih =>
    have hb := hs b (List.mem_cons_self b bs)
    have hb0 : b ≠ 0 := by omega
    simp only [List.cons_append, hashStringLoop, if_neg hb0, List.foldl_cons, List.append_eq]
    rw [ih _ (fun x hx => hs x (List.mem_cons_of_mem b hx))]
    simp only [hashStringStep, hashStep, i8ToU64_ascii b hb.2]

/-- On strings of bytes `01 .. 7f` the two hashes agree. -/
theorem hashString_ascii (s : List Nat) (hs : ∀ b ∈ s, 1 ≤ b ∧ b < 128) :
    stringFormatArgsHash s = stringMakeRangeHash s := by
  simp only [stringFormatArgsHash, stringMakeRangeHash, hashString, hash,
    hashStringLoop_ascii s _ hs]

/-- C29 (the code breaks it): for the one-byte string `80`, which holds no NUL,
`hash` reads the byte as `u8` and XORs `0x80` into the state, `hashString` reads
it as `i8` and XORs `0xFFFFFFFFFFFFFF80`; the two hashes, and with them the hash
fields stored by `stringMakeRange` and `stringFormatArgs`, differ. -/
theorem hashString_high_byte_differs :
    hash [0x80] = 12638293853183578463 ∧
    hashString [0x80, 0] = 5808531584386460767 ∧
    stringMakeRangeHash [0x80] ≠ stringFormatArgsHash [0x80] := by
  decide

/-! ## The halves of the Adler-32 state -/

theorem adlerFold_lt_modulus (data : List Nat) (s : Nat × Nat) (h1 : s.1 < 65521)
    (h2 : s.2 < 65521) :
    (data.foldl adlerByte s).1 < 65521 ∧ (data.foldl adlerByte s).2 < 65521 := by
  induction data generalizing s with
  | nil => exact ⟨h1, h2⟩
  | cons d ds ih =>
    have := adlerByte_lt s d
    exact ih _ this.1 this.2

theorem pngAdler32_pack (state : Nat) (data : List Nat) :
    __pngAdler32 state data =
      (data.foldl adlerByte (u16 state, u16 (state >>> 16))).2 * 65536 +
        (data.foldl adlerByte (u16 state, u16 (state >>> 16))).1 := by
  have h := adlerFold_lt data (u16 state, u16 (state >>> 16)) (by simp only [u16]; omega)
    (by simp only [u16]; omega)
  unfold __pngAdler32
  simp only []
  rw [pack_eq_add h.1]
  simp only [u32]
  rw [Nat.mod_eq_of_lt (by omega)]

/-- C30: for every 32-bit state and every non-empty byte sequence both 16-bit
halves of the value returned by `__pngAdler32` (the low half `v % 65536` and the
high half `v >> 16`) are below 65521, the value itself being a 32-bit word; and on
the empty sequence `__pngAdler32` returns the state it was given. -/
theorem pngAdler32_halves (state : Nat) (data : List Nat) (hs : state < 4294967296) :
    (data ≠ [] →
      u16 (__pngAdler32 state data) < 65521 ∧ (__pngAdler32 state data) >>> 16 < 65521 ∧
        __pngAdler32 state data < 4294967296) ∧
    __pngAdler32 state [] = state := by
  constructor
  · intro hne
    obtain ⟨d, ds, rfl⟩ := List.exists_cons_of_ne_nil hne
    have h0 := adlerByte_lt (u16 state, u16 (state >>> 16)) d
    have h := adlerFold_lt_modulus ds _ h0.1 h0.2
    have hv := pngAdler32_pack state (d :: ds)
    rw [List.foldl_cons] at hv
    generalize List.foldl adlerByte (adlerByte (u16 state, u16 (state >>> 16)) d) ds = p at h hv
    generalize __pngAdler32 state (d :: ds) = v at hv ⊢
    rw [Nat.shiftRight_eq_div_pow]
    simp only [u16]
    omega
  · have hv := pngAdler32_pack state []
    rw [List.foldl_nil, Nat.shiftRight_eq_div_pow] at hv
    simp only [u16] at hv
    omega

/-- Witness for C30 at the state 1 and the bytes `ff ff`. -/
theorem pngAdler32_halves_witness :
    (1 : Nat) < 4294967296 ∧ [255, 255] ≠ ([] : List Nat) ∧
    u16 (__pngAdler32 1 [255, 255]) < 65521 ∧ (__pngAdler32 1 [255, 255]) >>> 16 < 65521 ∧
    __pngAdler32 1 [] = 1 :=
  ⟨by decide, by decide,
    ((pngAdler32_halves 1 [255, 255] (by decide)).1 (by decide)).1,
    ((pngAdler32_halves 1 [255, 255] (by decide)).1 (by decide)).2.1,
    (pngAdler32_halves 1 [255, 255] (by decide)).2⟩

/-! ## The length of a single-block file -/

/-- C27: for `w, h ≥ 1` with payload size `imageSize = (4*w+1)*h ≤ 65535` the
file staged by `pngWrite` has exactly `imageSize + 68` bytes: the 43-byte prefix,
one 5-byte block header, the `imageSize` payload bytes and the 20-byte footer. -/
theorem pngWrite_small_length (img : List Nat) (w h : Nat) (hw : 1 ≤ w) (hh : 1 ≤ h)
    (hs : (4 * w + 1) * h ≤ 65535) :
    ∃ out, pngWrite img w h = Outcome.ok out ∧
      out.length = (4 * w + 1) * h + 68 ∧
      out.length = 43 + 5 + (payload img w h).length + 20 := by
  have hS : (4 * w + 1) * h = payloadSize w h := by unfold payloadSize; ring
  have hwh : 1 ≤ w * h := Nat.mul_pos hw hh
  have hS2 : payloadSize w h = 4 * (w * h) + h := rfl
  rw [hS] at hs ⊢
  obtain ⟨out, hout, hlen⟩ := pngWrite_length img hw hh (by omega)
  have hp := payload_length img w h
  refine ⟨out, hout, ?_, ?_⟩
  · generalize payloadSize w h = S at *
    split_ifs at hlen <;> omega
  · rw [hp]
    generalize payloadSize w h = S at *
    split_ifs at hlen <;> omega

/-- Witness for C27 at the 2 by 2 image of four distinct pixels: 86 bytes. -/
theorem pngWrite_small_length_witness :
    ((4 * 2 + 1) * 2 ≤ 65535) ∧
    ∃ out, pngWrite [0x11223344, 0x55667788, 0x99aabbcc, 0xddeeff00] 2 2 = Outcome.ok out ∧
      out.length = 86 := by
  obtain ⟨out, h1, h2, -⟩ :=
    pngWrite_small_length [0x11223344, 0x55667788, 0x99aabbcc, 0xddeeff00] 2 2 (by decide)
      (by decide) (by decide)
  exact ⟨by decide, out, h1, h2⟩

/-! ## The passes of the emission loop -/

theorem counters_count_pos {w h r x : Nat} {s : EmitState} (hc : Counters w h s r x) :
    0 < s.count := by
  have h1 := hc.scount
  have h6 := hc.hx
  have h7 : w * 1 ≤ w * r := Nat.mul_le_mul_left w hc.hr1
  have h8 := hc.hw
  omega

/-- The run of the loop from a state that satisfies the counter relation: it
ends, every pass but the last leaves the wrap-up branch aside with pixels still
to write, and the last pass takes the wrap-up branch with `count = 0`. -/
theorem loopHeads_from {w h : Nat} (fuel : Nat) :
    ∀ (s : EmitState) (r x : Nat), Counters w h s r x → s.deflateRemain ≤ fuel →
      ∃ (fin last : EmitState) (pre : List EmitState),
        emitLoop (lineSizeOf w) h fuel s = Outcome.ok fin ∧
        loopHeads (lineSizeOf w) h fuel s = pre ++ [last] ∧
        (∀ t ∈ pre ++ [last], ∃ r1 x1, Counters w h t r1 x1) ∧
        (∀ t ∈ pre, ∃ t1, emitBody (lineSizeOf w) h t = Outcome.ok (t1, false) ∧
          0 < t1.count) ∧
        emitBody (lineSizeOf w) h last = Outcome.ok (fin, true) ∧ fin.count = 0 := by
  induction fuel with
  | zero =>
    intro s r x hc hfuel
    have h6 := hc.hx
    have h7 : w * 1 ≤ w * r := Nat.mul_le_mul_left w hc.hr1
    have h9 := hc.sremain
    have h13 := hc.hr1
    omega
  | succ fuel ih =>
    intro s r x hc hfuel
    have h1 := hc.scount
    have h3 := hc.sx
    have h6 := hc.hx
    have h7 : w * 1 ≤ w * r := Nat.mul_le_mul_left w hc.hr1
    have h8 := hc.hw
    have h9 := hc.sremain
    have h12 := hc.sy
    have h13 := hc.hr1
    have h14 := hc.hrh
    have hcount : s.count > 0 := counters_count_pos hc
    have hb := passBytes_bounds hc
    obtain ⟨mid, hbody, marena, mcrc, madler, mx, my, mcount, mrem, mfill, mimg⟩ := emitBody_eq hc
    simp only [emitLoop, loopHeads, hcount, if_true, hbody]
    by_cases hrow : (x : Int) + passBytes w s = 4 * w + 1
    · have hmx : mid.x = lineSizeOf w := by rw [mx, h3]; simp only [lineSizeOf]; omega
      by_cases hlast : r = 1
      · have hmy : mid.y + 1 = (h : Int) := by rw [my, h12, hlast]; omega
        obtain ⟨s2, hw2, a2, c2, d2, x2, y2, n2, r2, -, -⟩ := wrapStep_last_row hmx hmy
        have hpix : passPixels w s = s.count := by
          have h15 : w * r = w := by rw [hlast]; simp
          obtain ⟨c1, c2, -, -⟩ := pass_cases w s
          by_cases hsx : s.x = 0
          · have := c1 hsx; omega
          · have := c2 hsx; omega
        refine ⟨s2, s, [], ?_, ?_, ?_, ?_, ?_, ?_⟩
        · rw [hw2]
        · rw [hw2]; rfl
        · intro t ht
          simp only [List.nil_append, List.mem_singleton] at ht
          rw [ht]
          exact ⟨r, x, hc⟩
        · intro t ht
          simp at ht
        · rw [hbody, hw2]
        · rw [n2, mcount]; omega
      · have hmy : mid.y + 1 ≠ (h : Int) := by rw [my, h12]; omega
        obtain ⟨s2, hw2, a2, c2, d2, x2, y2, n2, r2, f2, i2⟩ := wrapStep_next_row hmx hmy
        have hc2 : Counters w h s2 (r - 1) 0 :=
          counters_next_row hc my mcount mrem mfill mimg hrow (by omega) s2 x2 y2 n2 r2 f2 i2
        have hfuel2 : s2.deflateRemain ≤ fuel := by rw [r2, mrem]; omega
        obtain ⟨fin, last, pre, hrun, hheads, hall, hpre, hlastb, hfin⟩ :=
          ih s2 (r - 1) 0 hc2 hfuel2
        refine ⟨fin, last, s :: pre, ?_, ?_, ?_, ?_, hlastb, hfin⟩
        · rw [hw2]; exact hrun
        · rw [hw2]
          simp only [hheads, List.cons_append]
        · intro t ht
          simp only [List.cons_append, List.mem_cons] at ht
          rcases ht with ht | ht
          · rw [ht]; exact ⟨r, x, hc⟩
          · exact hall t ht
        · intro t ht
          simp only [List.mem_cons] at ht
          rcases ht with ht | ht
          · rw [ht]
            exact ⟨s2, by rw [hbody, hw2], counters_count_pos hc2⟩
          · exact hpre t ht
    · have hmx : mid.x ≠ lineSizeOf w := by rw [mx, h3]; simp only [lineSizeOf]; omega
      have hc2 : Counters w h mid r (x + (passBytes w s).toNat) :=
        counters_same_row hc mx my mcount mrem mfill mimg (by omega)
      have hfuel2 : mid.deflateRemain ≤ fuel := by rw [mrem]; omega
      obtain ⟨fin, last, pre, hrun, hheads, hall, hpre, hlastb, hfin⟩ :=
        ih mid r (x + (passBytes w s).toNat) hc2 hfuel2
      refine ⟨fin, last, s :: pre, ?_, ?_, ?_, ?_, hlastb, hfin⟩
      · rw [wrapStep_same_row hmx]; exact hrun
      · rw [wrapStep_same_row hmx]
        simp only [hheads, List.cons_append]
      · intro t ht
        simp only [List.cons_append, List.mem_cons] at ht
        rcases ht with ht | ht
        · rw [ht]; exact ⟨r, x, hc⟩
        · exact hall t ht
      · intro t ht
        simp only [List.mem_cons] at ht
        rcases ht with ht | ht
        · rw [ht]
          exact ⟨mid, by rw [hbody, wrapStep_same_row hmx], counters_count_pos hc2⟩
        · exact hpre t ht

/-- The run of the emission loop of `pngWrite` on an image with `w, h ≥ 1`. -/
theorem pngWriteHeads_run (img : List Nat) {w h : Nat} (hw : 1 ≤ w) (hh : 1 ≤ h)
    (hsz : 4 * (w * h) < 4294967296) :
    ∃ (fin last : EmitState) (pre : List EmitState),
      emitLoop (lineSizeOf w) h (imgSizeOf w h).toNat (initialState img w h) = Outcome.ok fin ∧
      pngWriteHeads img w h = pre ++ [last] ∧
      (∀ t ∈ pre ++ [last], ∃ r1 x1, Counters w h t r1 x1) ∧
      (∀ t ∈ pre, ∃ t1, emitBody (lineSizeOf w) h t = Outcome.ok (t1, false) ∧
        0 < t1.count) ∧
      emitBody (lineSizeOf w) h last = Outcome.ok (fin, true) ∧ fin.count = 0 := by
  have hc := initial_counters img hw hh hsz
  have hfuel : (initialState img w h).deflateRemain ≤ ((imgSizeOf w h).toNat : Int) := by
    have e := imgSizeOf_eq w h
    simp only [initialState]
    omega
  exact loopHeads_from _ _ h 0 hc hfuel

theorem loopHeads_skip (lineSize height : Int) (fuel : Nat) (s : EmitState)
    (hc : ¬ s.count > 0) : loopHeads lineSize height fuel s = [] := by
  cases fuel <;> simp [loopHeads, hc]

theorem loopHeads_cons (lineSize height : Int) (fuel : Nat) (s : EmitState)
    (hc : s.count > 0) : ∃ rest, loopHeads lineSize height (fuel + 1) s = s :: rest := by
  simp only [loopHeads, hc, if_true]
  exact ⟨_, rfl⟩

theorem pngWriteHeads_head (img : List Nat) {w h : Nat} (hw : 1 ≤ w) (hh : 1 ≤ h) :
    ∃ rest, pngWriteHeads img w h = initialState img w h :: rest := by
  have e := imgSizeOf_eq w h
  have hwh : 1 ≤ w * h := Nat.mul_pos hw hh
  have hk : (imgSizeOf w h).toNat ≠ 0 := by
    rw [e]; simp only [payloadSize]; omega
  obtain ⟨k, hk⟩ := Nat.exists_eq_succ_of_ne_zero hk
  have hcount : (initialState img w h).count > 0 := by
    simp only [initialState]
    have : (0 : Int) < (w : Int) * (h : Int) := by exact_mod_cast hwh
    omega
  unfold pngWriteHeads
  rw [hk]
  exact loopHeads_cons _ _ k _ hcount

/-- At the head of every pass of the emission loop of `pngWrite` the cursor `x`
is inside the row and the current block holds fewer than 65536 bytes. -/
theorem pngWriteHeads_cursor (img : List Nat) {w h : Nat} (hw : 1 ≤ w) (hh : 1 ≤ h)
    (hsz : 4 * (w * h) < 4294967296) :
    ∀ s ∈ pngWriteHeads img w h,
      0 ≤ s.x ∧ s.x < lineSizeOf w ∧ 0 ≤ s.deflateFilled ∧ s.deflateFilled ≤ 65535 ∧
      0 < s.count := by
  obtain ⟨fin, last, pre, -, hheads, hall, -, -, -⟩ := pngWriteHeads_run img hw hh hsz
  intro s hs
  rw [hheads] at hs
  obtain ⟨r, x, hc⟩ := hall s hs
  have h2 := hc.sfilled
  have h3 := hc.sx
  have h6 := hc.hx
  have h9 := counters_count_pos hc
  simp only [lineSizeOf]
  omega

/-! ## The assertions of the emission loop -/

/-- C24: for `w, h ≥ 1` with `4*w*h < 2^31` no pass of the emission loop of
`pngWrite` fails an assertion: at the head of every pass that is entered,
`deflateFilled < K_DEFLATE_MAX_BLOCK_SIZE` holds where it is asserted, the chunk
size `n` is the minimum of `count`, `lineSize - x` and `65536 - deflateFilled`,
and it is not zero; and `pngWrite` runs to the end. -/
theorem pngWrite_asserts_hold (img : List Nat) (w h : Nat) (hw : 1 ≤ w) (hh : 1 ≤ h)
    (hsz : 4 * (w * h) < 2147483648) :
    (∃ out, pngWrite img w h = Outcome.ok out) ∧
    ∀ s ∈ pngWriteHeads img w h,
      (startBlock s).deflateFilled < K_DEFLATE_MAX_BLOCK_SIZE ∧
      chunkSize (lineSizeOf w) (startBlock s) =
        min s.count (min (lineSizeOf w - s.x) (K_DEFLATE_MAX_BLOCK_SIZE - s.deflateFilled)) ∧
      chunkSize (lineSizeOf w) (startBlock s) ≠ 0 ∧
      emitBody (lineSizeOf w) h s ≠ Outcome.assertFailed := by
  have hsz2 : 4 * (w * h) < 4294967296 := by omega
  constructor
  · obtain ⟨arena, body, hout, -, -⟩ := pngWrite_shape img hw hh hsz2
    exact ⟨_, hout⟩
  · obtain ⟨fin, last, pre, -, hheads, hall, -, -, -⟩ := pngWriteHeads_run img hw hh hsz2
    intro s hs
    rw [hheads] at hs
    obtain ⟨r, x, hc⟩ := hall s hs
    have h2 := hc.sfilled
    have h3 := hc.sx
    have h6 := hc.hx
    have h9 := counters_count_pos hc
    have hn := chunkSize_eq hc
    obtain ⟨mid, hbody, -⟩ := emitBody_eq hc
    refine ⟨?_, ?_, ?_, ?_⟩
    · simp only [startBlock_deflateFilled, K_DEFLATE_MAX_BLOCK_SIZE]; omega
    · rw [hn, h3]; simp only [lineSizeOf, K_DEFLATE_MAX_BLOCK_SIZE]
      congr 2
      omega
    · rw [hn]; omega
    · rw [hbody]; exact fun e => nomatch e

/-- Witness for C24 at the 1 by 1 image with pixel `0x11223344`. -/
theorem pngWrite_asserts_hold_witness :
    (4 * (1 * 1) < 2147483648) ∧
    (∃ out, pngWrite [0x11223344] 1 1 = Outcome.ok out) ∧
    ∀ s ∈ pngWriteHeads [0x11223344] 1 1,
      chunkSize (lineSizeOf 1) (startBlock s) ≠ 0 :=
  ⟨by decide, (pngWrite_asserts_hold [0x11223344] 1 1 (by decide) (by decide) (by decide)).1,
    fun s hs =>
      ((pngWrite_asserts_hold [0x11223344] 1 1 (by decide) (by decide) (by decide)).2 s hs).2.2.1⟩

/-! ## The end of the emission loop -/

/-- C25: for `w, h ≥ 1` with `4*w*h < 2^31` the emission loop of `pngWrite` ends
within `imgSize` passes.  Every pass but the last leaves the wrap-up branch aside
and ends with `count > 0`; the last pass takes the wrap-up branch (`x == lineSize`
and `y == height`) and ends with `count = 0`.  The arena then holds the file
header, allocations that are not footers, and one 20-byte footer as its last
allocation, and these are the bytes of the file. -/
theorem pngWrite_loop_terminates (img : List Nat) (w h : Nat) (hw : 1 ≤ w) (hh : 1 ≤ h)
    (hsz : 4 * (w * h) < 2147483648) :
    ∃ (fin last : EmitState) (pre : List EmitState) (body : List Alloc) (footer : List Nat),
      emitLoop (lineSizeOf w) h (imgSizeOf w h).toNat (initialState img w h) = Outcome.ok fin ∧
      pngWriteHeads img w h = pre ++ [last] ∧
      (∀ t ∈ pre, ∃ t1, emitBody (lineSizeOf w) h t = Outcome.ok (t1, false) ∧ 0 < t1.count) ∧
      emitBody (lineSizeOf w) h last = Outcome.ok (fin, true) ∧
      fin.count = 0 ∧ fin.y = h ∧
      fin.arena = ⟨AllocSite.fileHeader, stagedHeader w h (dataSizeOf w h)⟩ :: body ++
        [⟨AllocSite.footer, footer⟩] ∧
      footer.length = 20 ∧
      (∀ a ∈ body, a.site ≠ AllocSite.footer) ∧
      pngWrite img w h = Outcome.ok (staged fin.arena) := by
  have hsz2 : 4 * (w * h) < 4294967296 := by omega
  obtain ⟨fin, last, pre, hrun, hheads, -, hpre, hlast, hcount⟩ :=
    pngWriteHeads_run img hw hh hsz2
  have hc := initial_counters img hw hh hsz2
  have hfuel : (initialState img w h).deflateRemain ≤ ((imgSizeOf w h).toNat : Int) := by
    have e := imgSizeOf_eq w h
    simp only [initialState]
    omega
  obtain ⟨fin2, body, hrun2, hres⟩ := emitLoop_from _ _ h 0 hc hfuel
  have hfin : fin2 = fin := by
    rw [hrun] at hrun2
    injection hrun2 with e
    exact e.symm
  subst hfin
  refine ⟨fin2, last, pre, body,
    footerBytes (crc32Update (initialState img w h).crc (staged body))
      (__pngAdler32 (initialState img w h).adler
        (restPayload w h 0 (initialState img w h).imgBytes)),
    hrun, hheads, hpre, hlast, hcount, hres.y, ?_,
    footerBytes_length _ _, fun a ha => (hres.sites a ha).2, ?_⟩
  · rw [hres.arena]
    simp only [initialState, List.singleton_append, List.cons_append, List.nil_append]
  · simp only [pngWrite, pngWriteArena, hrun]

set_option maxRecDepth 1000000 in
/-- Witness for C25 at the 1 by 1 image with pixel `0x11223344`: one pass. -/
theorem pngWrite_loop_terminates_witness :
    (4 * (1 * 1) < 2147483648) ∧
    (∃ fin, emitLoop (lineSizeOf 1) ((1 : Nat) : Int) (imgSizeOf 1 1).toNat
        (initialState [0x11223344] 1 1) = Outcome.ok fin ∧ fin.count = 0) ∧
    pngWriteHeads [0x11223344] 1 1 = [initialState [0x11223344] 1 1] := by
  obtain ⟨fin, last, pre, body, footer, h1, -, -, -, h5, -⟩ :=
    pngWrite_loop_terminates [0x11223344] 1 1 (by decide) (by decide) (by decide)
  exact ⟨by decide, ⟨fin, h1, h5⟩, by decide⟩

/-! ## The file of an image without pixels -/

/-- C26: for `width = 0` or `height = 0` the emission loop of `pngWrite` is not
entered (`count = 0`), the arena holds the single 43-byte allocation of the file
header (signature, IHDR, IDAT length and type, zlib header) with no block header
and no footer, these 43 bytes are the file, and `pngWrite` returns `YES` when
`blobMake` succeeds. -/
theorem pngWrite_zero_prefix_only (img : List Nat) (w h : Nat) (hz : w = 0 ∨ h = 0) :
    (initialState img w h).count = 0 ∧
    pngWriteHeads img w h = [] ∧
    pngWriteArena img w h =
      Outcome.ok [⟨AllocSite.fileHeader, stagedHeader w h (dataSizeOf w h)⟩] ∧
    pngWrite img w h = Outcome.ok (stagedHeader w h (dataSizeOf w h)) ∧
    (stagedHeader w h (dataSizeOf w h)).length = 43 ∧
    (stagedHeader w h (dataSizeOf w h)).take 16 =
      [0x89, 0x50, 0x4e, 0x47, 0x0d, 0x0a, 0x1a, 0x0a, 0x00, 0x00, 0x00, 0x0d,
        0x49, 0x48, 0x44, 0x52] ∧
    (stagedHeader w h (dataSizeOf w h)).drop 37 = [0x49, 0x44, 0x41, 0x54, 0x08, 0x1d] ∧
    pngWriteReturn img w h true = Outcome.ok true := by
  have hcount : (initialState img w h).count = 0 := by
    simp only [initialState]
    rcases hz with e | e <;> subst e <;> simp
  have hc : ¬ (initialState img w h).count > 0 := by omega
  have hout := pngWrite_zero img w h hz
  refine ⟨hcount, ?_, ?_, hout, stagedHeader_length _ _ _, rfl, rfl, ?_⟩
  · simp only [pngWriteHeads, loopHeads_skip _ _ _ _ hc]
  · simp only [pngWriteArena, emitLoop_skip _ _ _ _ hc]
    simp [initialState]
  · simp only [pngWriteReturn, hout]

set_option maxRecDepth 1000000 in
/-- Witness for C26 at `width = 5`, `height = 0`. -/
theorem pngWrite_zero_prefix_only_witness :
    ((5 : Nat) = 0 ∨ (0 : Nat) = 0) ∧
    pngWriteHeads [] 5 0 = [] ∧
    pngWrite [] 5 0 = Outcome.ok (stagedHeader 5 0 (dataSizeOf 5 0)) ∧
    stagedHeader 5 0 (dataSizeOf 5 0) =
      [0x89, 0x50, 0x4e, 0x47, 0x0d, 0x0a, 0x1a, 0x0a,
       0x00, 0x00, 0x00, 0x0d, 0x49, 0x48, 0x44, 0x52,
       0x00, 0x00, 0x00, 0x05, 0x00, 0x00, 0x00, 0x00, 0x08, 0x06, 0x00, 0x00, 0x00,
       0xdd, 0xa2, 0xb7, 0x56,
       0x00, 0x00, 0x00, 0x06, 0x49, 0x44, 0x41, 0x54,
       0x08, 0x1d] :=
  ⟨Or.inr rfl, (pngWrite_zero_prefix_only [] 5 0 (Or.inr rfl)).2.1,
    (pngWrite_zero_prefix_only [] 5 0 (Or.inr rfl)).2.2.2.1, by decide⟩

/-! ## A changed byte changes the CRC -/

theorem refCrcBit_lt (c : Nat) (hc : c < 4294967296) : refCrcBit c < 4294967296 := by
  unfold refCrcBit
  split_ifs
  · have h1 : c / 2 < 2 ^ 32 := by omega
    have h2 : (0xEDB88320 : Nat) < 2 ^ 32 := by decide
    exact Nat.xor_lt_two_pow h1 h2
  · omega

theorem refCrcBit_ne_zero (c : Nat) (hc : c < 4294967296) (h0 : c ≠ 0) : refCrcBit c ≠ 0 := by
  unfold refCrcBit
  split_ifs with h
  · intro e
    have := Nat.xor_eq_zero.mp e
    omega
  · omega

theorem refCrcBits8_lt (c : Nat) (hc : c < 4294967296) : refCrcBits8 c < 4294967296 := by
  unfold refCrcBits8
  exact refCrcBit_lt _ (refCrcBit_lt _ (refCrcBit_lt _ (refCrcBit_lt _ (refCrcBit_lt _
    (refCrcBit_lt _ (refCrcBit_lt _ (refCrcBit_lt _ hc)))))))

theorem refCrcBits8_ne_zero (c : Nat) (hc : c < 4294967296) (h0 : c ≠ 0) :
    refCrcBits8 c ≠ 0 := by
  unfold refCrcBits8
  have h1 := refCrcBit_lt _ hc
  have h2 := refCrcBit_lt _ h1
  have h3 := refCrcBit_lt _ h2
  have h4 := refCrcBit_lt _ h3
  have h5 := refCrcBit_lt _ h4
  have h6 := refCrcBit_lt _ h5
  have h7 := refCrcBit_lt _ h6
  exact refCrcBit_ne_zero _ h7 (refCrcBit_ne_zero _ h6 (refCrcBit_ne_zero _ h5
    (refCrcBit_ne_zero _ h4 (refCrcBit_ne_zero _ h3 (refCrcBit_ne_zero _ h2
      (refCrcBit_ne_zero _ h1 (refCrcBit_ne_zero _ hc h0)))))))

theorem xor_same_byte (a b d : Nat) : (a ^^^ d) ^^^ (b ^^^ d) = a ^^^ b := by
  rw [Nat.xor_comm b d, ← Nat.xor_assoc, Nat.xor_cancel_right]

/-- The XOR of the states of two runs of `crc32Update` over the same byte is
eight bit steps applied to the XOR of the states before. -/
theorem crcByte_difference (a b d : Nat) (hd : d < 256) :
    crcByte a d ^^^ crcByte b d = refCrcBits8 (a ^^^ b) := by
  rw [crcByte_eq a d hd, crcByte_eq b d hd]
  show refCrcBits8 (a ^^^ d) ^^^ refCrcBits8 (b ^^^ d) = _
  rw [← refCrcBits8_xor, xor_same_byte]

theorem crc32Update_difference (s : List Nat) (hs : ∀ d ∈ s, d < 256) (a b : Nat)
    (hlt : a ^^^ b < 4294967296) (hne : a ^^^ b ≠ 0) :
    crc32Update a s ^^^ crc32Update b s < 4294967296 ∧
      crc32Update a s ^^^ crc32Update b s ≠ 0 := by
  induction s generalizing a b with
  | nil => exact ⟨hlt, hne⟩
  | cons d ds ih =>
    have hd := hs d (List.mem_cons_self d ds)
    have e := crcByte_difference a b d hd
    simp only [crc32Update, List.foldl_cons]
    exact ih (fun x hx => hs x (List.mem_cons_of_mem d hx)) _ _
      (by rw [e]; exact refCrcBits8_lt _ hlt) (by rw [e]; exact refCrcBits8_ne_zero _ hlt hne)

theorem crc32_changed_byte (p s : List Nat) (x y : Nat) (hx : x < 256) (hy : y < 256)
    (hxy : x ≠ y) (hs : ∀ d ∈ s, d < 256) : crc32 (p ++ x :: s) ≠ crc32 (p ++ y :: s) := by
  intro e
  unfold crc32 at e
  have e1 := Nat.xor_left_inj.mp e
  rw [← crc32Update_append, ← crc32Update_append] at e1
  generalize crc32Update 0xffffffff p = c at e1
  have hstep : crc32Update c (x :: s) = crc32Update (crcByte c x) s := rfl
  have hstep2 : crc32Update c (y :: s) = crc32Update (crcByte c y) s := rfl
  rw [hstep, hstep2] at e1
  have hd : crcByte c x ^^^ crcByte c y = refCrcBits8 (x ^^^ y) := by
    rw [crcByte_eq c x hx, crcByte_eq c y hy]
    show refCrcBits8 (c ^^^ x) ^^^ refCrcBits8 (c ^^^ y) = _
    rw [← refCrcBits8_xor, Nat.xor_comm c x, Nat.xor_comm c y, xor_same_byte]
  have hxy1 : x ^^^ y < 4294967296 :=
    Nat.xor_lt_two_pow (show x < 2 ^ 32 by omega) (show y < 2 ^ 32 by omega)
  have hxy2 : x ^^^ y ≠ 0 := fun e0 => hxy (Nat.xor_eq_zero.mp e0)
  have h := crc32Update_difference s hs (crcByte c x) (crcByte c y)
    (by rw [hd]; exact refCrcBits8_lt _ hxy1) (by rw [hd]; exact refCrcBits8_ne_zero _ hxy1 hxy2)
  exact h.2 (Nat.xor_eq_zero.mpr e1)

theorem split_at_index (a : List Nat) (i : Nat) (hi : i < a.length) :
    a = a.take i ++ a.getD i 0 :: a.drop (i + 1) := by
  have h1 := (List.take_append_drop i a).symm
  rw [List.drop_eq_getElem_cons hi] at h1
  have h2 : a.getD i 0 = a[i] := by
    rw [List.getD_eq_getElem?_getD, List.getElem?_eq_getElem hi]
    rfl
  rw [h2]
  exact h1

/-- C23: two byte sequences of the same length that differ in exactly one
position `i` have different `crc32` values. -/
theorem crc32_detects_changed_byte (a b : List Nat) (i : Nat) (hlen : a.length = b.length)
    (hi : i < a.length) (ha : ∀ d ∈ a, d < 256) (hb : ∀ d ∈ b, d < 256)
    (hdiff : a.getD i 0 ≠ b.getD i 0) (hsame : ∀ j, j ≠ i → a.getD j 0 = b.getD j 0) :
    crc32 a ≠ crc32 b := by
  have hib : i < b.length := by omega
  have hget : ∀ (l : List Nat) (j : Nat), j < l.length → l[j]? = some (l.getD j 0) := by
    intro l j hj
    rw [List.getD_eq_getElem?_getD, List.getElem?_eq_getElem hj]
    rfl
  have hq : ∀ j, j ≠ i → a[j]? = b[j]? := by
    intro j hj
    by_cases hja : j < a.length
    · rw [hget a j hja, hget b j (by omega), hsame j hj]
    · rw [List.getElem?_eq_none (by omega), List.getElem?_eq_none (by omega)]
  have htake : a.take i = b.take i := by
    apply List.ext_getElem?
    intro n
    rw [List.getElem?_take, List.getElem?_take]
    split_ifs with hn
    · exact hq n (by omega)
    · rfl
  have hdrop : a.drop (i + 1) = b.drop (i + 1) := by
    apply List.ext_getElem?
    intro n
    rw [List.getElem?_drop, List.getElem?_drop]
    exact hq _ (by omega)
  have ea := split_at_index a i hi
  have eb := split_at_index b i hib
  rw [← htake, ← hdrop] at eb
  have hxa : a.getD i 0 < 256 := by
    have h2 : a.getD i 0 = a[i] := by
      rw [List.getD_eq_getElem?_getD, List.getElem?_eq_getElem hi]
      rfl
    rw [h2]
    exact ha _ (List.getElem_mem _)
  have hxb : b.getD i 0 < 256 := by
    have h2 : b.getD i 0 = b[i] := by
      rw [List.getD_eq_getElem?_getD, List.getElem?_eq_getElem hib]
      rfl
    rw [h2]
    exact hb _ (List.getElem_mem _)
  have hsfx : ∀ d ∈ a.drop (i + 1), d < 256 := fun d hd => ha d (List.mem_of_mem_drop hd)
  rw [ea, eb]
  exact crc32_changed_byte _ _ _ _ hxa hxb hdiff hsfx

set_option maxRecDepth 1000000 in
/-- Witness for C23: `IEND` against `IEMD`, which differ at position 2 only. -/
theorem crc32_detects_changed_byte_witness :
    ([0x49, 0x45, 0x4e, 0x44].length = [0x49, 0x45, 0x4d, 0x44].length ∧
      [0x49, 0x45, 0x4e, 0x44].getD 2 0 ≠ [0x49, 0x45, 0x4d, 0x44].getD 2 0) ∧
    crc32 [0x49, 0x45, 0x4e, 0x44] ≠ crc32 [0x49, 0x45, 0x4d, 0x44] :=
  ⟨by decide,
    crc32_detects_changed_byte [0x49, 0x45, 0x4e, 0x44] [0x49, 0x45, 0x4d, 0x44] 2 (by decide)
      (by decide) (by decide) (by decide) (by decide) (by
        intro j hj
        match j, hj with
        | 0, _ => rfl
        | 1, _ => rfl
        | 2, h => exact absurd rfl h
        | 3, _ => rfl
        | j + 4, _ => rfl)⟩

/-! ## The pixel normaliser applied twice -/

theorem swizzled_shift (a b c d : Nat) (rest : List Nat) (off n : Nat) :
    swizzled (a :: b :: c :: d :: rest) (off + 4) n = swizzled rest off n := by
  induction n generalizing off with
  | zero => rfl
  | succ n ih =>
    simp only [swizzled, ih]
    rfl

theorem swizzled_cons (a b c d : Nat) (rest : List Nat) (n : Nat) :
    swizzled (a :: b :: c :: d :: rest) 0 (n + 1) = c :: b :: a :: d :: swizzled rest 0 n := by
  simp only [swizzled, swizzled_shift]
  rfl

theorem length_four (buf : List Nat) (n : Nat) (h : buf.length = 4 * (n + 1)) :
    ∃ a b c d rest, buf = a :: b :: c :: d :: rest ∧ rest.length = 4 * n := by
  match buf, h with
  | a :: b :: c :: d :: rest, h =>
    exact ⟨a, b, c, d, rest, rfl, by simp only [List.length_cons] at h; omega⟩

theorem swizzled_involution (n : Nat) :
    ∀ buf : List Nat, buf.length = 4 * n →
      swizzled (swizzled buf 0 n) 0 n = buf ∧
      (swizzled buf 0 n = buf ↔ ∀ i, i < n → buf.getD (4 * i) 0 = buf.getD (4 * i + 2) 0) := by
  induction n with
  | zero =>
    intro buf h
    have : buf = [] := List.length_eq_zero.mp (by omega)
    subst this
    exact ⟨rfl, ⟨fun _ i hi => by omega, fun _ => rfl⟩⟩
  | succ n ih =>
    intro buf h
    obtain ⟨a, b, c, d, rest, rfl, hrest⟩ := length_four buf n h
    obtain ⟨ih1, ih2⟩ := ih rest hrest
    constructor
    · rw [swizzled_cons, swizzled_cons, ih1]
    · rw [swizzled_cons]
      constructor
      · intro e
        injection e with e1 e
        injection e with _ e
        injection e with _ e
        injection e with _ e
        intro i hi
        cases i with
        | zero => exact e1.symm
        | succ i =>
          have := ih2.mp e i (by omega)
          have k1 : 4 * (i + 1) = 4 * i + 4 := by omega
          have k2 : 4 * i + 4 + 2 = (4 * i + 2) + 4 := by omega
          rw [k1, k2]
          exact this
      · intro hall
        have h0 := hall 0 (by omega)
        have hc : c = a := h0.symm
        have hr : swizzled rest 0 n = rest := by
          apply ih2.mpr
          intro i hi
          have := hall (i + 1) (by omega)
          have k1 : 4 * (i + 1) = 4 * i + 4 := by omega
          have k2 : 4 * i + 4 + 2 = (4 * i + 2) + 4 := by omega
          rw [k1, k2] at this
          exact this
        rw [hc, hr]

/-- C28: on every buffer of `4*w*h` bytes the pixel normaliser of `pngWrite`
applied twice gives the buffer back, and it leaves the buffer unchanged exactly
when in every pixel byte 0 equals byte 2. -/
theorem swizzle_involution (buf : List Nat) (w h : Nat) (hlen : buf.length = 4 * (w * h)) :
    swizzle (swizzle buf w h) w h = buf ∧
    (swizzle buf w h = buf ↔
      ∀ i, i < w * h → buf.getD (4 * i) 0 = buf.getD (4 * i + 2) 0) := by
  rw [swizzle_eq, swizzle_eq]
  exact swizzled_involution (w * h) buf hlen

/-- Witness for C28 on the two pixels `01 02 03 04`, `05 06 05 08` of a 2 by 1
image: the normaliser applied twice is the identity, and once it changes the
buffer, the first pixel having different bytes 0 and 2. -/
theorem swizzle_involution_witness :
    [1, 2, 3, 4, 5, 6, 5, 8].length = 4 * (2 * 1) ∧
    swizzle (swizzle [1, 2, 3, 4, 5, 6, 5, 8] 2 1) 2 1 = [1, 2, 3, 4, 5, 6, 5, 8] ∧
    swizzle [1, 2, 3, 4, 5, 6, 5, 8] 2 1 = [3, 2, 1, 4, 5, 6, 5, 8] :=
  ⟨rfl, (swizzle_involution [1, 2, 3, 4, 5, 6, 5, 8] 2 1 rfl).1, by decide⟩

/-! ## The quota of a block -/

theorem blockHeaderBytes_full (d : Int) (hd : 65536 < d) :
    blockHeaderBytes d = [0, 0, 0, 255, 255] := by
  have h1 : ¬ (d < K_DEFLATE_MAX_BLOCK_SIZE) := by simp only [K_DEFLATE_MAX_BLOCK_SIZE]; omega
  have h2 : ¬ (d ≤ K_DEFLATE_MAX_BLOCK_SIZE) := by simp only [K_DEFLATE_MAX_BLOCK_SIZE]; omega
  simp only [blockHeaderBytes, if_neg h1, if_neg h2]
  decide

theorem initialState_imgBytes (img : List Nat) (w h : Nat) :
    (initialState img w h).imgBytes = swizzle (imageBytes img) w h := rfl

theorem min_quota (a b : Int) (ha : 65536 ≤ a) (hb : 65536 ≤ b) :
    min a (min b 65536) = 65536 := by
  omega

theorem wide_image_count {w h : Nat} (hw : 16384 ≤ w) (hh : 2 ≤ h) :
    (65536 : Int) ≤ ((4 * (w * h) : Nat) : Int) ∧ (65536 : Int) ≤ 4 * (w : Int) + 1 ∧
      65536 < payloadSize w h := by
  have hwh : w * 2 ≤ w * h := Nat.mul_le_mul_left w hh
  simp only [payloadSize]
  omega

theorem first_pass_wide_bytes (img : List Nat) {w h : Nat} (hw : 16384 ≤ w) (hh : 2 ≤ h)
    (hc : Counters w h (initialState img w h) h 0) :
    passBytes w (initialState img w h) = 65536 ∧
      passPixels w (initialState img w h) = 65535 := by
  have hsh := pass_shape hc
  have hf0 : (initialState img w h).deflateFilled = 0 := rfl
  have hcnt : (initialState img w h).count = (w : Int) * (h : Int) * 4 := rfl
  have hwh : w * 2 ≤ w * h := Nat.mul_le_mul_left w hh
  rw [hf0] at hsh
  rcases hsh with ⟨-, e2, e3, -⟩ | ⟨-, e2, -⟩ | ⟨e1, -⟩
  · constructor <;> omega
  · omega
  · omega

/-- The first pass of the emission loop on an image whose rows are longer than
a block: one block header, the filter byte and 65535 pixel bytes. -/
theorem first_pass_wide (img : List Nat) {w h : Nat} (hw : 16384 ≤ w) (hh : 2 ≤ h)
    (hsz : 4 * (w * h) < 4294967296) :
    chunkSize (lineSizeOf w) (startBlock (initialState img w h)) = 65536 ∧
    ∃ mid, emitBody (lineSizeOf w) h (initialState img w h) = Outcome.ok (mid, false) ∧
      mid.arena = (initialState img w h).arena ++
        [⟨AllocSite.blockHeader, [0, 0, 0, 255, 255]⟩, ⟨AllocSite.filterByte, [0]⟩,
          ⟨AllocSite.pixelData, (initialState img w h).imgBytes.take 65535⟩] ∧
      mid.deflateFilled = 0 ∧
      mid.deflateRemain = (initialState img w h).deflateRemain - 65536 := by
  have hc := initial_counters img (show 1 ≤ w by omega) (show 1 ≤ h by omega) hsz
  have hf0 : (initialState img w h).deflateFilled = 0 := rfl
  have hx0 : (initialState img w h).x = 0 := rfl
  have hcnt : (initialState img w h).count = (w : Int) * (h : Int) * 4 := rfl
  have hrem : (initialState img w h).deflateRemain = imgSizeOf w h := rfl
  have e := imgSizeOf_eq w h
  have hwh : w * 2 ≤ w * h := Nat.mul_le_mul_left w hh
  have hn := chunkSize_eq hc
  obtain ⟨mid, hbody, marena, -, -, mx, -, -, mrem, mfill, -⟩ := emitBody_eq hc
  have hbytes := first_pass_wide_bytes img hw hh hc
  have hwide := wide_image_count hw hh
  generalize initialState img w h = s at *
  have hcn : s.count = ((4 * (w * h) : Nat) : Int) := by
    rw [hcnt]; push_cast; ring
  refine ⟨?_, mid, ?_, ?_, ?_, ?_⟩
  · rw [hn, hf0, hcn]
    simp only [Nat.cast_zero, sub_zero]
    exact min_quota _ _ hwide.1 hwide.2.1
  · rw [hbody, wrapStep_same_row]
    rw [mx, hx0, hbytes.1]
    simp only [lineSizeOf]
    omega
  · rw [marena, hbytes.2]
    have hb : blockHeaderBytes s.deflateRemain = [0, 0, 0, 255, 255] := by
      apply blockHeaderBytes_full
      rw [hrem, e]
      simp only [payloadSize]
      omega
    have ht : (65535 : Int).toNat = 65535 := by decide
    simp only [passPieces, hf0, hx0, if_true, hb, ht, List.append_assoc, List.cons_append,
      List.nil_append]
  · rw [mfill, hf0, hbytes.1]
    simp
  · rw [mrem, hbytes.1]

/-- C22 (the code breaks it): for every image of 16384 by 2 pixels the first
pass of the emission loop starts at `x = 0` with `deflateFilled = 0`; the quota
`K_DEFLATE_MAX_BLOCK_SIZE - deflateFilled` that clamps the chunk is 65536, not
at most 65535, the chunk size `n` is 65536, and the pass puts the filter byte and
65535 pixel bytes, 65536 bytes of payload, behind the one block header
`00 00 00 ff ff` it emits, filling the block (`deflateFilled` is reset to 0). -/
theorem pngWrite_block_quota_65536 (img : List Nat) :
    (∃ rest, pngWriteHeads img 16384 2 = initialState img 16384 2 :: rest) ∧
    (initialState img 16384 2).x = 0 ∧
    K_DEFLATE_MAX_BLOCK_SIZE - (initialState img 16384 2).deflateFilled = 65536 ∧
    chunkSize (lineSizeOf 16384) (startBlock (initialState img 16384 2)) = 65536 ∧
    (initialState img 16384 2).imgBytes.length = 131072 ∧
    ∃ mid, emitBody (lineSizeOf 16384) ((2 : Nat) : Int) (initialState img 16384 2) =
        Outcome.ok (mid, false) ∧
      mid.arena = (initialState img 16384 2).arena ++
        [⟨AllocSite.blockHeader, [0, 0, 0, 255, 255]⟩, ⟨AllocSite.filterByte, [0]⟩,
          ⟨AllocSite.pixelData, (initialState img 16384 2).imgBytes.take 65535⟩] ∧
      mid.deflateFilled = 0 ∧
      mid.deflateRemain = (initialState img 16384 2).deflateRemain - 65536 := by
  have h := first_pass_wide img (le_refl 16384) (le_refl 2) (by decide)
  have hf0 : (initialState img 16384 2).deflateFilled = 0 := rfl
  refine ⟨pngWriteHeads_head img (by decide) (by decide), rfl, ?_, h.1, ?_, h.2⟩
  · rw [hf0]
    decide
  · rw [initialState_imgBytes, swizzle_length]

end Kore
